import Mathlib

/-!
# TubeStash download orchestration: worker (`native-host/host.js`) and client (`background.js`)

A shallow embedding of the download orchestration code of the TubeStash extension.

* JavaScript `Map`s and plain objects are insertion-ordered association lists (`JsMap`).
* Every event-loop callback is one function on an explicit state.  The worker state `Host`
  holds the three module-level structures of `host.js` (`downloadState`, `activeProcs`,
  `downloadQueue`) together with the closures of the child processes that have been spawned
  and have not yet delivered their `close` event.
* The client state `Client` holds the module-level variables of `background.js`, the
  `videos` entry of `browser.storage.local`, and logs of the effects the code issues
  (UI broadcasts, HTTP requests, `upsertVideo` calls, `startDownload` calls).
* An `async` function of `background.js` is run to completion as one step: its `await`s
  resolve in program order and no other callback is interleaved.  A call that the source
  does not `await` (`startDownload` inside `processQueue`) is a step of its own.
* Library and operating-system behaviour enters as data of the event that observes it:
  the exit code of a process, the text it wrote, the outcome of an HTTP request, the result
  of `JSON.parse` and of the file-system calls of the finalize step, and the collation
  `String.prototype.localeCompare`.
* Item ids are strings.  Calls into the file system and into `browser.storage.local` do not
  fail.  Logging, the cookie files, `cleanupOldVideos`, `pollFeeds`, the subscription sync
  and the `clear-and-redownload` and `delete-video` messages are outside the model.
-/

namespace TubeStash

/-! ## JavaScript values, strings and maps -/

abbrev VideoId := String

/-- A `Map` (or plain object) with string keys, as its entries in insertion order. -/
abbrev JsMap (β : Type) := List (String × β)

namespace JsMap

variable {β : Type}

/-- The call `m.get(k)`: the value of the first (only) entry under `k`, `none` for `undefined`. -/
def get : JsMap β → String → Option β
  | [], _ => none
  | (k', v) :: m, k => if k' = k then some v else get m k

/-- The call `m.has(k)`. -/
def has (m : JsMap β) (k : String) : Bool := (get m k).isSome

/-- The call `m.set(k, v)`: an existing entry keeps its position, a new one goes last. -/
def set : JsMap β → String → β → JsMap β
  | [], k, v => [(k, v)]
  | (k', v') :: m, k, v => if k' = k then (k, v) :: m else (k', v') :: set m k v

/-- The call `m.delete(k)`. -/
def delete (m : JsMap β) (k : String) : JsMap β := m.filter (fun e => !decide (e.1 = k))

/-- The call `m.size`. -/
def size (m : JsMap β) : Nat := m.length

end JsMap

/-- The values stored in the fields of an item record. -/
inductive JsVal where
  | undefined
  | null
  | bool (b : Bool)
  | num (n : Int)
  | str (s : String)
  deriving DecidableEq, Repr

/-- A plain object: property name to value. -/
abbrev Obj := JsMap JsVal

/-- Object spread `{ ...a, ...b }`. -/
def spread (a b : Obj) : Obj := b.foldl (fun acc e => JsMap.set acc e.1 e.2) a

/-- The characters `String.prototype.trim` strips and `\s` matches
(ECMAScript WhiteSpace and LineTerminator). -/
def isJsSpace (c : Char) : Bool :=
  c.val = 0x09 || c.val = 0x0A || c.val = 0x0B || c.val = 0x0C || c.val = 0x0D ||
  c.val = 0x20 || c.val = 0xA0 || c.val = 0x1680 ||
  (0x2000 ≤ c.val && c.val ≤ 0x200A) ||
  c.val = 0x2028 || c.val = 0x2029 || c.val = 0x202F || c.val = 0x205F ||
  c.val = 0x3000 || c.val = 0xFEFF

/-- The call `s.trim()` on the characters of `s`. -/
def trimChars (l : List Char) : List Char :=
  ((l.dropWhile isJsSpace).reverse.dropWhile isJsSpace).reverse

/-- The call `s.trim()`. -/
def jsTrim (s : String) : String := String.mk (trimChars s.data)

/-- The call `s.split('\n')` on the characters of `s`. -/
def splitLines : List Char → List (List Char)
  | [] => [[]]
  | c :: cs =>
    if c = '\n' then [] :: splitLines cs
    else
      match splitLines cs with
      | [] => [[c]]
      | l :: ls => (c :: l) :: ls

/-- The call `s.startsWith(p)` on characters. -/
def startsWithChars : List Char → List Char → Bool
  | _, [] => true
  | [], _ :: _ => false
  | c :: cs, p :: ps => c = p && startsWithChars cs ps

/-- The suffix of `l` that `l.slice(l.lastIndexOf(p))` returns, `none` when `p` does not
occur (`lastIndexOf` is `-1`). -/
def sliceFromLast (p : List Char) : List Char → Option (List Char)
  | [] => if p = [] then some [] else none
  | c :: cs =>
    match sliceFromLast p cs with
    | some r => some r
    | none => if startsWithChars (c :: cs) p then some (c :: cs) else none

/-- The call `arr.splice(idx, 1)` at `idx = arr.findIndex(p)`, when `idx !== -1`: the first element
that satisfies `p` is removed. -/
def spliceFirst {α : Type} (p : α → Bool) : List α → List α
  | [] => []
  | q :: rest => if p q then rest else q :: spliceFirst p rest

/-- The operand `a || b` on a string that may be missing: the empty string is falsy. -/
def strOr (a : Option String) (b : String) : String :=
  match a with
  | some s => if s = "" then b else s
  | none => b

/-! ## Worker: `native-host/host.js` -/

/-- The `status` of a job state. -/
inductive Status where
  | queued
  | downloading
  | done
  | error
  deriving DecidableEq, Repr

/-- A non-negative decimal number `mantissa / 10 ^ scale`: the values `percent` takes
(`0`, `100`, or `parseFloat` of a match of `\d+\.?\d*`). -/
structure Decimal where
  mantissa : Nat
  scale : Nat
  deriving DecidableEq, Repr

/-- An entry of `downloadState`. -/
structure JobState where
  status : Status
  percent : Decimal
  speed : Option String
  eta : Option String
  filePath : Option String
  thumbnailPath : Option String
  fileSize : Option Nat
  duration : Option Int
  description : Option String
  error : Option String
  deriving DecidableEq, Repr

/-- An entry of the worker's `downloadQueue`. -/
structure QueueEntry where
  videoId : VideoId
  cookies : Option String
  deriving DecidableEq, Repr

/-- The closure of one `launchDownload` call: the variables its stream and exit callbacks
share. -/
structure Proc where
  videoId : VideoId
  cookies : Option String
  stdout : String
  stderrBuf : String
  lastProgressTime : Nat
  deriving DecidableEq, Repr

/-- The worker state: the module-level structures of `host.js`, and `procs`, the child
processes spawned so far whose `close` event has not been delivered, by process handle. -/
structure Host where
  downloadState : JsMap JobState
  activeProcs : JsMap Nat
  downloadQueue : List QueueEntry
  procs : List (Nat × Proc)
  nextPid : Nat
  deriving DecidableEq, Repr

/-- The state of a freshly started worker. -/
def Host.init : Host := ⟨[], [], [], [], 0⟩

namespace Host

def MAX_CONCURRENT : Nat := 2

/-- The job state `startDownload` stores for a job that has to wait. -/
def queuedJob : JobState :=
  ⟨.queued, ⟨0, 0⟩, none, none, none, none, none, none, none, none⟩

/-- The job state `launchDownload` stores. -/
def downloadingJob : JobState :=
  ⟨.downloading, ⟨0, 0⟩, none, none, none, none, none, none, none, none⟩

/-- The job state the `close` handler stores for a failed job that has no entry. -/
def failedJob (errorLine : String) : JobState :=
  ⟨.error, ⟨0, 0⟩, none, none, none, none, none, none, none, some errorLine⟩

/-- The function `launchDownload(videoId, cookies)`: store the `downloading` state, spawn the process
and register it in `activeProcs`. -/
def launchDownload (s : Host) (videoId : VideoId) (cookies : Option String) : Host :=
  { s with
    downloadState := s.downloadState.set videoId downloadingJob
    activeProcs := s.activeProcs.set videoId s.nextPid
    procs := s.procs ++ [(s.nextPid, ⟨videoId, cookies, "", "", 0⟩)]
    nextPid := s.nextPid + 1 }

/-- The function `startDownload(videoId, cookies)`. -/
def startDownload (s : Host) (videoId : VideoId) (cookies : Option String) : Host :=
  if s.activeProcs.has videoId then s
  else if s.activeProcs.size ≥ MAX_CONCURRENT then
    { s with
      downloadQueue := s.downloadQueue ++ [⟨videoId, cookies⟩]
      downloadState := s.downloadState.set videoId queuedJob }
  else launchDownload s videoId cookies

/-- The `while` loop of `drainQueue`; the first argument is the current `downloadQueue`. -/
def drainLoop : List QueueEntry → Host → Host
  | [], s => { s with downloadQueue := [] }
  | next :: rest, s =>
    if s.activeProcs.size < MAX_CONCURRENT then
      if s.activeProcs.has next.videoId then drainLoop rest { s with downloadQueue := rest }
      else drainLoop rest (launchDownload { s with downloadQueue := rest } next.videoId next.cookies)
    else { s with downloadQueue := next :: rest }

/-- The function `drainQueue()`. -/
def drainQueue (s : Host) : Host := drainLoop s.downloadQueue s

/-- The function `cancelDownload(videoId)`. -/
def cancelDownload (s : Host) (videoId : VideoId) : Host :=
  { s with
    activeProcs := s.activeProcs.delete videoId
    downloadQueue := spliceFirst (fun q => decide (q.videoId = videoId)) s.downloadQueue
    downloadState := s.downloadState.delete videoId }

/-- The `POST /api/ack` handler. -/
def ack (s : Host) (videoId : VideoId) : Host :=
  match s.downloadState.get videoId with
  | some st =>
    if st.status = .done ∨ st.status = .error then
      { s with downloadState := s.downloadState.delete videoId }
    else s
  | none => s

/-! ### Progress lines -/

/-- One element of the progress pattern: a literal character, an optional literal
character (`c?`), or a greedy run of a character class (`+` or `*`). -/
inductive Pat where
  | ch (c : Char)
  | optCh (c : Char)
  | plus (p : Char → Bool)
  | star (p : Char → Bool)

/-- The first result of `f hi, f (hi - 1), ..., f lo`: a greedy quantifier gives back one
character at a time. -/
def firstDown {α : Type} (f : Nat → Option α) (lo : Nat) : Nat → Option α
  | 0 => if lo = 0 then f 0 else none
  | k + 1 =>
    if k + 1 < lo then none
    else
      match f (k + 1) with
      | some r => some r
      | none => firstDown f lo k

/-- Backtracking match of a pattern at the start of the input: the text each element
matched, in order. -/
def matchAt : List Pat → List Char → Option (List (List Char))
  | [], _ => some []
  | Pat.ch c :: ps, input =>
    match input with
    | x :: xs => if x = c then (matchAt ps xs).map (fun r => [x] :: r) else none
    | [] => none
  | Pat.optCh c :: ps, input =>
    let taken :=
      match input with
      | x :: xs => if x = c then (matchAt ps xs).map (fun r => [x] :: r) else none
      | [] => none
    match taken with
    | some r => some r
    | none => (matchAt ps input).map (fun r => [] :: r)
  | Pat.plus p :: ps, input =>
    firstDown (fun k => (matchAt ps (input.drop k)).map (fun r => input.take k :: r)) 1
      (input.takeWhile p).length
  | Pat.star p :: ps, input =>
    firstDown (fun k => (matchAt ps (input.drop k)).map (fun r => input.take k :: r)) 0
      (input.takeWhile p).length

/-- The leftmost match of a pattern in the input (`String.prototype.match` without flags). -/
def matchFirst (ps : List Pat) : List Char → Option (List (List Char))
  | [] => matchAt ps []
  | c :: cs =>
    match matchAt ps (c :: cs) with
    | some r => some r
    | none => matchFirst ps cs

/-- The class `\d`. -/
def isDigit (c : Char) : Bool := 0x30 ≤ c.val && c.val ≤ 0x39

/-- The class `\S`. -/
def isNonSpace (c : Char) : Bool := !isJsSpace c

/-- The pattern `/(\d+\.?\d*)%\s+of\s+\S+\s+at\s+(\S+)\s+ETA\s+(\S+)/`. -/
def progressPattern : List Pat :=
  [ .plus isDigit, .optCh '.', .star isDigit, .ch '%', .plus isJsSpace, .ch 'o', .ch 'f',
    .plus isJsSpace, .plus isNonSpace, .plus isJsSpace, .ch 'a', .ch 't', .plus isJsSpace,
    .plus isNonSpace, .plus isJsSpace, .ch 'E', .ch 'T', .ch 'A', .plus isJsSpace,
    .plus isNonSpace ]

/-- The number a string of decimal digits denotes. -/
def digitsToNat (l : List Char) : Nat := l.foldl (fun n c => 10 * n + (c.toNat - 48)) 0

/-- The call `line.match(...)` on a progress line: `parseFloat(match[1])`, `match[2]`, `match[3]`. -/
def progressMatch (line : List Char) : Option (Decimal × String × String) :=
  match matchFirst progressPattern line with
  | some pieces =>
    let whole := pieces.getD 0 []
    let frac := pieces.getD 2 []
    some (⟨digitsToNat (whole ++ frac), if pieces.getD 1 [] = [] then 0 else frac.length⟩,
      String.mk (pieces.getD 13 []), String.mk (pieces.getD 19 []))
  | none => none

/-! ### Stream and exit callbacks -/

/-- The callback `proc.stdout.on('data', ...)`. -/
def stdoutHandler (c : Proc) (chunk : String) : Proc :=
  { c with stdout := c.stdout ++ chunk }

/-- The callback `proc.stderr.on('data', ...)`; `now` is `Date.now()`. -/
def stderrHandler (s : Host) (c : Proc) (chunk : String) (now : Nat) : Host × Proc :=
  let c := { c with stderrBuf := c.stderrBuf ++ chunk }
  let line := trimChars chunk.data
  if line = [] then (s, c)
  else if (now : Int) - (c.lastProgressTime : Int) < 1000 then (s, c)
  else
    let c := { c with lastProgressTime := now }
    match progressMatch line with
    | some (percent, speed, eta) =>
      match s.downloadState.get c.videoId with
      | some st =>
        ({ s with
          downloadState := s.downloadState.set c.videoId
            { st with percent := percent, speed := some speed, eta := some eta } }, c)
      | none => (s, c)
    | none => (s, c)

/-- The text of an exit code in a template string. -/
def codeText : Option Int → String
  | none => "null"
  | some n => toString n

/-- The diagnostic of a failed process: the last line of `stderrBuf` that starts with
`ERROR:` after trimming, else the generic message. -/
def errorLine (stderrBuf : String) (code : Option Int) : String :=
  let marked := ((splitLines stderrBuf.data).map trimChars).filter
    (fun l => startsWithChars l "ERROR:".data)
  match marked.getLast? with
  | some l => String.mk l
  | none => "yt-dlp exited with code " ++ codeText code

/-- What the finalize step of the `close` handler derives from the metadata and the file
system: `relFile`, `relThumb`, `fileSize`, `duration`, `description`. -/
structure Finalized where
  relFile : String
  relThumb : Option String
  fileSize : Option Nat
  duration : Option Int
  description : String
  deriving DecidableEq, Repr

/-- The text handed to `JSON.parse`: `stdout` from its last `"\n{"` on, or all of it,
trimmed. -/
def jsonStr (stdout : String) : String :=
  match sliceFromLast "\n\x7b".data stdout.data with
  | some r => String.mk (trimChars r)
  | none => String.mk (trimChars stdout.data)

/-- The callback `proc.on('close', ...)` in the closure `c`.  `finalize` is the outcome of the `try`
block up to the state update, as a function of the text handed to `JSON.parse`:
`Except.error msg` when it throws an exception with message `msg`. -/
def closeHandler (s : Host) (c : Proc) (code : Option Int)
    (finalize : String → Except String Finalized) : Host :=
  let s := drainQueue { s with activeProcs := s.activeProcs.delete c.videoId }
  if code ≠ some 0 then
    match s.downloadState.get c.videoId with
    | some st =>
      { s with
        downloadState := s.downloadState.set c.videoId
          { st with status := .error, error := some (errorLine c.stderrBuf code) } }
    | none =>
      { s with
        downloadState := s.downloadState.set c.videoId (failedJob (errorLine c.stderrBuf code)) }
  else
    match finalize (jsonStr c.stdout) with
    | .ok m =>
      match s.downloadState.get c.videoId with
      | some st =>
        { s with
          downloadState := s.downloadState.set c.videoId
            { st with
              status := .done, percent := ⟨100, 0⟩, filePath := some m.relFile,
              thumbnailPath := m.relThumb, fileSize := m.fileSize, duration := m.duration,
              description := some m.description } }
      | none => s
    | .error message =>
      match s.downloadState.get c.videoId with
      | some st =>
        { s with
          downloadState := s.downloadState.set c.videoId
            { st with status := .error, error := some ("Metadata parse error: " ++ message) } }
      | none => s

/-- The callback `proc.on('error', ...)` in the closure `c`. -/
def errorHandler (s : Host) (c : Proc) (message : String) : Host :=
  let s := drainQueue { s with activeProcs := s.activeProcs.delete c.videoId }
  match s.downloadState.get c.videoId with
  | some st =>
    { s with
      downloadState := s.downloadState.set c.videoId
        { st with status := .error, error := some ("Spawn error: " ++ message) } }
  | none => s

/-! ### Events of the worker -/

/-- The closure of the child process with handle `pid`. -/
def findProc : List (Nat × Proc) → Nat → Option Proc
  | [], _ => none
  | (p, c) :: rest, pid => if p = pid then some c else findProc rest pid

/-- Replace the closure of the child process with handle `pid`. -/
def updateProc : List (Nat × Proc) → Nat → Proc → List (Nat × Proc)
  | [], _, _ => []
  | (p, c) :: rest, pid, c' =>
    if p = pid then (p, c') :: rest else (p, c) :: updateProc rest pid c'

/-- The requests and process callbacks the worker reacts to. -/
inductive Event where
  | submit (videoId : VideoId) (cookies : Option String)
  | cancel (videoId : VideoId)
  | ack (videoId : VideoId)
  | stdoutData (pid : Nat) (chunk : String)
  | stderrData (pid : Nat) (chunk : String) (now : Nat)
  | close (pid : Nat) (code : Option Int) (finalize : String → Except String Finalized)
  | error (pid : Nat) (message : String)

/-- One turn of the worker's event loop.  A process callback for a handle that is not in
`procs` cannot occur and leaves the state as it is; `close` is the last callback of a
process. -/
def step (s : Host) : Event → Host
  | .submit videoId cookies => startDownload s videoId cookies
  | .cancel videoId => cancelDownload s videoId
  | .ack videoId => ack s videoId
  | .stdoutData pid chunk =>
    match findProc s.procs pid with
    | some c => { s with procs := updateProc s.procs pid (stdoutHandler c chunk) }
    | none => s
  | .stderrData pid chunk now =>
    match findProc s.procs pid with
    | some c =>
      let r := stderrHandler s c chunk now
      { r.1 with procs := updateProc r.1.procs pid r.2 }
    | none => s
  | .close pid code finalize =>
    match findProc s.procs pid with
    | some c =>
      closeHandler { s with procs := s.procs.filter (fun e => decide (e.1 ≠ pid)) } c code finalize
    | none => s
  | .error pid message =>
    match findProc s.procs pid with
    | some c => errorHandler s c message
    | none => s

/-- The state after a sequence of events. -/
def run (s : Host) (es : List Event) : Host := es.foldl step s

/-- Whether the event, handled in state `s`, is a submission of `videoId` or the exit of a
process that was launched for `videoId`. -/
def concerns (videoId : VideoId) (s : Host) : Event → Bool
  | .submit v _ => decide (v = videoId)
  | .close pid _ _ =>
    match findProc s.procs pid with
    | some c => decide (c.videoId = videoId)
    | none => false
  | _ => false

/-- No event of the sequence, handled from `s` on, is a submission of `videoId` or the exit
of a process launched for it. -/
def quiet (videoId : VideoId) : Host → List Event → Bool
  | _, [] => true
  | s, e :: es => !concerns videoId s e && quiet videoId (step s e) es

/-- The job `videoId` has no entry in `downloadState` and none in `downloadQueue`. -/
def Forgotten (videoId : VideoId) (s : Host) : Prop :=
  s.downloadState.get videoId = none ∧ ∀ e ∈ s.downloadQueue, e.videoId ≠ videoId

end Host

/-! ## Client: `background.js` -/

/-- The call `Array.prototype.sort(cmp)`, which the language requires to be stable: a stable
insertion sort (`a` goes before `b` when `cmp(a, b) <= 0`). -/
def insertSorted {α : Type} (cmp : α → α → Int) (a : α) : List α → List α
  | [] => [a]
  | b :: l => if cmp a b ≤ 0 then a :: b :: l else b :: insertSorted cmp a l

/-- The call `Array.prototype.sort(cmp)`. -/
def jsSort {α : Type} (cmp : α → α → Int) : List α → List α
  | [] => []
  | a :: l => insertSorted cmp a (jsSort cmp l)

/-- An entry of the client's `downloadQueue`. -/
structure QueueItem where
  videoId : VideoId
  published_at : String
  deriving DecidableEq, Repr

/-- The argument of `enqueueDownload`; a missing property is `none`. -/
structure VideoInfo where
  id : VideoId
  title : Option String
  channel_id : Option String
  channel_name : Option String
  published_at : Option String
  deriving DecidableEq, Repr

/-- The argument of `onDownloadDone`. -/
structure DoneMsg where
  videoId : VideoId
  filePath : Option String
  thumbnailPath : Option String
  fileSize : Option Nat
  duration : Option Int
  description : Option String
  deriving DecidableEq, Repr

/-- The argument of `onDownloadError`. -/
structure ErrorMsg where
  videoId : VideoId
  error : Option String
  deriving DecidableEq, Repr

/-- The messages `broadcastToUI` sends. -/
inductive UiMsg where
  | connectionRestored
  | connectionLost
  | downloadProgress (videoId : VideoId) (percent : Decimal) (speed eta : Option String)
  | downloadStarted (videoId : VideoId)
  | downloadComplete (videoId : VideoId)
  | downloadError (videoId : VideoId) (error : Option String)
  | queueUpdated
  deriving DecidableEq, Repr

/-- The requests the client posts to the worker. -/
inductive ApiCall where
  | download (videoId : VideoId) (cookies : Option String)
  | ack (videoId : VideoId)
  | cancel (videoId : VideoId)
  deriving DecidableEq, Repr

/-- The outcome of `await apiPost('/api/download', ...)`: the worker answers `{ok}`, it
answers an error body, or the request throws. -/
inductive PostOutcome where
  | ok
  | rejected (error : String)
  | throws (message : String)
  deriving DecidableEq, Repr

/-- The client state.  `videos` is the `videos` entry of `browser.storage.local`, `lastPoll`
tells whether a `lastPoll` entry is stored, `checkPeriod` is the period (in minutes) of the
`check-connection` alarm.  The remaining fields record effects: `ui` the broadcasts, `api`
the requests posted, `upserts` the ids `upsertVideo` was called for, `startCalls` the ids
`startDownload` was called for, `feedPolls` the number of `pollFeeds()` calls issued by
`checkConnection`, and `peakActive` the largest `activeDownloads.size` reached so far. -/
structure Client where
  videos : JsMap Obj
  downloadQueue : List QueueItem
  activeDownloads : JsMap Status
  connected : Bool
  concurrency : Nat
  pollTimer : Bool
  lastPoll : Bool
  checkPeriod : Decimal
  ui : List UiMsg
  api : List ApiCall
  upserts : List VideoId
  startCalls : List VideoId
  feedPolls : Nat
  peakActive : Nat
  deriving DecidableEq, Repr

/-- The client after start-up with the ceiling `concurrency` read from the settings and the
persisted record store `videos`. -/
def Client.init (concurrency : Nat) (videos : JsMap Obj) (lastPoll : Bool) : Client :=
  { videos := videos, downloadQueue := [], activeDownloads := [], connected := false,
    concurrency := concurrency, pollTimer := false, lastPoll := lastPoll,
    checkPeriod := ⟨5, 1⟩, ui := [], api := [], upserts := [], startCalls := [],
    feedPolls := 0, peakActive := 0 }

/-- An empty client with ceiling `concurrency`: no records, nothing queued, nothing active. -/
def Client.fresh (concurrency : Nat) (connected : Bool) : Client :=
  { Client.init concurrency [] false with connected := connected }

namespace Client

/-- A string or `null`. -/
def optStr : Option String → JsVal
  | some s => .str s
  | none => .null

/-- A number or `null`. -/
def optNum : Option Int → JsVal
  | some n => .num n
  | none => .null

/-- The function `broadcastToUI(msg)`. -/
def broadcastToUI (s : Client) (msg : UiMsg) : Client := { s with ui := s.ui ++ [msg] }

/-- The function `apiPost(path, body)` as far as the request is issued. -/
def apiPost (s : Client) (call : ApiCall) : Client := { s with api := s.api ++ [call] }

/-- The function `getVideo(videoId)`. -/
def getVideo (s : Client) (videoId : VideoId) : Option Obj := s.videos.get videoId

/-- The function `upsertVideo(videoId, fields)`: `videos[videoId] = { ...videos[videoId], ...fields, id }`. -/
def upsertVideo (s : Client) (videoId : VideoId) (fields : Obj) : Client :=
  { s with
    videos := s.videos.set videoId
      (JsMap.set (spread ((s.videos.get videoId).getD []) fields) "id" (.str videoId))
    upserts := s.upserts ++ [videoId] }

/-- The call `activeDownloads.set(videoId, { status })`. -/
def setActive (s : Client) (videoId : VideoId) (status : Status) : Client :=
  { s with
    activeDownloads := s.activeDownloads.set videoId status
    peakActive := max s.peakActive (s.activeDownloads.set videoId status).size }

/-- The call `activeDownloads.delete(videoId)`. -/
def deleteActive (s : Client) (videoId : VideoId) : Client :=
  { s with activeDownloads := s.activeDownloads.delete videoId }

/-- The function `updatePollTimer()`. -/
def updatePollTimer (s : Client) : Client :=
  let hasActive := decide (s.activeDownloads.size > 0) || decide (s.downloadQueue.length > 0)
  if hasActive && !s.pollTimer then { s with pollTimer := true }
  else if !hasActive && s.pollTimer then { s with pollTimer := false }
  else s

/-- The `while` loop of `processQueue`; the first argument is the current `downloadQueue`.
The call `startDownload(videoId)` is recorded; its body runs as a later step. -/
def processLoop : List QueueItem → Client → Client
  | [], s => { s with downloadQueue := [] }
  | next :: rest, s =>
    if s.activeDownloads.size < s.concurrency then
      let s := setActive { s with downloadQueue := rest } next.videoId .downloading
      processLoop rest { s with startCalls := s.startCalls ++ [next.videoId] }
    else { s with downloadQueue := next :: rest }

/-- The function `processQueue()`. -/
def processQueue (s : Client) : Client := processLoop s.downloadQueue s

/-- The body of `startDownload(videoId)`; `cookies` is the result of `getYouTubeCookies()`
and `post` the outcome of the submission request. -/
def startDownload (s : Client) (videoId : VideoId) (cookies : Option String)
    (post : PostOutcome) : Client :=
  let s := upsertVideo s videoId [("status", .str "downloading"), ("error_message", .null)]
  let s := broadcastToUI s (.downloadStarted videoId)
  if !s.connected then
    upsertVideo (deleteActive s videoId) videoId
      [("status", .str "error"), ("error_message", .str "Host not connected")]
  else
    let s := apiPost s (.download videoId cookies)
    match post with
    | .throws message =>
      upsertVideo (deleteActive s videoId) videoId
        [("status", .str "error"), ("error_message", .str ("API error: " ++ message))]
    | _ => updatePollTimer s

/-- The function `onDownloadDone(msg)`; `now` is `new Date().toISOString()`.  The call of
`cleanupOldVideos()`, which is not awaited, is not part of this step. -/
def onDownloadDone (s : Client) (msg : DoneMsg) (now : String) : Client :=
  let s := deleteActive s msg.videoId
  let s := upsertVideo s msg.videoId
    [("status", .str "done"), ("file_path", optStr msg.filePath),
      ("thumbnail_path", optStr msg.thumbnailPath),
      ("file_size", optNum (msg.fileSize.map Int.ofNat)), ("duration", optNum msg.duration),
      ("width", .null), ("height", .null),
      ("description", .str (strOr msg.description "")), ("downloaded_at", .str now),
      ("error_message", .null)]
  let s := broadcastToUI s (.downloadComplete msg.videoId)
  processQueue s

/-- The function `onDownloadError(msg)`. -/
def onDownloadError (s : Client) (msg : ErrorMsg) : Client :=
  let s := deleteActive s msg.videoId
  let s := upsertVideo s msg.videoId
    [("status", .str "error"), ("error_message", optStr msg.error)]
  let s := broadcastToUI s (.downloadError msg.videoId msg.error)
  processQueue s

/-- The body of the loop of `pollDownloadStatus` over the entries of the snapshot. -/
def pollEntry (now : String) (s : Client) (e : VideoId × JobState) : Client :=
  let s :=
    if e.2.status = .downloading ∨ e.2.status = .queued then
      broadcastToUI s (.downloadProgress e.1 e.2.percent e.2.speed e.2.eta)
    else s
  let s :=
    if e.2.status = .done ∧ s.activeDownloads.get e.1 ≠ some .done then
      apiPost
        (onDownloadDone (setActive s e.1 .done)
          ⟨e.1, e.2.filePath, e.2.thumbnailPath, e.2.fileSize, e.2.duration, e.2.description⟩ now)
        (.ack e.1)
    else s
  if e.2.status = .error ∧ s.activeDownloads.get e.1 ≠ some .error then
    apiPost (onDownloadError (setActive s e.1 .error) ⟨e.1, e.2.error⟩) (.ack e.1)
  else s

/-- The function `pollDownloadStatus()`; `response` is the snapshot `GET /api/downloads` returned, `none`
when the request throws. -/
def pollDownloadStatus (s : Client) (response : Option (JsMap JobState)) (now : String) :
    Client :=
  if !s.connected then s
  else
    match response with
    | some downloads =>
      let s := downloads.foldl (pollEntry now) s
      updatePollTimer
        { s with
          activeDownloads := s.activeDownloads.filter (fun e =>
            !(!JsMap.has downloads e.1 && (decide (e.2 = .done) || decide (e.2 = .error)))) }
    | none => updatePollTimer s

/-- The test `existing && (existing.status === 'done' || existing.status === 'downloading')`
of `enqueueDownload`. -/
def alreadyHandled (s : Client) (videoId : VideoId) : Bool :=
  match getVideo s videoId with
  | some existing =>
    decide (JsMap.get existing "status" = some (.str "done")) ||
      decide (JsMap.get existing "status" = some (.str "downloading"))
  | none => false

/-- The fields `enqueueDownload` upserts. -/
def enqueueFields (videoInfo : VideoInfo) (isShort : Bool) : Obj :=
  [("title", .str (strOr videoInfo.title videoInfo.id)),
    ("channel_id", .str (strOr videoInfo.channel_id "")),
    ("channel_name", .str (strOr videoInfo.channel_name "")),
    ("published_at",
      if strOr videoInfo.published_at "" = "" then .null
      else .str (strOr videoInfo.published_at "")),
    ("is_short", .bool isShort), ("status", .str "queued")]

/-- The comparator of the backlog,
`(a, b) => (b.published_at || '').localeCompare(a.published_at || '')`. -/
def backlogOrder (localeCompare : String → String → Int) (a b : QueueItem) : Int :=
  localeCompare (strOr (some b.published_at) "") (strOr (some a.published_at) "")

/-- The `push` and `sort` of `enqueueDownload`, skipped when the id is in the backlog. -/
def pushSorted (localeCompare : String → String → Int) (s : Client) (videoInfo : VideoInfo) :
    Client :=
  if s.downloadQueue.any (fun q => decide (q.videoId = videoInfo.id)) then s
  else
    { s with
      downloadQueue := jsSort (backlogOrder localeCompare)
        (s.downloadQueue ++ [⟨videoInfo.id, strOr videoInfo.published_at ""⟩]) }

/-- The function `enqueueDownload(videoInfo)`; `localeCompare` is `String.prototype.localeCompare` and
`isShort` the result of `checkIsShort`. -/
def enqueueDownload (localeCompare : String → String → Int) (s : Client) (videoInfo : VideoInfo)
    (isShort : Bool) : Client :=
  if alreadyHandled s videoInfo.id then s
  else
    let s := upsertVideo s videoInfo.id (enqueueFields videoInfo isShort)
    let s := pushSorted localeCompare s videoInfo
    broadcastToUI (processQueue s) .queueUpdated

/-- The `cancel-download` message handler. -/
def cancelDownload (s : Client) (videoId : VideoId) : Client :=
  let s :=
    if s.activeDownloads.has videoId then deleteActive (apiPost s (.cancel videoId)) videoId
    else s
  let s :=
    { s with
      downloadQueue := spliceFirst (fun q => decide (q.videoId = videoId)) s.downloadQueue }
  upsertVideo s videoId [("status", .str "error"), ("error_message", .str "Cancelled")]

/-- The function `checkConnection()`; `ping` is the truthiness of `result && result.ok` for the answer of
`GET /api/ping`, `none` when the request throws. -/
def checkConnection (s : Client) (ping : Option Bool) : Client :=
  let s :=
    match ping with
    | some ok =>
      if ok && !s.connected then
        let s := broadcastToUI { s with connected := true } .connectionRestored
        if !s.lastPoll then { s with feedPolls := s.feedPolls + 1 } else s
      else if !ok && s.connected then
        broadcastToUI { s with connected := false } .connectionLost
      else { s with connected := ok }
    | none =>
      if s.connected then broadcastToUI { s with connected := false } .connectionLost else s
  { s with checkPeriod := if s.connected then ⟨1, 0⟩ else ⟨5, 1⟩ }

/-- The backlog is ordered newest first: of two entries the later one is not newer in the
collation `localeCompare`. -/
def Descending (localeCompare : String → String → Int) (q : List QueueItem) : Prop :=
  q.Pairwise (fun a b => localeCompare b.published_at a.published_at ≤ 0)

/-- The callbacks of the client's event loop. -/
inductive Event where
  | enqueue (videoInfo : VideoInfo) (isShort : Bool)
  | processQueue
  | startDownload (videoId : VideoId) (cookies : Option String) (post : PostOutcome)
  | poll (response : Option (JsMap JobState)) (now : String)
  | done (msg : DoneMsg) (now : String)
  | error (msg : ErrorMsg)
  | cancel (videoId : VideoId)
  | checkConnection (ping : Option Bool)
  deriving DecidableEq, Repr

/-- One turn of the client's event loop. -/
def step (localeCompare : String → String → Int) (s : Client) : Event → Client
  | .enqueue videoInfo isShort => enqueueDownload localeCompare s videoInfo isShort
  | .processQueue => processQueue s
  | .startDownload videoId cookies post => startDownload s videoId cookies post
  | .poll response now => pollDownloadStatus s response now
  | .done msg now => onDownloadDone s msg now
  | .error msg => onDownloadError s msg
  | .cancel videoId => cancelDownload s videoId
  | .checkConnection ping => checkConnection s ping

/-- The state after a sequence of callbacks. -/
def run (localeCompare : String → String → Int) (s : Client) (es : List Event) : Client :=
  es.foldl (step localeCompare) s

/-- The `status` field of the record of `videoId`, `none` when there is no record or no
such field. -/
def recordStatus (s : Client) (videoId : VideoId) : Option JsVal :=
  (s.videos.get videoId).bind (fun r => JsMap.get r "status")

/-- Whether the callback `e`, run in state `s`, is a terminal transition of `a`:
`onDownloadDone` or `onDownloadError` is processed for `a`, directly or for a snapshot that
reports `a` as `done` or `error`, or the submission of `a` fails. -/
def terminalFor (a : VideoId) (s : Client) : Event → Bool
  | .done msg _ => decide (msg.videoId = a)
  | .error msg => decide (msg.videoId = a)
  | .startDownload videoId _ post =>
    decide (videoId = a) &&
      (!s.connected ||
        match post with
        | .throws _ => true
        | _ => false)
  | .poll (some downloads) _ =>
    s.connected &&
      downloads.any (fun e =>
        decide (e.1 = a) && (decide (e.2.status = .done) || decide (e.2.status = .error)))
  | _ => false

/-- Whether the callback `e`, run in state `s`, takes `a` out of `activeDownloads`: a
terminal transition of `a`, or the `cancel-download` message for `a`. -/
def releases (a : VideoId) (s : Client) (e : Event) : Bool :=
  terminalFor a s e || decide (e = .cancel a)

/-- No callback of the sequence, run from `s`, satisfies `p` in the state it is run in. -/
def never (localeCompare : String → String → Int) (p : Client → Event → Bool) :
    Client → List Event → Bool
  | _, [] => true
  | s, e :: es => !p s e && never localeCompare p (step localeCompare s e) es

/-- Comparison of two strings by code points: a collation that agrees with
`localeCompare` on texts of digits in one fixed layout, such as ISO timestamps. -/
def compareChars : List Char → List Char → Int
  | [], [] => 0
  | [], _ :: _ => -1
  | _ :: _, [] => 1
  | a :: as, b :: bs =>
    if a.toNat < b.toNat then -1 else if b.toNat < a.toNat then 1 else compareChars as bs

/-- Code-point comparison of strings. -/
def codePointCompare (a b : String) : Int := compareChars a.data b.data

/-! ### Predicates on client states used in the proofs -/

/-- The size bound between two callbacks, and the bound on the peak. -/
def Bounded (s : Client) : Prop :=
  s.activeDownloads.size ≤ s.concurrency ∧ s.peakActive ≤ s.concurrency + 1

/-- What a handler may do to the entry of `i` in `activeDownloads` and to its record while it
works on other ids: the record is kept, the entry is kept or set to `downloading`, and the
broadcasts so far are kept. -/
def Spares (i : VideoId) (s s' : Client) : Prop :=
  s'.videos.get i = s.videos.get i ∧
    (s'.activeDownloads.get i = s.activeDownloads.get i ∨
      s'.activeDownloads.get i = some .downloading) ∧
    ∃ new, s'.ui = s.ui ++ new

/-- The one slot of a client with ceiling 1 is taken by `a`, the only id started so far. -/
def Occupied (a : VideoId) (s : Client) : Prop :=
  s.concurrency = 1 ∧ s.activeDownloads = [(a, .downloading)] ∧ s.startCalls = [a]

/-- The backlog has an entry for `b`. -/
def Queued (b : VideoId) (s : Client) : Prop := ∃ q ∈ s.downloadQueue, q.videoId = b

/-! ### Sample data -/

/-- A snapshot in which the worker reports the job `A` as `done`. -/
def doneSnapshot : JsMap JobState :=
  [("A", ⟨.done, ⟨100, 0⟩, none, none, some "videos/channels/c/A.mp4", none, some 10, some 5,
    some "", none⟩)]

/-- The item `A`, published on 2024-01-02. -/
def itemA : VideoInfo := ⟨"A", some "a", none, none, some "2024-01-02"⟩

/-- The item `B`, published on 2024-01-01. -/
def itemB : VideoInfo := ⟨"B", some "b", none, none, some "2024-01-01"⟩

/-- A connected client with ceiling 2 that has started `A` and `B`: `A` is submitted and
tracked as `downloading`, the submission of `B` is still under way, and the poll timer
runs. -/
def tracking : Client :=
  run codePointCompare (Client.init 2 [] false)
    [.checkConnection (some true), .enqueue itemA false, .enqueue itemB false,
      .startDownload "A" none .ok]

end Client

/-! ## Second part of the model: Control API answers, finalize step, static files, feeds -/

/-- The order of two decimal numbers. -/
def Decimal.lt (a b : Decimal) : Prop :=
  a.mantissa * 10 ^ b.scale < b.mantissa * 10 ^ a.scale

namespace Host

/-- The JSON body a handler of the Control API answers with: `{ok: true}`, or
`{error: message}` with status 400. -/
inductive ApiAnswer where
  | ok
  | error (message : String)
  deriving DecidableEq, Repr

/-- The `POST /api/ack` handler for a request whose body parses to `{videoId}`: the new
state and the answer. -/
def ackRequest (s : Host) (videoId : VideoId) : Host × ApiAnswer :=
  (ack s videoId, .ok)

/-- What the `close` handler reads from the parsed metadata: `filename` and `_filename`
(`undefined` when the property is missing), `duration` and `description` (`none` when
missing). -/
structure Meta where
  filename : JsVal
  altFilename : JsVal
  duration : Option Decimal
  description : Option String
  deriving DecidableEq, Repr

/-- Whether a value is truthy. -/
def truthy : JsVal → Bool
  | .undefined => false
  | .null => false
  | .bool b => b
  | .num n => n != 0
  | .str s => s != ""

/-- The library and file-system calls of the finalize step: `JSON.parse` (`Except.error` with
the message of the exception it throws, `none` for the value `null`), `fs.statSync(p).size`
(`none` when it throws), the relocation of the thumbnail of a file (`Except.error` when
`copyFileSync` throws, else `relThumb`), and `path.relative(ROOT, p)` with the separators
replaced. -/
structure FinalizeEnv where
  parse : String → Except String (Option Meta)
  statSize : String → Option Nat
  moveThumbnail : String → Except String (Option String)
  relative : String → String

/-- The value `meta.filename || meta._filename`. -/
def filePathOf (m : Meta) : JsVal :=
  if truthy m.filename then m.filename else m.altFilename

/-- The call `Math.round(x)` on a non-negative decimal number. -/
def roundDecimal (d : Decimal) : Int :=
  Int.ofNat ((2 * d.mantissa + 10 ^ d.scale) / (2 * 10 ^ d.scale))

/-- The value `meta.duration ? Math.round(meta.duration) : null`. -/
def durationOf (m : Meta) : Option Int :=
  match m.duration with
  | some d => if d.mantissa = 0 then none else some (roundDecimal d)
  | none => none

/-- The message of the `TypeError` thrown by `filePath.replace(...)` when `filePath` is not a
string. -/
def replaceError : JsVal → String
  | .undefined => "Cannot read properties of undefined (reading 'replace')"
  | .null => "Cannot read properties of null (reading 'replace')"
  | _ => "filePath.replace is not a function"

/-- The `try` block of the `close` handler up to the state update, on the text handed to
`JSON.parse`.  Reading a property of `null`, and calling `replace` on a file path that is
not a string, throw a `TypeError`. -/
def finalizeBody (env : FinalizeEnv) (text : String) : Except String Finalized :=
  match env.parse text with
  | .error message => .error message
  | .ok none => .error "Cannot read properties of null (reading 'filename')"
  | .ok (some m) =>
    match filePathOf m with
    | .str filePath =>
      match env.moveThumbnail filePath with
      | .error message => .error message
      | .ok relThumb =>
        .ok ⟨env.relative filePath, relThumb, env.statSize filePath, durationOf m,
          strOr m.description ""⟩
    | v => .error (replaceError v)

/-! ### Static files -/

/-- The call `p.split('/')` on the characters of a path. -/
def splitSlash : List Char → List (List Char)
  | [] => [[]]
  | c :: cs =>
    if c = '/' then [] :: splitSlash cs
    else
      match splitSlash cs with
      | [] => [[c]]
      | l :: ls => (c :: l) :: ls

/-- The segments of a normalized absolute path: empty segments and `.` are dropped, `..`
drops the segment before it (and nothing at the root).  The first argument holds the
segments kept so far, last one first. -/
def normalizeSegments : List (List Char) → List (List Char) → List (List Char)
  | kept, [] => kept.reverse
  | kept, seg :: rest =>
    if seg = [] ∨ seg = ['.'] then normalizeSegments kept rest
    else if seg = ['.', '.'] then normalizeSegments kept.tail rest
    else normalizeSegments (seg :: kept) rest

/-- The segments joined by `/`. -/
def joinSegments : List (List Char) → List Char
  | [] => []
  | [seg] => seg
  | seg :: rest => seg ++ '/' :: joinSegments rest

/-- The call `path.normalize(p)` of the POSIX `path` module on an absolute path. -/
def normalizePath (p : List Char) : List Char :=
  let body := joinSegments (normalizeSegments [] (splitSlash p))
  if body = [] then ['/']
  else if p.getLast? = some '/' then '/' :: body ++ ['/']
  else '/' :: body

/-- The call `path.join(dir, rel)` of the POSIX `path` module for an absolute `dir`. -/
def pathJoin (dir rel : List Char) : List Char :=
  if rel = [] then normalizePath dir else normalizePath (dir ++ '/' :: rel)

/-- The constant `VIDEOS_DIR`, `path.join(ROOT, 'videos')`, for the directory `root` of the
worker. -/
def VIDEOS_DIR (root : String) : String := String.mk (pathJoin root.data "videos".data)

/-- The static file handler from the decoded request path to the traversal check: the file
path it goes on to stat and serve, `none` when it answers 403. -/
def resolveStatic (root : String) (decodedPath : String) : Option String :=
  let relPath := decodedPath.data.dropWhile (fun c => c = '/')
  let filePath := pathJoin (VIDEOS_DIR root).data relPath
  if startsWithChars filePath (VIDEOS_DIR root).data then some (String.mk filePath) else none

/-- The path `p` is the directory `dir` or lies inside it. -/
def Inside (dir p : String) : Prop :=
  p = dir ∨ startsWithChars p.data (dir.data ++ ['/']) = true

end Host

namespace Client

/-- The function `pollFeeds()`, run to completion.  `settingsConcurrency` is
`settings.concurrency` (0 when it is missing), `hasChannels` tells whether
`settings.channels` is non-empty, and `feed` lists the feed entries that pass the age
filter, in order, each with the result of `checkIsShort`.  Every branch ends by storing a
`lastPoll` entry. -/
def pollFeeds (localeCompare : String → String → Int) (s : Client) (settingsConcurrency : Nat)
    (hasChannels : Bool) (feed : List (VideoInfo × Bool)) : Client :=
  let s := { s with concurrency := if settingsConcurrency = 0 then 2 else settingsConcurrency }
  if !hasChannels then { s with lastPoll := true }
  else if !s.connected then { s with lastPoll := true }
  else
    { feed.foldl (fun t e => enqueueDownload localeCompare t e.1 e.2) s with lastPoll := true }

/-- The value of the field `k` in the record of `videoId`. -/
def recordField (s : Client) (videoId : VideoId) (k : String) : Option JsVal :=
  (s.videos.get videoId).bind (fun r => JsMap.get r k)

end Client

namespace Host

/-! ### Sample data of the worker -/

/-- A worker whose Job Store holds a finished job `b` and a running job `a`. -/
def twoJobs : Host :=
  { Host.init with
    downloadState := [("a", downloadingJob), ("b", { downloadingJob with status := .done })] }

/-- A worker with the running job `a`, whose stderr holds a warning and two error lines. -/
def failing : Host × Proc :=
  (launchDownload Host.init "a" none,
    ⟨"a", none, "", "WARNING: slow\nERROR: first\n  ERROR: second \nbye\n", 0⟩)

/-- The text is not parsable as JSON, or it parses to `null`, or the parsed metadata has
neither a `filename` nor a `_filename`. -/
def Unusable (env : FinalizeEnv) (text : String) : Prop :=
  match env.parse text with
  | .error _ => True
  | .ok none => True
  | .ok (some m) => m.filename = .undefined ∧ m.altFilename = .undefined

/-- A finalize environment in which the text parses to metadata without a file name. -/
def noFilename : FinalizeEnv :=
  { parse := fun _ => .ok (some ⟨.undefined, .undefined, some ⟨125, 1⟩, some "d"⟩)
    statSize := fun _ => none
    moveThumbnail := fun _ => .ok none
    relative := fun p => p }

/-- A worker with the running job `a`, whose process printed a progress line and a JSON
object. -/
def finishing : Host × Proc :=
  (launchDownload Host.init "a" none,
    ⟨"a", none, "[download] 100%\n\x7b\"id\": \"a\"\x7d\n", "", 0⟩)

/-- The worker after `x` and `y` were launched, `a` was submitted twice and then
cancelled. -/
def cancelledTwice : Host :=
  run Host.init
    [.submit "x" none, .submit "y" none, .submit "a" none, .submit "a" none, .cancel "a"]

end Host

namespace Client

/-- Every record of the store carries its key in the field `id`. -/
def KeyedById (videos : JsMap Obj) : Prop :=
  ∀ (k : VideoId) (r : Obj), videos.get k = some r → JsMap.get r "id" = some (.str k)

end Client

/-! ## Third part of the model: settings, progress samples, byte ranges -/

/-- The order `a ≤ b` of two decimal numbers. -/
def Decimal.le (a b : Decimal) : Prop :=
  a.mantissa * 10 ^ b.scale ≤ b.mantissa * 10 ^ a.scale

instance (a b : Decimal) : Decidable (Decimal.le a b) := by
  unfold Decimal.le
  exact inferInstance

namespace Options

/-- The value of a digit of the radix 10 or 16, `none` for every other character. -/
def digitValue (radix : Nat) (c : Char) : Option Nat :=
  if 0x30 ≤ c.toNat ∧ c.toNat ≤ 0x39 then some (c.toNat - 0x30)
  else if radix = 16 ∧ 0x61 ≤ c.toNat ∧ c.toNat ≤ 0x66 then some (c.toNat - 0x61 + 10)
  else if radix = 16 ∧ 0x41 ≤ c.toNat ∧ c.toNat ≤ 0x46 then some (c.toNat - 0x41 + 10)
  else none

/-- The values of the longest prefix of the input that consists of digits of the radix. -/
def digitsPrefix (radix : Nat) : List Char → List Nat
  | [] => []
  | c :: cs =>
    match digitValue radix c with
    | some d => d :: digitsPrefix radix cs
    | none => []

/-- The sign of the input of `parseInt` and the input without it. -/
def splitSign : List Char → Bool × List Char
  | '-' :: rest => (true, rest)
  | '+' :: rest => (false, rest)
  | l => (false, l)

/-- The radix `parseInt` chooses when none is given, and the input without the prefix
`0x` or `0X`. -/
def splitRadix : List Char → Nat × List Char
  | '0' :: 'x' :: rest => (16, rest)
  | '0' :: 'X' :: rest => (16, rest)
  | l => (10, l)

/-- The call `parseInt(text)`: leading white space is skipped, then come an optional sign,
an optional hexadecimal prefix and the longest run of digits; `none` is `NaN`.  The result is
the exact integer; where JavaScript rounds it to a double, the comparisons with 1 and 4
below come out the same. -/
def parseInt (text : String) : Option Int :=
  let signed := splitSign (text.data.dropWhile isJsSpace)
  let based := splitRadix signed.2
  match digitsPrefix based.1 based.2 with
  | [] => none
  | d :: ds =>
    let n : Int := Int.ofNat ((d :: ds).foldl (fun a x => based.1 * a + x) 0)
    some (if signed.1 then -n else n)

/-- The operand `parseInt(text) || 2`: `NaN` and `0` are falsy. -/
def parseIntOr2 (text : String) : Int :=
  match parseInt text with
  | none => 2
  | some n => if n = 0 then 2 else n

/-- The value the save handler of the options page stores as `concurrency`,
`Math.min(4, Math.max(1, parseInt(concurrencyInput.value) || 2))`. -/
def savedConcurrency (text : String) : Int := min 4 (max 1 (parseIntOr2 text))

end Options

namespace Host

/-! ### Progress samples of one process -/

/-- The `stderr` callback of one process on a sequence of chunks, each with its arrival
time, when nothing else touches the worker in between. -/
def feedChunks (s : Host) (c : Proc) : List (String × Nat) → Host × Proc
  | [] => (s, c)
  | (chunk, now) :: rest =>
    feedChunks (stderrHandler s c chunk now).1 (stderrHandler s c chunk now).2 rest

/-- Specification side: the chunks that pass the throttle, a chunk passing when it is not
blank and arrives at least 1000 ms after `last`, the arrival time of the chunk that passed
before it. -/
def passing (last : Nat) : List (String × Nat) → List (String × Nat)
  | [] => []
  | (chunk, now) :: rest =>
    if trimChars chunk.data ≠ [] ∧ (last : Int) + 1000 ≤ (now : Int) then
      (chunk, now) :: passing now rest
    else passing last rest

/-- Specification side: the progress triple of the most recent chunk that passed the
throttle and contains a triple. -/
def latestPassingSample (last : Nat) (chunks : List (String × Nat)) :
    Option (Decimal × String × String) :=
  ((passing last chunks).filterMap (fun x => progressMatch (trimChars x.1.data))).getLast?

/-- Specification side: the progress triple of the most recent chunk that contains a
triple, whether it passed the throttle or not. -/
def latestSample (chunks : List (String × Nat)) : Option (Decimal × String × String) :=
  (chunks.filterMap (fun x => progressMatch (trimChars x.1.data))).getLast?

/-- Whether the `stderr` callback, called in the closure `c` with the Job Store of `s`,
reaches the assignments to `state.percent`, `state.speed` and `state.eta`. -/
def assignsProgress (s : Host) (c : Proc) (chunk : String) (now : Nat) : Bool :=
  decide (trimChars chunk.data ≠ []) && !decide ((now : Int) - (c.lastProgressTime : Int) < 1000) &&
    (progressMatch (trimChars chunk.data)).isSome && (s.downloadState.get c.videoId).isSome

/-- The arrival times of the chunks for which the `stderr` callback of one process assigns
the progress fields.  Every call comes with the state of the worker at that moment, so
that any other events may lie between two chunks. -/
def updateTimes (c : Proc) : List (Host × String × Nat) → List Nat
  | [] => []
  | (s, chunk, now) :: rest =>
    (if assignsProgress s c chunk now then [now] else []) ++
      updateTimes (stderrHandler s c chunk now).2 rest

/-- The progress sample of a `stderr` event is at most 100 percent; true for events that
carry no sample. -/
def tame : Event → Bool
  | .stderrData _ chunk _ =>
    match progressMatch (trimChars chunk.data) with
    | some sample => decide (Decimal.le sample.1 ⟨100, 0⟩)
    | none => true
  | _ => true

/-! ### Shape of a job state -/

/-- The fields the finalize step derives. -/
def derivedFields (st : JobState) :
    Option String × Option String × Option Nat × Option Int × Option String :=
  (st.filePath, st.thumbnailPath, st.fileSize, st.duration, st.description)

/-- The job waits or runs. -/
def pending (st : JobState) : Bool :=
  decide (st.status = .queued) || decide (st.status = .downloading)

/-- The error text is a non-empty string. -/
def hasErrorText (st : JobState) : Bool :=
  match st.error with
  | some e => decide (e ≠ "")
  | none => false

/-- The parts of the consistency of a job state that every event preserves: a pending job
has no derived field and no error text, a failed job has an error text, a finished job has
a file path. -/
def Consistent (st : JobState) : Prop :=
  (pending st = true → derivedFields st = (none, none, none, none, none) ∧ st.error = none) ∧
    (st.status = .error → hasErrorText st = true) ∧
    (st.status = .done → st.filePath ≠ none)

/-! ### Byte ranges -/

/-- The pattern `/bytes=(\d+)-(\d*)/`. -/
def rangePattern : List Pat :=
  [.ch 'b', .ch 'y', .ch 't', .ch 'e', .ch 's', .ch '=', .plus isDigit, .ch '-', .star isDigit]

/-- What the static file handler answers for an existing file: 206 with the bounds of
`Content-Range` and the `Content-Length`, 416, or 200 with the `Content-Length`. -/
inductive StaticAnswer where
  | partialContent (start end_ contentLength : Int)
  | rangeNotSatisfiable
  | whole (contentLength : Nat)
  deriving DecidableEq, Repr

/-- The range handling of the static file handler for a file of `size` bytes; `range` is
`req.headers.range`. -/
def rangeAnswer (size : Nat) (range : Option String) : StaticAnswer :=
  match range with
  | none => .whole size
  | some r =>
    if r = "" then .whole size
    else
      match matchFirst rangePattern r.data with
      | some pieces =>
        let start : Int := Int.ofNat (digitsToNat (pieces.getD 6 []))
        let end_ : Int :=
          if pieces.getD 8 [] = [] then (size : Int) - 1
          else Int.ofNat (digitsToNat (pieces.getD 8 []))
        if start ≥ size ∨ end_ ≥ size then .rangeNotSatisfiable
        else .partialContent start end_ (end_ - start + 1)
      | none => .whole size

end Host

/-! ### Predicates and sample data for the third part -/

namespace JsMap

variable {β : Type}

/-- The keys of the map are distinct. -/
def Distinct (m : JsMap β) : Prop := (m.map Prod.fst).Nodup

end JsMap

namespace Host

/-- The worker after `x` and `y` were launched and `a` was submitted twice. -/
def queuedTwice : Host :=
  run Host.init [.submit "x" none, .submit "y" none, .submit "a" none, .submit "a" none]

/-- The worker after `x` and `y` were launched, `z` was queued, `x` was cancelled and `w`
was submitted; the process of `x` has not closed yet. -/
def overtaken : Host :=
  run Host.init
    [.submit "x" none, .submit "y" none, .submit "z" none, .cancel "x", .submit "w" none]

/-- A finalize step that succeeds. -/
def finalizeOk : String → Except String Finalized :=
  fun _ => .ok ⟨"videos/channels/c/v.mp4", none, some 10, some 5, ""⟩

/-- How one event of the worker can leave the job state of an id, given the state `old`
it had before: unchanged, freshly stored by `startDownload` or `launchDownload`, with the
progress sample of a `stderr` chunk, marked as failed, or finalized.  The close and error
handlers run `drainQueue` first, so the state they mark may be the one `launchDownload`
has just stored. -/
inductive Rewrites (e : Event) (old : Option JobState) : JobState → Prop where
  | keep (st : JobState) : old = some st → Rewrites e old st
  | queued : Rewrites e old queuedJob
  | launched : Rewrites e old downloadingJob
  | progress (st : JobState) (pid : Nat) (chunk : String) (now : Nat)
      (sample : Decimal × String × String) :
      e = .stderrData pid chunk now → old = some st →
      progressMatch (trimChars chunk.data) = some sample →
      Rewrites e old { st with percent := sample.1, speed := some sample.2.1, eta := some sample.2.2 }
  | failed (st : JobState) (message : String) :
      old = some st ∨ st = downloadingJob → message ≠ "" →
      Rewrites e old { st with status := .error, error := some message }
  | failedFresh (message : String) : message ≠ "" → Rewrites e old (failedJob message)
  | finished (st : JobState) (m : Finalized) :
      old = some st ∨ st = downloadingJob →
      Rewrites e old
        { st with
          status := .done, percent := ⟨100, 0⟩, filePath := some m.relFile,
          thumbnailPath := m.relThumb, fileSize := m.fileSize, duration := m.duration,
          description := some m.description }

/-- The worker after `a` was launched and its process reported 45.2 percent. -/
def reporting : Host :=
  run Host.init
    [.submit "a" none,
      .stderrData 0 "[download]  45.2% of 100.00MiB at 5.00MiB/s ETA 00:10" 5000]

/-- The worker with the running job `a`, and the closure of its process. -/
def running : Host × Proc :=
  (launchDownload Host.init "a" none, ⟨"a", none, "", "", 0⟩)

/-- Two progress lines that arrive 500 ms apart. -/
def closeChunks : List (String × Nat) :=
  [("[download]  10.0% of 100.00MiB at 5.00MiB/s ETA 00:18", 5000),
    ("[download]  50.0% of 100.00MiB at 5.00MiB/s ETA 00:10", 5500)]

/-- Three progress lines, the second one 400 ms after the first. -/
def threeChunks : List (String × Nat) :=
  [("[download]  10.0% of 100.00MiB at 5.00MiB/s ETA 00:18", 5000),
    ("[download]  12.0% of 100.00MiB at 5.00MiB/s ETA 00:17", 5400),
    ("[download]  30.0% of 100.00MiB at 5.00MiB/s ETA 00:14", 6000)]

/-- The worker after `a` and `b` were launched, `a` was cancelled and submitted again: the
killed process 0 of `a` has not closed yet, its new process is 2. -/
def resubmitted : Host :=
  run Host.init [.submit "a" none, .submit "b" none, .cancel "a", .submit "a" none]

/-- The worker after `a` was launched, cancelled and submitted again, the killed process
exited, and the new process exited with code 0 and usable metadata. -/
def finishedAfterLateClose : Host :=
  run Host.init
    [.submit "a" none, .cancel "a", .submit "a" none, .close 0 none finalizeOk,
      .close 1 (some 0) finalizeOk]

/-- The worker after `a` was launched, its process 0 reported 10.0 percent at 5000, and `a`
was cancelled and submitted again (process 1); the killed process 0 has not closed yet. -/
def resubmittedWhileReporting : Host :=
  run Host.init
    [.submit "a" none,
      .stderrData 0 "[download]  10.0% of 100.00MiB at 5.00MiB/s ETA 00:18" 5000,
      .cancel "a", .submit "a" none]

end Host

/-! ## Facts about maps -/

namespace JsMap

variable {β : Type}

theorem get_set_self (m : JsMap β) (k : String) (v : β) : get (set m k v) k = some v := by
  induction m with
  | nil => simp [set, get]
  | cons e m ih =>
    obtain ⟨k', v'⟩ := e
    by_cases h : k' = k <;> simp [set, get, h, ih]

theorem get_set_of_ne (m : JsMap β) {k k' : String} (v : β) (h : k' ≠ k) :
    get (set m k v) k' = get m k' := by
  induction m with
  | nil => simp [set, get, Ne.symm h]
  | cons e m ih =>
    obtain ⟨k₀, v₀⟩ := e
    by_cases h₀ : k₀ = k
    · subst h₀
      simp [set, get, Ne.symm h]
    · by_cases h₁ : k₀ = k'
      · subst h₁
        simp [set, get, h₀]
      · simp [set, get, h₀, h₁, ih]

theorem get_delete_self (m : JsMap β) (k : String) : get (delete m k) k = none := by
  induction m with
  | nil => simp [delete, get]
  | cons e m ih =>
    obtain ⟨k', v'⟩ := e
    by_cases h : k' = k
    · simpa [delete, List.filter_cons, h] using ih
    · simpa [delete, List.filter_cons, h, get] using ih

theorem get_delete_of_ne (m : JsMap β) {k k' : String} (h : k' ≠ k) :
    get (delete m k) k' = get m k' := by
  induction m with
  | nil => simp [delete, get]
  | cons e m ih =>
    obtain ⟨k₀, v₀⟩ := e
    by_cases h₀ : k₀ = k
    · subst h₀
      simpa [delete, List.filter_cons, get, Ne.symm h] using ih
    · by_cases h₁ : k₀ = k'
      · subst h₁
        simp [delete, List.filter_cons, get, h₀]
      · simpa [delete, List.filter_cons, get, h₀, h₁] using ih

theorem has_set (m : JsMap β) (k k' : String) (v : β) :
    has (set m k v) k' = (decide (k' = k) || has m k') := by
  by_cases h : k' = k
  · subst h
    simp [has, get_set_self]
  · simp [has, get_set_of_ne m v h, h]

theorem has_delete (m : JsMap β) (k k' : String) :
    has (delete m k) k' = (!decide (k' = k) && has m k') := by
  by_cases h : k' = k
  · subst h
    simp [has, get_delete_self]
  · simp [has, get_delete_of_ne m h, h]

theorem size_set_le (m : JsMap β) (k : String) (v : β) : size (set m k v) ≤ size m + 1 := by
  induction m with
  | nil => simp [set, size]
  | cons e m ih =>
    obtain ⟨k', v'⟩ := e
    by_cases h : k' = k
    · simp [set, size, h]
    · simp only [set, h, if_false, size, List.length_cons] at ih ⊢
      omega

theorem size_set_of_has (m : JsMap β) (k : String) (v : β) (h : has m k = true) :
    size (set m k v) = size m := by
  induction m with
  | nil => simp [has, get] at h
  | cons e m ih =>
    obtain ⟨k', v'⟩ := e
    by_cases hk : k' = k
    · simp [set, size, hk]
    · have h' : has m k = true := by simpa [has, get, hk] using h
      simp only [set, hk, if_false, size, List.length_cons] at ih ⊢
      rw [ih h']

theorem size_delete_le (m : JsMap β) (k : String) : size (delete m k) ≤ size m := by
  simpa [delete, size] using List.length_filter_le _ m

theorem size_delete_lt (m : JsMap β) (k : String) (h : has m k = true) :
    size (delete m k) < size m := by
  induction m with
  | nil => simp [has, get] at h
  | cons e m ih =>
    obtain ⟨k', v'⟩ := e
    by_cases hk : k' = k
    · have := size_delete_le m k
      simp only [delete, size] at this
      simp only [delete, size, List.filter_cons, hk, List.length_cons]
      simp
      omega
    · have h' : has m k = true := by simpa [has, get, hk] using h
      have := ih h'
      simp only [delete, size] at this
      simp only [delete, size, List.filter_cons, hk, List.length_cons]
      simp
      omega

end JsMap

namespace JsMap

variable {β : Type}

theorem size_delete_set_le (m : JsMap β) (k : String) (v : β) :
    size (delete (set m k v) k) ≤ size m := by
  have h1 := size_delete_lt (set m k v) k (by simp [has_set])
  have h2 := size_set_le m k v
  omega

theorem get_append (a b : JsMap β) (k : String) :
    get (a ++ b) k = (get a k).orElse (fun _ => get b k) := by
  induction a with
  | nil => simp [get]
  | cons e a ih =>
    obtain ⟨k', v⟩ := e
    by_cases h : k' = k <;> simp [get, h, ih]

theorem get_filter_of_get (m : JsMap β) (p : String × β → Bool) (k : String)
    (v : β) (h : get m k = some v) (hp : p (k, v) = true) :
    get (m.filter p) k = some v := by
  induction m with
  | nil => simp [get] at h
  | cons e m ih =>
    obtain ⟨k', v'⟩ := e
    by_cases hk : k' = k
    · subst hk
      simp only [get, if_true, Option.some.injEq] at h
      subst h
      simp [List.filter_cons, hp, get]
    · simp only [get, hk, if_false] at h
      by_cases hp' : p (k', v') = true
      · simp [List.filter_cons, hp', get, hk, ih h]
      · simp [List.filter_cons, hp', ih h]

theorem has_set_of_has (m : JsMap β) (k i : String) (v : β) (h : has m i = true) :
    has (set m k v) i = true := by
  simp [has_set, h]

end JsMap

/-! ## Facts about strings, sorting and spreads -/

theorem strOr_some_empty (s : String) : strOr (some s) "" = s := by
  by_cases h : s = "" <;> simp [strOr, h]

theorem mem_insertSorted {α : Type} (cmp : α → α → Int) (a x : α) (l : List α) :
    x ∈ insertSorted cmp a l ↔ x = a ∨ x ∈ l := by
  induction l with
  | nil => simp [insertSorted]
  | cons b l ih =>
    unfold insertSorted
    split_ifs
    · simp
    · simp only [List.mem_cons, ih]
      tauto

theorem mem_jsSort {α : Type} (cmp : α → α → Int) (x : α) (l : List α) :
    x ∈ jsSort cmp l ↔ x ∈ l := by
  induction l with
  | nil => simp [jsSort]
  | cons a l ih => simp [jsSort, mem_insertSorted, ih]

theorem insertSorted_of_le {α : Type} (cmp : α → α → Int) (a : α) (l : List α)
    (h : ∀ b ∈ l, cmp a b ≤ 0) : insertSorted cmp a l = a :: l := by
  cases l with
  | nil => rfl
  | cons b l => simp [insertSorted, h b (List.mem_cons_self _ _)]

/-- Sorting a sorted array with one element appended: the new element goes behind every
element that may stay in front of it and before the others, which keep their order. -/
theorem jsSort_append_singleton {α : Type} (cmp : α → α → Int)
    (htrans : ∀ a b c, cmp a b ≤ 0 → cmp b c ≤ 0 → cmp a c ≤ 0) (q : List α) (x : α)
    (hq : q.Pairwise (fun a b => cmp a b ≤ 0)) :
    ∃ l₁ l₂, q = l₁ ++ l₂ ∧ jsSort cmp (q ++ [x]) = l₁ ++ x :: l₂ ∧
      (∀ y ∈ l₁, cmp y x ≤ 0) ∧ (∀ y ∈ l₂, ¬ cmp y x ≤ 0) := by
  induction q with
  | nil => exact ⟨[], [], rfl, rfl, by simp, by simp⟩
  | cons a q ih =>
    obtain ⟨ha, hq'⟩ := List.pairwise_cons.mp hq
    obtain ⟨l₁, l₂, hsplit, hsort, h₁, h₂⟩ := ih hq'
    have hstep : jsSort cmp (a :: q ++ [x]) = insertSorted cmp a (l₁ ++ x :: l₂) := by
      rw [List.cons_append, jsSort, hsort]
    rw [hstep]
    cases l₁ with
    | nil =>
      simp only [List.nil_append] at hsplit ⊢
      subst hsplit
      by_cases hax : cmp a x ≤ 0
      · refine ⟨[a], q, rfl, ?_, ?_, h₂⟩
        · simp [insertSorted, hax]
        · simpa using hax
      · refine ⟨[], a :: q, rfl, ?_, by simp, ?_⟩
        · simp [insertSorted, hax, insertSorted_of_le cmp a q ha]
        · intro y hy
          rcases List.mem_cons.mp hy with rfl | hy
          · exact hax
          · exact h₂ y hy
    | cons b l₁ =>
      have hb : b ∈ q := by rw [hsplit]; simp
      refine ⟨a :: b :: l₁, l₂, by rw [hsplit]; rfl, ?_, ?_, h₂⟩
      · simp [insertSorted, ha b hb]
      · intro y hy
        rcases List.mem_cons.mp hy with rfl | hy
        · exact htrans _ _ _ (ha b hb) (h₁ b (List.mem_cons_self _ _))
        · exact h₁ y hy

/-- A property of the spread: the last entry of `b` for a key wins over `a`. -/
theorem get_spread (a b : Obj) (k : String) :
    JsMap.get (spread a b) k = (JsMap.get b.reverse k).orElse (fun _ => JsMap.get a k) := by
  unfold spread
  induction b generalizing a with
  | nil => simp [JsMap.get]
  | cons e b ih =>
    obtain ⟨k', v⟩ := e
    rw [List.foldl_cons, ih, List.reverse_cons, JsMap.get_append]
    cases hb : JsMap.get b.reverse k with
    | some w => simp
    | none =>
      by_cases h : k = k'
      · subst h
        simp [JsMap.get, JsMap.get_set_self]
      · simp [JsMap.get, JsMap.get_set_of_ne _ _ h, Ne.symm h]

theorem mem_spliceFirst {α : Type} (p : α → Bool) (l : List α) (x : α) (hx : x ∈ l)
    (hp : p x = false) : x ∈ spliceFirst p l := by
  induction l with
  | nil => cases hx
  | cons y l ih =>
    unfold spliceFirst
    rcases List.mem_cons.mp hx with rfl | hx
    · simp [hp]
    · split_ifs
      · exact hx
      · exact List.mem_cons_of_mem _ (ih hx)

theorem spliceFirst_sublist {α : Type} (p : α → Bool) (l : List α) :
    (spliceFirst p l).Sublist l := by
  induction l with
  | nil => exact List.Sublist.refl _
  | cons a l ih =>
    unfold spliceFirst
    split_ifs
    · exact List.sublist_cons_self a l
    · exact ih.cons₂ a



/-! ## Worker: the concurrency ceiling -/

namespace Host

theorem launchDownload_activeProcs_size (s : Host) (videoId : VideoId) (cookies : Option String) :
    (launchDownload s videoId cookies).activeProcs.size ≤ s.activeProcs.size + 1 := by
  simpa [launchDownload] using JsMap.size_set_le s.activeProcs videoId s.nextPid

theorem drainLoop_activeProcs_size (q : List QueueEntry) (s : Host)
    (h : s.activeProcs.size ≤ MAX_CONCURRENT) :
    (drainLoop q s).activeProcs.size ≤ MAX_CONCURRENT := by
  induction q generalizing s with
  | nil => simpa [drainLoop] using h
  | cons next rest ih =>
    unfold drainLoop
    split_ifs with h₁ h₂
    · exact ih _ (by simpa using h)
    · apply ih
      have := launchDownload_activeProcs_size { s with downloadQueue := rest } next.videoId next.cookies
      simp only at this h₁
      omega
    · simpa using h

theorem startDownload_activeProcs_size (s : Host) (videoId : VideoId) (cookies : Option String)
    (h : s.activeProcs.size ≤ MAX_CONCURRENT) :
    (startDownload s videoId cookies).activeProcs.size ≤ MAX_CONCURRENT := by
  unfold startDownload
  split_ifs with h₁ h₂
  · exact h
  · simpa using h
  · have := launchDownload_activeProcs_size s videoId cookies
    omega


theorem closeHandler_activeProcs (s : Host) (c : Proc) (code : Option Int)
    (finalize : String → Except String Finalized) :
    (closeHandler s c code finalize).activeProcs =
      (drainQueue { s with activeProcs := s.activeProcs.delete c.videoId }).activeProcs := by
  unfold closeHandler
  simp only
  split_ifs <;> repeat' split
  all_goals rfl

theorem errorHandler_activeProcs (s : Host) (c : Proc) (message : String) :
    (errorHandler s c message).activeProcs =
      (drainQueue { s with activeProcs := s.activeProcs.delete c.videoId }).activeProcs := by
  unfold errorHandler
  simp only
  split <;> rfl

theorem stderrHandler_activeProcs (s : Host) (c : Proc) (chunk : String) (now : Nat) :
    (stderrHandler s c chunk now).1.activeProcs = s.activeProcs := by
  unfold stderrHandler
  simp only
  split_ifs <;> repeat' split
  all_goals rfl

theorem ack_activeProcs (s : Host) (videoId : VideoId) :
    (ack s videoId).activeProcs = s.activeProcs := by
  unfold ack
  split
  · split_ifs <;> rfl
  · rfl

theorem step_activeProcs_size (s : Host) (e : Event) (h : s.activeProcs.size ≤ MAX_CONCURRENT) :
    (step s e).activeProcs.size ≤ MAX_CONCURRENT := by
  cases e with
  | submit videoId cookies => exact startDownload_activeProcs_size s videoId cookies h
  | cancel videoId =>
    have := JsMap.size_delete_le s.activeProcs videoId
    simp only [step, cancelDownload]
    omega
  | ack videoId => simpa [step, ack_activeProcs] using h
  | stdoutData pid chunk =>
    simp only [step]
    split <;> simpa using h
  | stderrData pid chunk now =>
    simp only [step]
    split
    · simpa [stderrHandler_activeProcs] using h
    · exact h
  | close pid code finalize =>
    simp only [step]
    split
    · rw [closeHandler_activeProcs]
      apply drainLoop_activeProcs_size
      have := JsMap.size_delete_le s.activeProcs ‹Proc›.videoId
      simp only
      omega
    · exact h
  | error pid message =>
    simp only [step]
    split
    · rw [errorHandler_activeProcs]
      apply drainLoop_activeProcs_size
      have := JsMap.size_delete_le s.activeProcs ‹Proc›.videoId
      simp only
      omega
    · exact h

theorem run_activeProcs_size (es : List Event) (s : Host)
    (h : s.activeProcs.size ≤ MAX_CONCURRENT) :
    (run s es).activeProcs.size ≤ MAX_CONCURRENT := by
  induction es generalizing s with
  | nil => exact h
  | cons e es ih => exact ih _ (step_activeProcs_size s e h)

/-- C1: from the empty state, after every sequence of submit, cancel, ack, stream, process-exit
and spawn-error events the number of entries of `activeProcs` is at most `MAX_CONCURRENT`,
which is 2. -/
theorem worker_concurrency_ceiling (es : List Event) :
    (run Host.init es).activeProcs.size ≤ MAX_CONCURRENT ∧ MAX_CONCURRENT = 2 :=
  ⟨run_activeProcs_size es Host.init (by decide), rfl⟩

/-! ## Worker: the life of a Job Store entry -/

theorem launchDownload_keeps (s : Host) (videoId : VideoId) (cookies : Option String) (i : VideoId)
    (h : s.downloadState.has i = true) :
    (launchDownload s videoId cookies).downloadState.has i = true := by
  simpa [launchDownload] using JsMap.has_set_of_has _ _ _ _ h

theorem drainLoop_keeps (q : List QueueEntry) (s : Host) (i : VideoId)
    (h : s.downloadState.has i = true) : (drainLoop q s).downloadState.has i = true := by
  induction q generalizing s with
  | nil => simpa [drainLoop] using h
  | cons next rest ih =>
    unfold drainLoop
    split_ifs
    · exact ih _ (by simpa using h)
    · exact ih _ (launchDownload_keeps _ _ _ _ (by simpa using h))
    · simpa using h

theorem startDownload_keeps (s : Host) (videoId : VideoId) (cookies : Option String)
    (i : VideoId) (h : s.downloadState.has i = true) :
    (startDownload s videoId cookies).downloadState.has i = true := by
  unfold startDownload
  split_ifs
  · exact h
  · simpa using JsMap.has_set_of_has _ _ _ _ h
  · exact launchDownload_keeps _ _ _ _ h

theorem closeHandler_keeps (s : Host) (c : Proc) (code : Option Int)
    (finalize : String → Except String Finalized) (i : VideoId)
    (h : s.downloadState.has i = true) :
    (closeHandler s c code finalize).downloadState.has i = true := by
  have h' : (drainQueue { s with activeProcs := s.activeProcs.delete c.videoId }).downloadState.has i
      = true := drainLoop_keeps _ _ _ (by simpa using h)
  unfold closeHandler
  simp only
  split_ifs <;> repeat' split
  all_goals first
    | exact h'
    | exact JsMap.has_set_of_has _ _ _ _ h'

theorem errorHandler_keeps (s : Host) (c : Proc) (message : String) (i : VideoId)
    (h : s.downloadState.has i = true) :
    (errorHandler s c message).downloadState.has i = true := by
  have h' : (drainQueue { s with activeProcs := s.activeProcs.delete c.videoId }).downloadState.has i
      = true := drainLoop_keeps _ _ _ (by simpa using h)
  unfold errorHandler
  simp only
  split
  · exact JsMap.has_set_of_has _ _ _ _ h'
  · exact h'

theorem stderrHandler_keeps (s : Host) (c : Proc) (chunk : String) (now : Nat) (i : VideoId)
    (h : s.downloadState.has i = true) :
    (stderrHandler s c chunk now).1.downloadState.has i = true := by
  unfold stderrHandler
  simp only
  split_ifs <;> repeat' split
  all_goals first
    | exact h
    | exact JsMap.has_set_of_has _ _ _ _ h

/-- C10: an event of the worker removes the entry of `i` from `downloadState` only if it is
`cancel(i)`, or `ack(i)` while the status of `i` is `done` or `error`; `ack` of an id whose
status is `queued` or `downloading` leaves the whole state unchanged. -/
theorem job_store_entries_destroyed_only_by_ack_or_cancel :
    (∀ (s : Host) (e : Event) (i : VideoId),
      s.downloadState.has i = true → (step s e).downloadState.has i = false →
        e = Event.cancel i ∨
          (e = Event.ack i ∧
            ((s.downloadState.get i).map JobState.status = some Status.done ∨
              (s.downloadState.get i).map JobState.status = some Status.error))) ∧
    (∀ (s : Host) (j : VideoId) (st : JobState),
      s.downloadState.get j = some st →
        st.status = Status.queued ∨ st.status = Status.downloading →
          step s (Event.ack j) = s) := by
  refine ⟨?_, ?_⟩
  · intro s e i hi hgone
    cases e with
    | submit videoId cookies =>
      rw [show step s (.submit videoId cookies) = startDownload s videoId cookies from rfl,
        startDownload_keeps _ _ _ _ hi] at hgone
      cases hgone
    | cancel videoId =>
      by_cases hv : i = videoId
      · left; rw [hv]
      · simp [step, cancelDownload, JsMap.has_delete, hv, hi] at hgone
    | ack videoId =>
      by_cases hv : i = videoId
      · subst hv
        right
        refine ⟨rfl, ?_⟩
        simp only [step, ack] at hgone
        split at hgone
        · rename_i st hst
          split_ifs at hgone with hterm
          · rw [hst]
            simpa using hterm
          · rw [hi] at hgone; cases hgone
        · rw [hi] at hgone; cases hgone
      · simp only [step, ack] at hgone
        split at hgone
        · split_ifs at hgone
          · simp [JsMap.has_delete, hv, hi] at hgone
          · rw [hi] at hgone; cases hgone
        · rw [hi] at hgone; cases hgone
    | stdoutData pid chunk =>
      simp only [step] at hgone
      split at hgone <;> (rw [hi] at hgone; cases hgone)
    | stderrData pid chunk now =>
      simp only [step] at hgone
      split at hgone
      · simp only at hgone
        rw [stderrHandler_keeps _ _ _ _ _ hi] at hgone
        cases hgone
      · rw [hi] at hgone; cases hgone
    | close pid code finalize =>
      simp only [step] at hgone
      split at hgone
      · rw [closeHandler_keeps _ _ _ _ _ (by simpa using hi)] at hgone
        cases hgone
      · rw [hi] at hgone; cases hgone
    | error pid message =>
      simp only [step] at hgone
      split at hgone
      · rw [errorHandler_keeps _ _ _ _ hi] at hgone
        cases hgone
      · rw [hi] at hgone; cases hgone
  · intro s j st hst hstatus
    simp only [step, ack, hst]
    rcases hstatus with h | h <;> simp [h]


/-- C10 (witness): a job that failed stays in the store until it is acknowledged, and the
acknowledgment of a running job changes nothing. -/
theorem job_store_entries_destroyed_only_by_ack_or_cancel_witness :
    (Event.ack "a" = Event.cancel "a" ∨
      (Event.ack "a" = Event.ack "a" ∧
        (((run Host.init [.submit "a" none,
            .close 0 (some 1) (fun _ => .error "")]).downloadState.get "a").map JobState.status
            = some Status.done ∨
          ((run Host.init [.submit "a" none,
            .close 0 (some 1) (fun _ => .error "")]).downloadState.get "a").map JobState.status
            = some Status.error))) ∧
      step (run Host.init [.submit "b" none]) (Event.ack "b")
        = run Host.init [.submit "b" none] :=
  ⟨job_store_entries_destroyed_only_by_ack_or_cancel.1
      (run Host.init [.submit "a" none, .close 0 (some 1) (fun _ => .error "")])
      (Event.ack "a") "a" (by decide) (by decide),
    job_store_entries_destroyed_only_by_ack_or_cancel.2
      (run Host.init [.submit "b" none]) "b" downloadingJob (by decide) (by decide)⟩

/-! ## Worker: a late exit after cancellation -/

theorem spliceFirst_no_entry (videoId : VideoId) (q : List QueueEntry)
    (h : (q.filter (fun e => decide (e.videoId = videoId))).length ≤ 1) :
    ∀ e ∈ spliceFirst (fun e => decide (e.videoId = videoId)) q, e.videoId ≠ videoId := by
  induction q with
  | nil => simp [spliceFirst]
  | cons x q ih =>
    by_cases hx : x.videoId = videoId
    · simp only [spliceFirst, hx, decide_True, if_true]
      simp only [List.filter_cons, hx, decide_True, if_true, List.length_cons] at h
      have h0 : (q.filter (fun e => decide (e.videoId = videoId))).length = 0 := by omega
      intro e he heq
      have : e ∈ q.filter (fun e => decide (e.videoId = videoId)) := by
        simp [List.mem_filter, he, heq]
      rw [List.length_eq_zero.mp h0] at this
      cases this
    · simp only [spliceFirst, hx, decide_False, Bool.false_eq_true, if_false]
      simp only [List.filter_cons, hx, decide_False] at h
      intro e he
      rcases List.mem_cons.mp he with rfl | he
      · exact hx
      · exact ih (by simpa using h) e he

theorem drainLoop_get_of_not_queued (q : List QueueEntry) (s : Host) (i : VideoId)
    (h : ∀ e ∈ q, e.videoId ≠ i) :
    (drainLoop q s).downloadState.get i = s.downloadState.get i := by
  induction q generalizing s with
  | nil => simp [drainLoop]
  | cons next rest ih =>
    have hn : i ≠ next.videoId := fun h' => h next (List.mem_cons_self _ _) h'.symm
    have hr : ∀ e ∈ rest, e.videoId ≠ i := fun e he => h e (List.mem_cons_of_mem _ he)
    unfold drainLoop
    split_ifs
    · rw [ih _ hr]
    · rw [ih _ hr]
      simp [launchDownload, JsMap.get_set_of_ne _ _ hn]
    · rfl

theorem drainLoop_downloadQueue_subset (q : List QueueEntry) (s : Host) :
    ∀ e ∈ (drainLoop q s).downloadQueue, e ∈ q := by
  induction q generalizing s with
  | nil => simp [drainLoop]
  | cons next rest ih =>
    unfold drainLoop
    split_ifs
    · exact fun e he => List.mem_cons_of_mem _ (ih _ e he)
    · exact fun e he => List.mem_cons_of_mem _ (ih _ e he)
    · exact fun e he => he

theorem drainQueue_forgotten (i : VideoId) (s : Host) (h : Forgotten i s) :
    Forgotten i (drainQueue s) := by
  refine ⟨?_, ?_⟩
  · unfold drainQueue
    rw [drainLoop_get_of_not_queued _ _ _ h.2]
    exact h.1
  · intro e he
    exact h.2 e (drainLoop_downloadQueue_subset _ _ e he)

theorem set_forgotten (i : VideoId) (s : Host) (k : VideoId) (v : JobState) (hk : i ≠ k)
    (h : Forgotten i s) : Forgotten i { s with downloadState := s.downloadState.set k v } :=
  ⟨by simpa [JsMap.get_set_of_ne _ _ hk] using h.1, h.2⟩

theorem cancelDownload_forgotten_other (i : VideoId) (s : Host) (videoId : VideoId)
    (h : Forgotten i s) : Forgotten i (cancelDownload s videoId) := by
  refine ⟨?_, ?_⟩
  · by_cases hv : i = videoId
    · subst hv
      simp [cancelDownload, JsMap.get_delete_self]
    · simpa [cancelDownload, JsMap.get_delete_of_ne _ hv] using h.1
  · intro e he
    exact h.2 e ((spliceFirst_sublist _ _).subset he)

theorem cancelDownload_forgotten (i : VideoId) (s : Host)
    (hq : (s.downloadQueue.filter (fun e => decide (e.videoId = i))).length ≤ 1) :
    Forgotten i (cancelDownload s i) :=
  ⟨by simp [cancelDownload, JsMap.get_delete_self],
    by simpa [cancelDownload] using spliceFirst_no_entry _ _ hq⟩

theorem closeHandler_forgotten (i : VideoId) (s : Host) (c : Proc) (code : Option Int)
    (finalize : String → Except String Finalized) (hc : c.videoId ≠ i) (h : Forgotten i s) :
    Forgotten i (closeHandler s c code finalize) := by
  have h' : Forgotten i (drainQueue { s with activeProcs := s.activeProcs.delete c.videoId }) :=
    drainQueue_forgotten i _ h
  unfold closeHandler
  simp only
  split_ifs <;> repeat' split
  all_goals first
    | exact h'
    | exact set_forgotten i _ _ _ (Ne.symm hc) h'

theorem errorHandler_forgotten (i : VideoId) (s : Host) (c : Proc) (message : String)
    (h : Forgotten i s) : Forgotten i (errorHandler s c message) := by
  have h' : Forgotten i (drainQueue { s with activeProcs := s.activeProcs.delete c.videoId }) :=
    drainQueue_forgotten i _ h
  unfold errorHandler
  simp only
  split
  · rename_i st hst
    by_cases hc : c.videoId = i
    · subst hc
      rw [h'.1] at hst
      cases hst
    · exact set_forgotten i _ _ _ (Ne.symm hc) h'
  · exact h'

theorem stderrHandler_forgotten (i : VideoId) (s : Host) (c : Proc) (chunk : String) (now : Nat)
    (h : Forgotten i s) : Forgotten i (stderrHandler s c chunk now).1 := by
  unfold stderrHandler
  simp only
  split_ifs
  · exact h
  · exact h
  · split
    · split
      · rename_i st hst
        by_cases hc : c.videoId = i
        · subst hc
          have h1 := h.1
          simp_all
        · exact set_forgotten i _ _ _ (Ne.symm hc) h
      · exact h
    · exact h

theorem startDownload_forgotten (i : VideoId) (s : Host) (videoId : VideoId)
    (cookies : Option String) (hv : videoId ≠ i) (h : Forgotten i s) :
    Forgotten i (startDownload s videoId cookies) := by
  unfold startDownload
  split_ifs
  · exact h
  · refine ⟨by simpa [JsMap.get_set_of_ne _ _ (Ne.symm hv)] using h.1, ?_⟩
    intro e he
    simp only [List.mem_append, List.mem_singleton] at he
    rcases he with he | rfl
    · exact h.2 e he
    · exact hv
  · exact ⟨by simpa [launchDownload, JsMap.get_set_of_ne _ _ (Ne.symm hv)] using h.1, h.2⟩

theorem ack_forgotten (i : VideoId) (s : Host) (videoId : VideoId) (h : Forgotten i s) :
    Forgotten i (ack s videoId) := by
  unfold ack
  split
  · split_ifs
    · refine ⟨?_, h.2⟩
      by_cases hv : i = videoId
      · subst hv
        simp [JsMap.get_delete_self]
      · simpa [JsMap.get_delete_of_ne _ hv] using h.1
    · exact h
  · exact h

theorem step_forgotten (i : VideoId) (s : Host) (e : Event) (hquiet : concerns i s e = false)
    (h : Forgotten i s) : Forgotten i (step s e) := by
  cases e with
  | submit videoId cookies =>
    exact startDownload_forgotten i s videoId cookies (by simpa [concerns] using hquiet) h
  | cancel videoId => exact cancelDownload_forgotten_other i s videoId h
  | ack videoId => exact ack_forgotten i s videoId h
  | stdoutData pid chunk =>
    simp only [step]
    split
    · exact h
    · exact h
  | stderrData pid chunk now =>
    simp only [step]
    split
    · rename_i c hc
      exact stderrHandler_forgotten i s c chunk now h
    · exact h
  | close pid code finalize =>
    simp only [step]
    split
    · rename_i c hc
      have hne : c.videoId ≠ i := by simpa [concerns, hc] using hquiet
      exact closeHandler_forgotten i _ c code finalize hne h
    · exact h
  | error pid message =>
    simp only [step]
    split
    · rename_i c hc
      exact errorHandler_forgotten i s c message h
    · exact h

theorem run_forgotten (i : VideoId) (es : List Event) (s : Host)
    (hquiet : quiet i s es = true) (h : Forgotten i s) : Forgotten i (run s es) := by
  induction es generalizing s with
  | nil => exact h
  | cons e es ih =>
    simp only [quiet, Bool.and_eq_true, Bool.not_eq_true'] at hquiet
    exact ih _ hquiet.2 (step_forgotten i s e hquiet.1 h)

theorem closeHandler_of_forgotten (s : Host) (c : Proc) (code : Option Int)
    (finalize : String → Except String Finalized) (h : Forgotten c.videoId s) :
    (code = some 0 → (closeHandler s c code finalize).downloadState.get c.videoId = none) ∧
    (code ≠ some 0 → (closeHandler s c code finalize).downloadState.get c.videoId
        = some (failedJob (errorLine c.stderrBuf code))) := by
  have hdrain : (drainQueue { s with activeProcs := s.activeProcs.delete c.videoId }).downloadState.get
      c.videoId = none :=
    (drainQueue_forgotten c.videoId { s with activeProcs := s.activeProcs.delete c.videoId } h).1
  refine ⟨?_, ?_⟩
  · intro hc
    unfold closeHandler
    simp only [hc, ne_eq, not_true_eq_false, if_false]
    split <;> simp only [hdrain]
  · intro hc
    unfold closeHandler
    simp only [hc, ne_eq, not_false_eq_true, if_true, hdrain]
    exact JsMap.get_set_self _ _ _

/-- C8 (amended): let `cancelDownload(id)` run in a state whose overflow queue holds `id` at most
once, followed by any events that are neither a submission of `id` nor the exit of a process
launched for `id`.  The late `close` event of a process launched for `id` then never sets
`id` to `done`: for exit code 0 the Job Store still has no entry for `id`, and for every
other exit code (non-zero or `null`) the handler stores a fresh entry for `id` with status
`error` and the diagnostic of the process as error text. -/
theorem late_close_after_cancel (s : Host) (es : List Event) (pid : Nat) (c : Proc)
    (code : Option Int) (finalize : String → Except String Finalized)
    (hq : (s.downloadQueue.filter (fun e => decide (e.videoId = c.videoId))).length ≤ 1)
    (hquiet : quiet c.videoId (cancelDownload s c.videoId) es = true)
    (hproc : findProc (run (cancelDownload s c.videoId) es).procs pid = some c) :
    (code = some 0 →
      (step (run (cancelDownload s c.videoId) es) (.close pid code finalize)).downloadState.get
        c.videoId = none) ∧
    (code ≠ some 0 →
      (step (run (cancelDownload s c.videoId) es) (.close pid code finalize)).downloadState.get
        c.videoId = some (failedJob (errorLine c.stderrBuf code))) ∧
    (∀ st,
      (step (run (cancelDownload s c.videoId) es) (.close pid code finalize)).downloadState.get
        c.videoId = some st → st.status ≠ Status.done) := by
  have hF : Forgotten c.videoId (run (cancelDownload s c.videoId) es) :=
    run_forgotten _ es _ hquiet (cancelDownload_forgotten _ s hq)
  have hstep : step (run (cancelDownload s c.videoId) es) (.close pid code finalize) =
      closeHandler { run (cancelDownload s c.videoId) es with
        procs := (run (cancelDownload s c.videoId) es).procs.filter
          (fun e => decide (e.1 ≠ pid)) } c code finalize := by
    simp only [step, hproc]
  rw [hstep]
  obtain ⟨h0, h1⟩ := closeHandler_of_forgotten
    { run (cancelDownload s c.videoId) es with
      procs := (run (cancelDownload s c.videoId) es).procs.filter
        (fun e => decide (e.1 ≠ pid)) } c code finalize hF
  refine ⟨h0, h1, ?_⟩
  intro st hst
  by_cases hc : code = some 0
  · rw [h0 hc] at hst; cases hst
  · rw [h1 hc] at hst
    cases hst
    simp [failedJob]

/-- C8 (counterexample): a job is submitted and cancelled, and its killed process then
closes with exit code `null`; the Job Store has an entry for the id again, with status
`error`. -/
theorem late_close_recreates_entry :
    (run Host.init [.submit "a" none, .cancel "a",
        .close 0 none (fun _ => .error "")]).downloadState.has "a" = true ∧
      (run Host.init [.submit "a" none, .cancel "a",
        .close 0 none (fun _ => .error "")]).downloadState.get "a"
        = some (failedJob "yt-dlp exited with code null") := by
  decide

/-- C8 (witness): two jobs are active, `a` is cancelled, a third job is submitted, the killed
process writes an `ERROR:` line and closes with code 1. -/
theorem late_close_after_cancel_witness :
    (step (run (cancelDownload (run Host.init [.submit "a" none, .submit "b" none]) "a")
        [.submit "c" none, .stderrData 0 "ERROR: gone" 5]) (.close 0 (some 1)
          (fun _ => .error ""))).downloadState.get "a"
      = some (failedJob "ERROR: gone") :=
  (late_close_after_cancel (run Host.init [.submit "a" none, .submit "b" none])
    [.submit "c" none, .stderrData 0 "ERROR: gone" 5] 0 ⟨"a", none, "", "ERROR: gone", 0⟩
    (some 1) (fun _ => .error "") (by decide) (by decide) (by decide)).2.1 (by decide)

end Host

namespace Client

/-! ## Client: the concurrency ceiling -/

theorem processLoop_concurrency (q : List QueueItem) (s : Client) :
    (processLoop q s).concurrency = s.concurrency := by
  induction q generalizing s with
  | nil => rfl
  | cons next rest ih =>
    unfold processLoop
    split_ifs
    · rw [ih]; rfl
    · rfl

theorem processLoop_bounded (q : List QueueItem) (s : Client) (h : Bounded s) :
    Bounded (processLoop q s) := by
  induction q generalizing s with
  | nil => exact h
  | cons next rest ih =>
    unfold processLoop
    split_ifs with hlt
    · apply ih
      have hs := JsMap.size_set_le s.activeDownloads next.videoId Status.downloading
      obtain ⟨h1, h2⟩ := h
      refine ⟨?_, ?_⟩
      · simp only [setActive]
        omega
      · simp only [setActive]
        exact max_le h2 (by omega)
    · exact h

theorem processQueue_bounded (s : Client) (h : Bounded s) : Bounded (processQueue s) :=
  processLoop_bounded _ _ h

theorem processQueue_concurrency (s : Client) : (processQueue s).concurrency = s.concurrency :=
  processLoop_concurrency _ _

theorem updatePollTimer_bounded (s : Client) (h : Bounded s) : Bounded (updatePollTimer s) := by
  unfold updatePollTimer
  simp only
  split_ifs <;> exact h

theorem onDownloadDone_bounded (s : Client) (msg : DoneMsg) (now : String)
    (h1 : (s.activeDownloads.delete msg.videoId).size ≤ s.concurrency)
    (h2 : s.peakActive ≤ s.concurrency + 1) : Bounded (onDownloadDone s msg now) := by
  unfold onDownloadDone
  exact processQueue_bounded _ ⟨h1, h2⟩

theorem onDownloadError_bounded (s : Client) (msg : ErrorMsg)
    (h1 : (s.activeDownloads.delete msg.videoId).size ≤ s.concurrency)
    (h2 : s.peakActive ≤ s.concurrency + 1) : Bounded (onDownloadError s msg) := by
  unfold onDownloadError
  exact processQueue_bounded _ ⟨h1, h2⟩

theorem setActive_then_delete (s : Client) (videoId : VideoId) (status : Status)
    (h : Bounded s) :
    ((setActive s videoId status).activeDownloads.delete videoId).size
        ≤ (setActive s videoId status).concurrency ∧
      (setActive s videoId status).peakActive ≤ (setActive s videoId status).concurrency + 1 := by
  obtain ⟨h1, h2⟩ := h
  have hd := JsMap.size_delete_set_le s.activeDownloads videoId status
  have hs := JsMap.size_set_le s.activeDownloads videoId status
  refine ⟨?_, ?_⟩
  · simp only [setActive]; omega
  · simp only [setActive]
    exact max_le h2 (by omega)

theorem pollEntry_bounded (now : String) (s : Client) (e : VideoId × JobState) (h : Bounded s) :
    Bounded (pollEntry now s e) := by
  unfold pollEntry
  simp only
  have hA : Bounded (if e.2.status = .downloading ∨ e.2.status = .queued then
      broadcastToUI s (.downloadProgress e.1 e.2.percent e.2.speed e.2.eta) else s) := by
    split_ifs <;> exact h
  generalize (if e.2.status = .downloading ∨ e.2.status = .queued then
      broadcastToUI s (.downloadProgress e.1 e.2.percent e.2.speed e.2.eta) else s) = sA at hA ⊢
  have hB : Bounded (if e.2.status = .done ∧ sA.activeDownloads.get e.1 ≠ some .done then
      apiPost (onDownloadDone (setActive sA e.1 .done)
        ⟨e.1, e.2.filePath, e.2.thumbnailPath, e.2.fileSize, e.2.duration, e.2.description⟩ now)
        (.ack e.1) else sA) := by
    split_ifs
    · have := setActive_then_delete sA e.1 .done hA
      exact onDownloadDone_bounded _ _ _ this.1 this.2
    · exact hA
  generalize (if e.2.status = .done ∧ sA.activeDownloads.get e.1 ≠ some .done then
      apiPost (onDownloadDone (setActive sA e.1 .done)
        ⟨e.1, e.2.filePath, e.2.thumbnailPath, e.2.fileSize, e.2.duration, e.2.description⟩ now)
        (.ack e.1) else sA) = sB at hB ⊢
  split_ifs
  · have := setActive_then_delete sB e.1 .error hB
    exact onDownloadError_bounded _ _ this.1 this.2
  · exact hB

theorem foldl_pollEntry_bounded (now : String) (l : List (VideoId × JobState)) (s : Client)
    (h : Bounded s) : Bounded (l.foldl (pollEntry now) s) := by
  induction l generalizing s with
  | nil => exact h
  | cons e l ih => exact ih _ (pollEntry_bounded now s e h)

theorem pollDownloadStatus_bounded (s : Client) (response : Option (JsMap JobState))
    (now : String) (h : Bounded s) : Bounded (pollDownloadStatus s response now) := by
  unfold pollDownloadStatus
  split_ifs
  · exact h
  · split
    · rename_i downloads
      apply updatePollTimer_bounded
      obtain ⟨h1, h2⟩ := foldl_pollEntry_bounded now downloads s h
      refine ⟨?_, h2⟩
      have := List.length_filter_le (fun e : String × Status =>
        !(!JsMap.has downloads e.1 && (decide (e.2 = .done) || decide (e.2 = .error))))
        (downloads.foldl (pollEntry now) s).activeDownloads
      simp only [JsMap.size] at h1 ⊢
      omega
    · exact updatePollTimer_bounded _ h

theorem startDownload_bounded (s : Client) (videoId : VideoId) (cookies : Option String)
    (post : PostOutcome) (h : Bounded s) : Bounded (startDownload s videoId cookies post) := by
  obtain ⟨h1, h2⟩ := h
  have hd := JsMap.size_delete_le s.activeDownloads videoId
  unfold startDownload
  simp only
  split_ifs
  · exact ⟨by simp only [upsertVideo, deleteActive, broadcastToUI]; omega, h2⟩
  · split
    · exact ⟨by simp only [upsertVideo, deleteActive, broadcastToUI, apiPost]; omega, h2⟩
    · exact updatePollTimer_bounded _ ⟨h1, h2⟩

theorem enqueueDownload_bounded (lc : String → String → Int) (s : Client) (videoInfo : VideoInfo)
    (isShort : Bool) (h : Bounded s) : Bounded (enqueueDownload lc s videoInfo isShort) := by
  unfold enqueueDownload
  split_ifs
  · exact h
  · exact processQueue_bounded _ (by unfold pushSorted; split_ifs <;> exact h)

theorem cancelDownload_bounded (s : Client) (videoId : VideoId) (h : Bounded s) :
    Bounded (cancelDownload s videoId) := by
  obtain ⟨h1, h2⟩ := h
  have hd := JsMap.size_delete_le s.activeDownloads videoId
  unfold cancelDownload
  simp only
  split_ifs
  · exact ⟨by simp only [upsertVideo, deleteActive, apiPost]; omega, h2⟩
  · exact ⟨h1, h2⟩

theorem checkConnection_bounded (s : Client) (ping : Option Bool) (h : Bounded s) :
    Bounded (checkConnection s ping) := by
  unfold checkConnection
  simp only
  repeat' split
  all_goals exact h

theorem step_bounded (lc : String → String → Int) (s : Client) (e : Event) (h : Bounded s) :
    Bounded (step lc s e) := by
  cases e with
  | enqueue videoInfo isShort => exact enqueueDownload_bounded lc s videoInfo isShort h
  | processQueue => exact processQueue_bounded s h
  | startDownload videoId cookies post => exact startDownload_bounded s videoId cookies post h
  | poll response now => exact pollDownloadStatus_bounded s response now h
  | done msg now =>
    exact onDownloadDone_bounded s msg now
      (le_trans (JsMap.size_delete_le _ _) h.1) h.2
  | error msg =>
    exact onDownloadError_bounded s msg (le_trans (JsMap.size_delete_le _ _) h.1) h.2
  | cancel videoId => exact cancelDownload_bounded s videoId h
  | checkConnection ping => exact checkConnection_bounded s ping h

theorem run_bounded (lc : String → String → Int) (es : List Event) (s : Client) (h : Bounded s) :
    Bounded (run lc s es) := by
  induction es generalizing s with
  | nil => exact h
  | cons e es ih => exact ih _ (step_bounded lc s e h)


theorem updatePollTimer_concurrency (s : Client) :
    (updatePollTimer s).concurrency = s.concurrency := by
  unfold updatePollTimer
  simp only
  split_ifs <;> rfl

theorem onDownloadDone_concurrency (s : Client) (msg : DoneMsg) (now : String) :
    (onDownloadDone s msg now).concurrency = s.concurrency := by
  unfold onDownloadDone
  rw [processQueue_concurrency]
  rfl

theorem onDownloadError_concurrency (s : Client) (msg : ErrorMsg) :
    (onDownloadError s msg).concurrency = s.concurrency := by
  unfold onDownloadError
  rw [processQueue_concurrency]
  rfl

theorem pollEntry_concurrency (now : String) (s : Client) (e : VideoId × JobState) :
    (pollEntry now s e).concurrency = s.concurrency := by
  unfold pollEntry
  simp only
  have hA : (if e.2.status = .downloading ∨ e.2.status = .queued then
      broadcastToUI s (.downloadProgress e.1 e.2.percent e.2.speed e.2.eta) else s).concurrency
      = s.concurrency := by
    split_ifs <;> rfl
  rw [← hA]
  generalize (if e.2.status = .downloading ∨ e.2.status = .queued then
      broadcastToUI s (.downloadProgress e.1 e.2.percent e.2.speed e.2.eta) else s) = sA
  have hB : (if e.2.status = .done ∧ sA.activeDownloads.get e.1 ≠ some .done then
      apiPost (onDownloadDone (setActive sA e.1 .done)
        ⟨e.1, e.2.filePath, e.2.thumbnailPath, e.2.fileSize, e.2.duration, e.2.description⟩ now)
        (.ack e.1) else sA).concurrency = sA.concurrency := by
    split_ifs
    · exact onDownloadDone_concurrency (setActive sA e.1 .done) _ now
    · rfl
  rw [← hB]
  generalize (if e.2.status = .done ∧ sA.activeDownloads.get e.1 ≠ some .done then
      apiPost (onDownloadDone (setActive sA e.1 .done)
        ⟨e.1, e.2.filePath, e.2.thumbnailPath, e.2.fileSize, e.2.duration, e.2.description⟩ now)
        (.ack e.1) else sA) = sB
  split_ifs
  · exact onDownloadError_concurrency (setActive sB e.1 .error) _
  · rfl

theorem foldl_pollEntry_concurrency (now : String) (l : List (VideoId × JobState)) (s : Client) :
    (l.foldl (pollEntry now) s).concurrency = s.concurrency := by
  induction l generalizing s with
  | nil => rfl
  | cons e l ih => exact (ih _).trans (pollEntry_concurrency now s e)

theorem step_concurrency (lc : String → String → Int) (s : Client) (e : Event) :
    (step lc s e).concurrency = s.concurrency := by
  cases e with
  | enqueue videoInfo isShort =>
    simp only [step, enqueueDownload]
    split_ifs
    · rfl
    · show (processQueue _).concurrency = _
      rw [processQueue_concurrency]
      unfold pushSorted
      split_ifs <;> rfl
  | processQueue => exact processQueue_concurrency s
  | startDownload videoId cookies post =>
    simp only [step, startDownload]
    split_ifs
    · rfl
    · split
      · rfl
      · rw [updatePollTimer_concurrency]; rfl
  | poll response now =>
    simp only [step, pollDownloadStatus]
    split_ifs
    · rfl
    · split
      · rw [updatePollTimer_concurrency]
        exact foldl_pollEntry_concurrency now _ s
      · rw [updatePollTimer_concurrency]
  | done msg now => exact onDownloadDone_concurrency s msg now
  | error msg => exact onDownloadError_concurrency s msg
  | cancel videoId =>
    simp only [step, cancelDownload]
    split_ifs <;> rfl
  | checkConnection ping =>
    simp only [step, checkConnection]
    repeat' split
    all_goals rfl

theorem run_concurrency (lc : String → String → Int) (es : List Event) (s : Client) :
    (run lc s es).concurrency = s.concurrency := by
  induction es generalizing s with
  | nil => rfl
  | cons e es ih => exact (ih _).trans (step_concurrency lc s e)

/-- C2 (amended): for a fixed ceiling, after every sequence of callbacks from a client with an
empty `activeDownloads` map, `activeDownloads.size` is at most the ceiling whenever a callback
has finished, and at every point inside a callback it is at most the ceiling plus one: the
one entry in excess is the one `pollDownloadStatus` sets when it records a terminal status,
which the `onDownloadDone` or `onDownloadError` call that follows deletes again. -/
theorem client_active_size_within_ceiling (lc : String → String → Int) (concurrency : Nat)
    (videos : JsMap Obj) (lastPoll : Bool) (es : List Event) :
    (run lc (Client.init concurrency videos lastPoll) es).concurrency = concurrency ∧
      (run lc (Client.init concurrency videos lastPoll) es).activeDownloads.size ≤ concurrency ∧
      (run lc (Client.init concurrency videos lastPoll) es).peakActive ≤ concurrency + 1 := by
  have hc := run_concurrency lc es (Client.init concurrency videos lastPoll)
  have hb := run_bounded lc es (Client.init concurrency videos lastPoll)
    (by simp [Bounded, Client.init, JsMap.size])
  rw [Bounded, hc] at hb
  exact ⟨hc, hb.1, hb.2⟩

/-- C2 (counterexample): with ceiling 1 and `B` active, a snapshot that reports the untracked
id `A` as `done` makes `pollDownloadStatus` set an entry for `A`: at that point
`activeDownloads` has two entries. -/
theorem shadow_entry_exceeds_ceiling :
    (run codePointCompare (Client.init 1 [] false)
        [.checkConnection (some true), .enqueue itemB false,
          .startDownload "B" none .ok]).activeDownloads = [("B", .downloading)] ∧
      (run codePointCompare (Client.init 1 [] false)
        [.checkConnection (some true), .enqueue itemB false,
          .startDownload "B" none .ok]).pollTimer = true ∧
      (setActive (run codePointCompare (Client.init 1 [] false)
        [.checkConnection (some true), .enqueue itemB false,
          .startDownload "B" none .ok]) "A" .done).activeDownloads
        = [("B", .downloading), ("A", .done)] ∧
      (run codePointCompare (Client.init 1 [] false)
        [.checkConnection (some true), .enqueue itemB false, .startDownload "B" none .ok,
          .poll (some doneSnapshot) "t"]).peakActive = 2 ∧
      (run codePointCompare (Client.init 1 [] false)
        [.checkConnection (some true), .enqueue itemB false, .startDownload "B" none .ok,
          .poll (some doneSnapshot) "t"]).concurrency = 1 := by
  decide

/-! ## Client: enqueue and the order of the backlog -/

/-- C4: when the record of the item has status `done` or `downloading`, `enqueueDownload` returns
the state it was given: record store, backlog, active set and all effect logs (requests,
broadcasts, `startDownload` calls) are unchanged. -/
theorem enqueue_idempotent (lc : String → String → Int) (s : Client) (videoInfo : VideoInfo)
    (isShort : Bool)
    (hstatus : recordStatus s videoInfo.id = some (.str "done") ∨
      recordStatus s videoInfo.id = some (.str "downloading")) :
    enqueueDownload lc s videoInfo isShort = s := by
  have : alreadyHandled s videoInfo.id = true := by
    unfold alreadyHandled getVideo
    unfold recordStatus at hstatus
    cases hrec : s.videos.get videoInfo.id with
    | none => simp [hrec] at hstatus
    | some existing =>
      rw [hrec] at hstatus
      simp only [Option.some_bind] at hstatus
      rcases hstatus with h | h <;> simp [h]
  simp [enqueueDownload, this]

/-- C4 (witness): the client tracks `A` as `downloading`; enqueueing `A` again changes
nothing. -/
theorem enqueue_idempotent_witness :
    enqueueDownload codePointCompare tracking itemA true = tracking :=
  enqueue_idempotent codePointCompare tracking itemA true (Or.inr (by decide))


theorem backlogOrder_eq (lc : String → String → Int) (a b : QueueItem) :
    backlogOrder lc a b = lc b.published_at a.published_at := by
  simp [backlogOrder, strOr_some_empty]

theorem pushSorted_queue (lc : String → String → Int)
    (htrans : ∀ a b c, lc a b ≤ 0 → lc b c ≤ 0 → lc a c ≤ 0)
    (s : Client) (videoInfo : VideoInfo) (hq : Descending lc s.downloadQueue)
    (hnew : s.downloadQueue.any (fun q => decide (q.videoId = videoInfo.id)) = false) :
    ∃ l₁ l₂, s.downloadQueue = l₁ ++ l₂ ∧
      (pushSorted lc s videoInfo).downloadQueue =
        l₁ ++ ⟨videoInfo.id, strOr videoInfo.published_at ""⟩ :: l₂ ∧
      (∀ y ∈ l₁, lc (strOr videoInfo.published_at "") y.published_at ≤ 0) ∧
      (∀ y ∈ l₂, ¬ lc (strOr videoInfo.published_at "") y.published_at ≤ 0) := by
  have h := jsSort_append_singleton (backlogOrder lc)
    (by intro a b c; simp only [backlogOrder_eq]; exact fun h1 h2 => htrans _ _ _ h2 h1)
    s.downloadQueue ⟨videoInfo.id, strOr videoInfo.published_at ""⟩
    (by simpa [Descending, backlogOrder_eq] using hq)
  simpa [pushSorted, hnew, backlogOrder_eq] using h

theorem pushSorted_descending (lc : String → String → Int)
    (htotal : ∀ a b, lc a b ≤ 0 ∨ lc b a ≤ 0)
    (htrans : ∀ a b c, lc a b ≤ 0 → lc b c ≤ 0 → lc a c ≤ 0)
    (s : Client) (videoInfo : VideoInfo) (hq : Descending lc s.downloadQueue) :
    Descending lc (pushSorted lc s videoInfo).downloadQueue := by
  cases hnew : s.downloadQueue.any (fun q => decide (q.videoId = videoInfo.id)) with
  | true => simpa [pushSorted, hnew] using hq
  | false =>
    obtain ⟨l₁, l₂, hsplit, hres, h₁, h₂⟩ := pushSorted_queue lc htrans s videoInfo hq hnew
    rw [hres]
    rw [hsplit, Descending, List.pairwise_append] at hq
    obtain ⟨hp₁, hp₂, hcross⟩ := hq
    rw [Descending, List.pairwise_append]
    refine ⟨hp₁, List.pairwise_cons.mpr ⟨?_, hp₂⟩, ?_⟩
    · intro y hy
      rcases htotal y.published_at (strOr videoInfo.published_at "") with h | h
      · exact h
      · exact absurd h (h₂ y hy)
    · intro a ha b hb
      rcases List.mem_cons.mp hb with rfl | hb
      · exact h₁ a ha
      · exact hcross a ha b hb

/-- The loop of `processQueue` shifts a prefix of the backlog and calls `startDownload` for
its entries in order. -/
theorem processLoop_pops (q : List QueueItem) (s : Client) :
    ∃ popped remaining, q = popped ++ remaining ∧
      (processLoop q s).downloadQueue = remaining ∧
      (processLoop q s).startCalls = s.startCalls ++ popped.map (fun e => e.videoId) := by
  induction q generalizing s with
  | nil => exact ⟨[], [], rfl, rfl, by simp [processLoop]⟩
  | cons next rest ih =>
    unfold processLoop
    split_ifs
    · obtain ⟨popped, remaining, h1, h2, h3⟩ := ih
        { setActive { s with downloadQueue := rest } next.videoId .downloading with
          startCalls := (setActive { s with downloadQueue := rest } next.videoId
            .downloading).startCalls ++ [next.videoId] }
      refine ⟨next :: popped, remaining, by rw [h1]; rfl, h2, ?_⟩
      rw [h3]
      simp [setActive]
    · exact ⟨[], next :: rest, rfl, rfl, by simp⟩

theorem processQueue_suffix (s : Client) :
    (processQueue s).downloadQueue <:+ s.downloadQueue := by
  obtain ⟨popped, remaining, h1, h2, _⟩ := processLoop_pops s.downloadQueue s
  rw [processQueue, h2, h1]
  exact List.suffix_append _ _


theorem descending_of_suffix (lc : String → String → Int) {q q' : List QueueItem}
    (h : q' <:+ q) (hq : Descending lc q) : Descending lc q' :=
  List.Pairwise.sublist h.sublist hq

theorem processQueue_descending (lc : String → String → Int) (s : Client)
    (h : Descending lc s.downloadQueue) : Descending lc (processQueue s).downloadQueue :=
  descending_of_suffix lc (processQueue_suffix s) h

theorem onDownloadDone_suffix (s : Client) (msg : DoneMsg) (now : String) :
    (onDownloadDone s msg now).downloadQueue <:+ s.downloadQueue := by
  unfold onDownloadDone
  exact processQueue_suffix _

theorem onDownloadError_suffix (s : Client) (msg : ErrorMsg) :
    (onDownloadError s msg).downloadQueue <:+ s.downloadQueue := by
  unfold onDownloadError
  exact processQueue_suffix _

theorem pollEntry_suffix (now : String) (s : Client) (e : VideoId × JobState) :
    (pollEntry now s e).downloadQueue <:+ s.downloadQueue := by
  unfold pollEntry
  simp only
  have hA : (if e.2.status = .downloading ∨ e.2.status = .queued then
      broadcastToUI s (.downloadProgress e.1 e.2.percent e.2.speed e.2.eta) else s).downloadQueue
      = s.downloadQueue := by
    split_ifs <;> rfl
  rw [← hA]
  generalize (if e.2.status = .downloading ∨ e.2.status = .queued then
      broadcastToUI s (.downloadProgress e.1 e.2.percent e.2.speed e.2.eta) else s) = sA
  have hB : (if e.2.status = .done ∧ sA.activeDownloads.get e.1 ≠ some .done then
      apiPost (onDownloadDone (setActive sA e.1 .done)
        ⟨e.1, e.2.filePath, e.2.thumbnailPath, e.2.fileSize, e.2.duration, e.2.description⟩ now)
        (.ack e.1) else sA).downloadQueue <:+ sA.downloadQueue := by
    split_ifs
    · exact onDownloadDone_suffix (setActive sA e.1 .done) _ now
    · exact List.suffix_refl _
  refine List.IsSuffix.trans ?_ hB
  generalize (if e.2.status = .done ∧ sA.activeDownloads.get e.1 ≠ some .done then
      apiPost (onDownloadDone (setActive sA e.1 .done)
        ⟨e.1, e.2.filePath, e.2.thumbnailPath, e.2.fileSize, e.2.duration, e.2.description⟩ now)
        (.ack e.1) else sA) = sB
  split_ifs
  · exact onDownloadError_suffix (setActive sB e.1 .error) _
  · exact List.suffix_refl _

theorem foldl_pollEntry_suffix (now : String) (l : List (VideoId × JobState)) (s : Client) :
    (l.foldl (pollEntry now) s).downloadQueue <:+ s.downloadQueue := by
  induction l generalizing s with
  | nil => exact List.suffix_refl _
  | cons e l ih => exact List.IsSuffix.trans (ih _) (pollEntry_suffix now s e)

theorem updatePollTimer_downloadQueue (s : Client) :
    (updatePollTimer s).downloadQueue = s.downloadQueue := by
  unfold updatePollTimer
  simp only
  split_ifs <;> rfl

theorem pollDownloadStatus_suffix (s : Client) (response : Option (JsMap JobState))
    (now : String) : (pollDownloadStatus s response now).downloadQueue <:+ s.downloadQueue := by
  unfold pollDownloadStatus
  split_ifs
  · exact List.suffix_refl _
  · split
    · rw [updatePollTimer_downloadQueue]
      exact foldl_pollEntry_suffix now _ s
    · rw [updatePollTimer_downloadQueue]

theorem startDownload_downloadQueue (s : Client) (videoId : VideoId) (cookies : Option String)
    (post : PostOutcome) : (startDownload s videoId cookies post).downloadQueue = s.downloadQueue := by
  unfold startDownload
  simp only
  split_ifs
  · rfl
  · split
    · rfl
    · rw [updatePollTimer_downloadQueue]; rfl

theorem cancelDownload_downloadQueue (s : Client) (videoId : VideoId) :
    (cancelDownload s videoId).downloadQueue =
      spliceFirst (fun q => decide (q.videoId = videoId)) s.downloadQueue := by
  unfold cancelDownload
  simp only
  split_ifs <;> rfl

theorem checkConnection_downloadQueue (s : Client) (ping : Option Bool) :
    (checkConnection s ping).downloadQueue = s.downloadQueue := by
  unfold checkConnection
  simp only
  repeat' split
  all_goals rfl

theorem step_descending (lc : String → String → Int)
    (htotal : ∀ a b, lc a b ≤ 0 ∨ lc b a ≤ 0)
    (htrans : ∀ a b c, lc a b ≤ 0 → lc b c ≤ 0 → lc a c ≤ 0)
    (s : Client) (e : Event) (h : Descending lc s.downloadQueue) :
    Descending lc (step lc s e).downloadQueue := by
  cases e with
  | enqueue videoInfo isShort =>
    simp only [step, enqueueDownload]
    split_ifs
    · exact h
    · exact processQueue_descending lc _ (pushSorted_descending lc htotal htrans _ _ h)
  | processQueue => exact processQueue_descending lc s h
  | startDownload videoId cookies post =>
    simpa [step, startDownload_downloadQueue] using h
  | poll response now => exact descending_of_suffix lc (pollDownloadStatus_suffix s response now) h
  | done msg now => exact descending_of_suffix lc (onDownloadDone_suffix s msg now) h
  | error msg => exact descending_of_suffix lc (onDownloadError_suffix s msg) h
  | cancel videoId =>
    simp only [step, cancelDownload_downloadQueue]
    exact List.Pairwise.sublist (spliceFirst_sublist _ _) h
  | checkConnection ping => simpa [step, checkConnection_downloadQueue] using h

theorem run_descending (lc : String → String → Int)
    (htotal : ∀ a b, lc a b ≤ 0 ∨ lc b a ≤ 0)
    (htrans : ∀ a b c, lc a b ≤ 0 → lc b c ≤ 0 → lc a c ≤ 0)
    (es : List Event) (s : Client) (h : Descending lc s.downloadQueue) :
    Descending lc (run lc s es).downloadQueue := by
  induction es generalizing s with
  | nil => exact h
  | cons e es ih => exact ih _ (step_descending lc htotal htrans s e h)

/-- C5: for a collation `localeCompare` that is a total preorder, the backlog is ordered newest
first after every sequence of callbacks from the initial state, and every callback keeps it
so; `enqueueDownload` puts a new entry behind all entries that are at least as new (entries
with an equal `published_at` keep their insertion order) and in front of the older ones,
whose order it keeps; `processQueue` shifts a prefix of the backlog, so every entry it
starts is at least as new as every entry it leaves behind; and the `cancel-download` handler
removes one entry and keeps the order of the others. -/
theorem backlog_ordering (lc : String → String → Int)
    (htotal : ∀ a b, lc a b ≤ 0 ∨ lc b a ≤ 0)
    (htrans : ∀ a b c, lc a b ≤ 0 → lc b c ≤ 0 → lc a c ≤ 0) :
    (∀ (concurrency : Nat) (videos : JsMap Obj) (lastPoll : Bool) (es : List Event),
      Descending lc (run lc (Client.init concurrency videos lastPoll) es).downloadQueue) ∧
    (∀ (s : Client) (e : Event), Descending lc s.downloadQueue →
      Descending lc (step lc s e).downloadQueue) ∧
    (∀ (s : Client) (videoInfo : VideoInfo), Descending lc s.downloadQueue →
      s.downloadQueue.any (fun q => decide (q.videoId = videoInfo.id)) = false →
      ∃ l₁ l₂, s.downloadQueue = l₁ ++ l₂ ∧
        (pushSorted lc s videoInfo).downloadQueue =
          l₁ ++ ⟨videoInfo.id, strOr videoInfo.published_at ""⟩ :: l₂ ∧
        (∀ y ∈ l₁, lc (strOr videoInfo.published_at "") y.published_at ≤ 0) ∧
        (∀ y ∈ l₂, ¬ lc (strOr videoInfo.published_at "") y.published_at ≤ 0)) ∧
    (∀ (s : Client), Descending lc s.downloadQueue →
      ∃ popped remaining, s.downloadQueue = popped ++ remaining ∧
        (processQueue s).downloadQueue = remaining ∧
        (processQueue s).startCalls = s.startCalls ++ popped.map (fun e => e.videoId) ∧
        Descending lc popped ∧
        ∀ p ∈ popped, ∀ r ∈ remaining, lc r.published_at p.published_at ≤ 0) ∧
    (∀ (s : Client) (videoId : VideoId),
      (cancelDownload s videoId).downloadQueue =
          spliceFirst (fun q => decide (q.videoId = videoId)) s.downloadQueue ∧
        (cancelDownload s videoId).downloadQueue.Sublist s.downloadQueue) := by
  refine ⟨?_, ?_, ?_, ?_, ?_⟩
  · intro concurrency videos lastPoll es
    exact run_descending lc htotal htrans es _ (by simp [Client.init, Descending])
  · exact fun s e h => step_descending lc htotal htrans s e h
  · exact fun s videoInfo h hnew => pushSorted_queue lc htrans s videoInfo h hnew
  · intro s h
    obtain ⟨popped, remaining, h1, h2, h3⟩ := processLoop_pops s.downloadQueue s
    refine ⟨popped, remaining, h1, h2, h3, ?_, ?_⟩
    · rw [h1, Descending, List.pairwise_append] at h
      exact h.1
    · rw [h1, Descending, List.pairwise_append] at h
      exact h.2.2
  · intro s videoId
    rw [cancelDownload_downloadQueue]
    exact ⟨rfl, spliceFirst_sublist _ _⟩

theorem compareChars_total (a b : List Char) :
    compareChars a b ≤ 0 ∨ compareChars b a ≤ 0 := by
  induction a generalizing b with
  | nil => cases b <;> simp [compareChars]
  | cons x a ih =>
    cases b with
    | nil => simp [compareChars]
    | cons y b =>
      simp only [compareChars]
      by_cases h1 : x.toNat < y.toNat
      · simp [h1]
      · by_cases h2 : y.toNat < x.toNat
        · simp [h1, h2]
        · simpa [h1, h2] using ih b

theorem compareChars_trans (a b c : List Char) (h1 : compareChars a b ≤ 0)
    (h2 : compareChars b c ≤ 0) : compareChars a c ≤ 0 := by
  induction a generalizing b c with
  | nil => cases c <;> simp [compareChars]
  | cons x a ih =>
    cases b with
    | nil => simp [compareChars] at h1
    | cons y b =>
      cases c with
      | nil => simp [compareChars] at h2
      | cons z c =>
        simp only [compareChars] at h1 h2 ⊢
        by_cases hxy : x.toNat < y.toNat
        · by_cases hyz : y.toNat < z.toNat
          · simp [show x.toNat < z.toNat by omega]
          · by_cases hzy : z.toNat < y.toNat
            · simp [hyz, hzy] at h2
            · simp [show x.toNat < z.toNat by omega]
        · by_cases hyx : y.toNat < x.toNat
          · simp [hxy, hyx] at h1
          · simp only [hxy, hyx, if_false] at h1
            by_cases hyz : y.toNat < z.toNat
            · simp [show x.toNat < z.toNat by omega]
            · by_cases hzy : z.toNat < y.toNat
              · simp [hyz, hzy] at h2
              · simp only [hyz, hzy, if_false] at h2
                simp only [show ¬ x.toNat < z.toNat by omega, show ¬ z.toNat < x.toNat by omega,
                  if_false]
                exact ih b c h1 h2

theorem codePointCompare_total (a b : String) :
    codePointCompare a b ≤ 0 ∨ codePointCompare b a ≤ 0 :=
  compareChars_total a.data b.data

theorem codePointCompare_trans (a b c : String) (h1 : codePointCompare a b ≤ 0)
    (h2 : codePointCompare b c ≤ 0) : codePointCompare a c ≤ 0 :=
  compareChars_trans a.data b.data c.data h1 h2


/-- C5 (witness): with the code-point collation and ceiling 1, three items enqueued oldest
first leave a backlog that is ordered newest first. -/
theorem backlog_ordering_witness :
    Descending codePointCompare
      (run codePointCompare (Client.init 1 [] false)
        [.enqueue ⟨"C", none, none, none, some "2023-12-31"⟩ false, .enqueue itemB false,
          .enqueue itemA false]).downloadQueue :=
  (backlog_ordering codePointCompare codePointCompare_total codePointCompare_trans).1 1 [] false
    [.enqueue ⟨"C", none, none, none, some "2023-12-31"⟩ false, .enqueue itemB false,
      .enqueue itemA false]


/-! ## Client: polls and cancellation -/

theorem upsertVideo_get_of_ne (s : Client) {videoId i : VideoId} (fields : Obj)
    (h : i ≠ videoId) : (upsertVideo s videoId fields).videos.get i = s.videos.get i := by
  simp [upsertVideo, JsMap.get_set_of_ne _ _ h]

theorem upsertVideo_field (s : Client) (videoId : VideoId) (fields : Obj) (k : String)
    (v : JsVal) (hk : k ≠ "id") (hv : JsMap.get fields.reverse k = some v) :
    ((upsertVideo s videoId fields).videos.get videoId).bind (fun r => JsMap.get r k)
      = some v := by
  simp [upsertVideo, JsMap.get_set_self, JsMap.get_set_of_ne _ _ hk, get_spread, hv]

theorem processLoop_videos (q : List QueueItem) (s : Client) :
    (processLoop q s).videos = s.videos := by
  induction q generalizing s with
  | nil => rfl
  | cons next rest ih =>
    unfold processLoop
    split_ifs
    · rw [ih]; rfl
    · rfl

theorem processLoop_ui (q : List QueueItem) (s : Client) : (processLoop q s).ui = s.ui := by
  induction q generalizing s with
  | nil => rfl
  | cons next rest ih =>
    unfold processLoop
    split_ifs
    · rw [ih]; rfl
    · rfl

/-- The loop of `processQueue` only ever writes `downloading` into `activeDownloads`. -/
theorem processLoop_active (q : List QueueItem) (s : Client) (i : VideoId) :
    (processLoop q s).activeDownloads.get i = s.activeDownloads.get i ∨
      (processLoop q s).activeDownloads.get i = some .downloading := by
  induction q generalizing s with
  | nil => left; rfl
  | cons next rest ih =>
    unfold processLoop
    split_ifs
    · rcases ih { setActive { s with downloadQueue := rest } next.videoId .downloading with
          startCalls := (setActive { s with downloadQueue := rest } next.videoId
            .downloading).startCalls ++ [next.videoId] } with h | h
      · rw [h]
        by_cases hi : i = next.videoId
        · right
          subst hi
          simp [setActive, JsMap.get_set_self]
        · left
          simp [setActive, JsMap.get_set_of_ne _ _ hi]
      · right; exact h
    · left; rfl

theorem Spares.refl (i : VideoId) (s : Client) : Spares i s s :=
  ⟨rfl, Or.inl rfl, [], by simp⟩

theorem Spares.trans {i : VideoId} {s₁ s₂ s₃ : Client} (h₁ : Spares i s₁ s₂)
    (h₂ : Spares i s₂ s₃) : Spares i s₁ s₃ := by
  obtain ⟨a₁, b₁, n₁, c₁⟩ := h₁
  obtain ⟨a₂, b₂, n₂, c₂⟩ := h₂
  refine ⟨a₂.trans a₁, ?_, n₁ ++ n₂, by rw [c₂, c₁, List.append_assoc]⟩
  rcases b₂ with h | h
  · rw [h]; exact b₁
  · exact Or.inr h

theorem processQueue_spares (i : VideoId) (s : Client) : Spares i s (processQueue s) :=
  ⟨by rw [processQueue, processLoop_videos], processLoop_active _ _ _,
    [], by rw [processQueue, processLoop_ui]; simp⟩

theorem onDownloadDone_spares (i : VideoId) (s : Client) (msg : DoneMsg) (now : String)
    (h : i ≠ msg.videoId) : Spares i s (onDownloadDone s msg now) := by
  unfold onDownloadDone
  refine Spares.trans ⟨?_, ?_, ?_⟩ (processQueue_spares i _)
  · simp [broadcastToUI, upsertVideo_get_of_ne _ _ h, deleteActive]
  · left
    simp [broadcastToUI, upsertVideo, deleteActive, JsMap.get_delete_of_ne _ h]
  · exact ⟨[.downloadComplete msg.videoId], by simp [broadcastToUI, upsertVideo, deleteActive]⟩

theorem onDownloadError_spares (i : VideoId) (s : Client) (msg : ErrorMsg)
    (h : i ≠ msg.videoId) : Spares i s (onDownloadError s msg) := by
  unfold onDownloadError
  refine Spares.trans ⟨?_, ?_, ?_⟩ (processQueue_spares i _)
  · simp [broadcastToUI, upsertVideo_get_of_ne _ _ h, deleteActive]
  · left
    simp [broadcastToUI, upsertVideo, deleteActive, JsMap.get_delete_of_ne _ h]
  · exact ⟨[.downloadError msg.videoId msg.error],
      by simp [broadcastToUI, upsertVideo, deleteActive]⟩

theorem setActive_spares (i : VideoId) (s : Client) (videoId : VideoId) (status : Status)
    (h : i ≠ videoId) : Spares i s (setActive s videoId status) :=
  ⟨rfl, Or.inl (by simp [setActive, JsMap.get_set_of_ne _ _ h]), [], by simp [setActive]⟩

theorem pollEntry_spares (now : String) (i : VideoId) (s : Client) (e : VideoId × JobState)
    (h : i ≠ e.1) : Spares i s (pollEntry now s e) := by
  unfold pollEntry
  simp only
  have hA : Spares i s (if e.2.status = .downloading ∨ e.2.status = .queued then
      broadcastToUI s (.downloadProgress e.1 e.2.percent e.2.speed e.2.eta) else s) := by
    split_ifs
    · exact ⟨rfl, Or.inl rfl, _, rfl⟩
    · exact Spares.refl i s
  refine Spares.trans hA ?_
  generalize (if e.2.status = .downloading ∨ e.2.status = .queued then
      broadcastToUI s (.downloadProgress e.1 e.2.percent e.2.speed e.2.eta) else s) = sA
  have hB : Spares i sA (if e.2.status = .done ∧ sA.activeDownloads.get e.1 ≠ some .done then
      apiPost (onDownloadDone (setActive sA e.1 .done)
        ⟨e.1, e.2.filePath, e.2.thumbnailPath, e.2.fileSize, e.2.duration, e.2.description⟩ now)
        (.ack e.1) else sA) := by
    split_ifs
    · exact Spares.trans (setActive_spares i sA e.1 .done h)
        (Spares.trans (onDownloadDone_spares i _ _ now h) ⟨rfl, Or.inl rfl, [], by simp [apiPost]⟩)
    · exact Spares.refl i sA
  refine Spares.trans hB ?_
  generalize (if e.2.status = .done ∧ sA.activeDownloads.get e.1 ≠ some .done then
      apiPost (onDownloadDone (setActive sA e.1 .done)
        ⟨e.1, e.2.filePath, e.2.thumbnailPath, e.2.fileSize, e.2.duration, e.2.description⟩ now)
        (.ack e.1) else sA) = sB
  split_ifs
  · exact Spares.trans (setActive_spares i sB e.1 .error h)
      (Spares.trans (onDownloadError_spares i _ _ h) ⟨rfl, Or.inl rfl, [], by simp [apiPost]⟩)
  · exact Spares.refl i sB

theorem foldl_pollEntry_spares (now : String) (i : VideoId) (l : List (VideoId × JobState))
    (s : Client) (h : ∀ e ∈ l, e.1 ≠ i) : Spares i s (l.foldl (pollEntry now) s) := by
  induction l generalizing s with
  | nil => exact Spares.refl i s
  | cons e l ih =>
    exact Spares.trans
      (pollEntry_spares now i s e (fun h' => h e (List.mem_cons_self _ _) h'.symm))
      (ih _ (fun e' he' => h e' (List.mem_cons_of_mem _ he')))


theorem updatePollTimer_videos (s : Client) : (updatePollTimer s).videos = s.videos := by
  unfold updatePollTimer
  simp only
  split_ifs <;> rfl

theorem updatePollTimer_ui (s : Client) : (updatePollTimer s).ui = s.ui := by
  unfold updatePollTimer
  simp only
  split_ifs <;> rfl

theorem updatePollTimer_activeDownloads (s : Client) :
    (updatePollTimer s).activeDownloads = s.activeDownloads := by
  unfold updatePollTimer
  simp only
  split_ifs <;> rfl

/-- One poll whose snapshot has no entry for `i` leaves a `downloading` entry of `i` and the
record of `i` as they are. -/
theorem pollDownloadStatus_absent (s : Client) (i : VideoId) (response : Option (JsMap JobState))
    (now : String) (hact : s.activeDownloads.get i = some .downloading)
    (habs : ∀ downloads, response = some downloads → ∀ e ∈ downloads, e.1 ≠ i) :
    (pollDownloadStatus s response now).activeDownloads.get i = some .downloading ∧
      (pollDownloadStatus s response now).videos.get i = s.videos.get i := by
  unfold pollDownloadStatus
  split_ifs
  · exact ⟨hact, rfl⟩
  · split
    · rename_i downloads
      obtain ⟨hv, ha, _⟩ := foldl_pollEntry_spares now i downloads s (habs downloads rfl)
      have ha' : (downloads.foldl (pollEntry now) s).activeDownloads.get i = some .downloading := by
        rcases ha with h | h
        · rw [h]; exact hact
        · exact h
      rw [updatePollTimer_activeDownloads, updatePollTimer_videos]
      refine ⟨?_, hv⟩
      exact JsMap.get_filter_of_get _ _ _ _ ha' (by simp)
    · rw [updatePollTimer_activeDownloads, updatePollTimer_videos]
      exact ⟨hact, rfl⟩

/-- C9 (amended): an id that is tracked as `downloading` and is absent from two consecutive
snapshots is left alone by `pollDownloadStatus` (the code has no gap-recovery rule): its
entry in `activeDownloads` is still `downloading`, so it keeps its slot, and its record is
unchanged. -/
theorem absent_job_stays_downloading (s : Client) (i : VideoId)
    (first second : JsMap JobState) (t₁ t₂ : String)
    (hact : s.activeDownloads.get i = some .downloading)
    (h₁ : ∀ e ∈ first, e.1 ≠ i) (h₂ : ∀ e ∈ second, e.1 ≠ i) :
    (pollDownloadStatus (pollDownloadStatus s (some first) t₁) (some second)
        t₂).activeDownloads.get i = some .downloading ∧
      (pollDownloadStatus (pollDownloadStatus s (some first) t₁) (some second) t₂).videos.get i
        = s.videos.get i := by
  obtain ⟨a₁, v₁⟩ := pollDownloadStatus_absent s i (some first) t₁ hact
    (by intro d hd; cases hd; exact h₁)
  obtain ⟨a₂, v₂⟩ := pollDownloadStatus_absent _ i (some second) t₂ a₁
    (by intro d hd; cases hd; exact h₂)
  exact ⟨a₂, v₂.trans v₁⟩

theorem cancelDownload_facts (s : Client) (i : VideoId) :
    (cancelDownload s i).activeDownloads.get i = none ∧
      (cancelDownload s i).ui = s.ui ∧ (cancelDownload s i).connected = s.connected := by
  unfold cancelDownload
  simp only
  split_ifs with h
  · simp [upsertVideo, deleteActive, apiPost, JsMap.get_delete_self]
  · have hg : s.activeDownloads.get i = none := by
      cases hg : s.activeDownloads.get i with
      | none => rfl
      | some v => simp [JsMap.has, hg] at h
    simp [upsertVideo, hg]

theorem pollEntry_done_eq (now : String) (s : Client) (i : VideoId) (st : JobState)
    (hst : st.status = .done) (hact : s.activeDownloads.get i ≠ some .done) :
    pollEntry now s (i, st) =
      apiPost (onDownloadDone (setActive s i .done)
        ⟨i, st.filePath, st.thumbnailPath, st.fileSize, st.duration, st.description⟩ now)
        (.ack i) := by
  have e₁ : ¬ (st.status = .downloading ∨ st.status = .queued) := by rw [hst]; decide
  have e₃ : ∀ x : Client, ¬ (st.status = .error ∧ x.activeDownloads.get i ≠ some .error) := by
    intro x; rw [hst]; simp
  unfold pollEntry
  simp only [if_neg e₁]
  rw [if_neg (e₃ _), if_pos ⟨hst, hact⟩]

theorem pollEntry_done (now : String) (s : Client) (i : VideoId) (st : JobState)
    (hst : st.status = .done) (hact : s.activeDownloads.get i ≠ some .done) :
    recordStatus (pollEntry now s (i, st)) i = some (.str "done") ∧
      (pollEntry now s (i, st)).ui = s.ui ++ [.downloadComplete i] := by
  rw [pollEntry_done_eq now s i st hst hact]
  refine ⟨?_, ?_⟩
  · unfold recordStatus onDownloadDone
    simp only [apiPost, processQueue, processLoop_videos, broadcastToUI]
    exact upsertVideo_field _ _ _ "status" _ (by decide) (by simp [JsMap.get])
  · simp only [apiPost, onDownloadDone, processQueue, processLoop_ui, broadcastToUI]
    rfl

/-- C7 (amended): after the `cancel-download` handler has run for an id, a snapshot that still
reports the id as `done` is applied like a first observation (the client keeps no memory of
cancelled ids): the record of the id gets status `done` and a `download-complete` event is
emitted for it. -/
theorem late_done_after_cancel_is_applied (s : Client) (i : VideoId)
    (downloads : JsMap JobState) (st : JobState) (now : String)
    (hconn : s.connected = true) (hmem : (i, st) ∈ downloads) (hst : st.status = .done)
    (hnodup : (downloads.map Prod.fst).Nodup) :
    recordStatus (pollDownloadStatus (cancelDownload s i) (some downloads) now) i
        = some (.str "done") ∧
      ∃ pre post, (pollDownloadStatus (cancelDownload s i) (some downloads) now).ui
        = s.ui ++ pre ++ UiMsg.downloadComplete i :: post := by
  obtain ⟨l₁, l₂, hsplit⟩ := List.append_of_mem hmem
  subst hsplit
  have hkeys : (∀ e ∈ l₁, e.1 ≠ i) ∧ (∀ e ∈ l₂, e.1 ≠ i) := by
    simp only [List.map_append, List.map_cons, List.nodup_append, List.nodup_cons,
      List.mem_map, not_exists, not_and] at hnodup
    obtain ⟨_, ⟨h2, _⟩, h3⟩ := hnodup
    refine ⟨?_, fun e he heq => h2 e he heq⟩
    intro e he heq
    exact h3 (List.mem_map.mpr ⟨e, he, rfl⟩) (by simp [heq])
  obtain ⟨hcact, hcui, hcconn⟩ := cancelDownload_facts s i
  obtain ⟨_, ha₁, n₁, hu₁⟩ := foldl_pollEntry_spares now i l₁ (cancelDownload s i) hkeys.1
  have hact₁ : (l₁.foldl (pollEntry now) (cancelDownload s i)).activeDownloads.get i
      ≠ some .done := by
    rcases ha₁ with h | h
    · rw [h, hcact]; simp
    · rw [h]; simp
  obtain ⟨hrec, hu₂⟩ := pollEntry_done now _ i st hst hact₁
  obtain ⟨hv₃, _, n₃, hu₃⟩ := foldl_pollEntry_spares now i l₂
    (pollEntry now (l₁.foldl (pollEntry now) (cancelDownload s i)) (i, st)) hkeys.2
  unfold pollDownloadStatus
  simp only [hcconn, hconn, Bool.not_true, Bool.false_eq_true, if_false, List.foldl_append,
    List.foldl_cons]
  refine ⟨?_, n₁, n₃, ?_⟩
  · unfold recordStatus at hrec ⊢
    rw [updatePollTimer_videos]
    simp only
    rw [hv₃]
    exact hrec
  · rw [updatePollTimer_ui]
    simp only
    rw [hu₃, hu₂, hu₁, hcui]
    simp


/-- C3 (failing input): the client tracks `A` as `downloading`, the poll timer runs, and two
consecutive snapshots report `A` as `done`.  Each of the two polls emits a
`download-complete` event, upserts the record (the second one overwrites `downloaded_at`) and
posts an acknowledgment; after the first poll the timer still runs and `activeDownloads` has
no entry for `A`. -/
theorem terminal_status_applied_on_every_poll :
    tracking.activeDownloads.get "A" = some .downloading ∧
      tracking.pollTimer = true ∧
      (pollDownloadStatus tracking (some doneSnapshot) "t1").pollTimer = true ∧
      (pollDownloadStatus tracking (some doneSnapshot) "t1").activeDownloads.get "A" = none ∧
      (pollDownloadStatus tracking (some doneSnapshot) "t1").ui
        = tracking.ui ++ [.downloadComplete "A"] ∧
      (pollDownloadStatus (pollDownloadStatus tracking (some doneSnapshot) "t1")
        (some doneSnapshot) "t2").ui
        = tracking.ui ++ [.downloadComplete "A", .downloadComplete "A"] ∧
      (pollDownloadStatus (pollDownloadStatus tracking (some doneSnapshot) "t1")
        (some doneSnapshot) "t2").upserts = tracking.upserts ++ ["A", "A"] ∧
      (pollDownloadStatus (pollDownloadStatus tracking (some doneSnapshot) "t1")
        (some doneSnapshot) "t2").api = tracking.api ++ [.ack "A", .ack "A"] ∧
      ((pollDownloadStatus tracking (some doneSnapshot) "t1").videos.get "A").bind
        (fun r => JsMap.get r "downloaded_at") = some (.str "t1") ∧
      ((pollDownloadStatus (pollDownloadStatus tracking (some doneSnapshot) "t1")
        (some doneSnapshot) "t2").videos.get "A").bind
        (fun r => JsMap.get r "downloaded_at") = some (.str "t2") := by
  decide

/-- C7 (counterexample): `A` is active and is cancelled, which sets its record to `error`; a
snapshot that still reports `A` as `done` then sets the record to `done` and emits
`download-complete`. -/
theorem late_done_resurrects_cancelled :
    tracking.activeDownloads.has "A" = true ∧
      recordStatus (cancelDownload tracking "A") "A" = some (.str "error") ∧
      (cancelDownload tracking "A").pollTimer = true ∧
      recordStatus (pollDownloadStatus (cancelDownload tracking "A") (some doneSnapshot) "t")
        "A" = some (.str "done") ∧
      (pollDownloadStatus (cancelDownload tracking "A") (some doneSnapshot) "t").ui
        = tracking.ui ++ [.downloadComplete "A"] := by
  decide

/-- C7 (witness): the amended statement at the cancelled job `A` and the snapshot that
reports it as `done`. -/
theorem late_done_after_cancel_is_applied_witness :
    recordStatus (pollDownloadStatus (cancelDownload tracking "A") (some doneSnapshot) "t") "A"
      = some (.str "done") :=
  (late_done_after_cancel_is_applied tracking "A" doneSnapshot
    ⟨.done, ⟨100, 0⟩, none, none, some "videos/channels/c/A.mp4", none, some 10, some 5,
      some "", none⟩ "t" (by decide) (by decide) rfl (by decide)).1


/-- C9 (counterexample): `A` is tracked as `downloading` and two consecutive snapshots are
empty; afterwards the record of `A` still has status `downloading` and `A` is still in
`activeDownloads`. -/
theorem absent_job_not_recovered :
    recordStatus tracking "A" = some (.str "downloading") ∧
      tracking.activeDownloads.get "A" = some .downloading ∧
      tracking.pollTimer = true ∧
      recordStatus (pollDownloadStatus (pollDownloadStatus tracking (some []) "t1") (some [])
        "t2") "A" = some (.str "downloading") ∧
      (pollDownloadStatus (pollDownloadStatus tracking (some []) "t1") (some [])
        "t2").activeDownloads.get "A" = some .downloading := by
  decide

/-- C9 (witness): the amended statement at the tracked job `A` and two empty snapshots. -/
theorem absent_job_stays_downloading_witness :
    (pollDownloadStatus (pollDownloadStatus tracking (some []) "t1") (some [])
        "t2").activeDownloads.get "A" = some .downloading ∧
      (pollDownloadStatus (pollDownloadStatus tracking (some []) "t1") (some [])
        "t2").videos.get "A" = tracking.videos.get "A" :=
  absent_job_stays_downloading tracking "A" [] [] "t1" "t2" (by decide)
    (by simp) (by simp)


/-! ## Client: ceiling 1 -/

theorem processQueue_of_full (s : Client) (h : s.concurrency ≤ s.activeDownloads.size) :
    processQueue s = s := by
  unfold processQueue
  cases hq : s.downloadQueue with
  | nil =>
    unfold processLoop
    cases s
    simp_all
  | cons next rest =>
    unfold processLoop
    rw [if_neg (by omega)]
    cases s
    simp_all

theorem Occupied.processQueue {a : VideoId} {s : Client} (h : Occupied a s) :
    processQueue s = s :=
  processQueue_of_full s (by rw [h.1, h.2.1]; simp [JsMap.size])

theorem updatePollTimer_occupied {a : VideoId} {s : Client} (h : Occupied a s) :
    Occupied a (updatePollTimer s) ∧ (updatePollTimer s).downloadQueue = s.downloadQueue := by
  unfold updatePollTimer
  simp only
  split_ifs <;> exact ⟨h, rfl⟩

theorem delete_other (a z : VideoId) (h : z ≠ a) :
    JsMap.delete [(a, Status.downloading)] z = [(a, Status.downloading)] := by
  simp [JsMap.delete, Ne.symm h]

theorem delete_set_other (a z : VideoId) (v : Status) (h : z ≠ a) :
    JsMap.delete (JsMap.set [(a, Status.downloading)] z v) z = [(a, Status.downloading)] := by
  simp [JsMap.delete, JsMap.set, Ne.symm h]

theorem onDownloadDone_occupied {a : VideoId} {s : Client} (msg : DoneMsg) (now : String)
    (hc : s.concurrency = 1) (ha : s.activeDownloads.delete msg.videoId = [(a, .downloading)])
    (hs : s.startCalls = [a]) :
    Occupied a (onDownloadDone s msg now) ∧
      (onDownloadDone s msg now).downloadQueue = s.downloadQueue := by
  unfold onDownloadDone
  simp only
  have h : Occupied a (broadcastToUI (upsertVideo (deleteActive s msg.videoId) msg.videoId
      [("status", .str "done"), ("file_path", optStr msg.filePath),
        ("thumbnail_path", optStr msg.thumbnailPath),
        ("file_size", optNum (msg.fileSize.map Int.ofNat)), ("duration", optNum msg.duration),
        ("width", .null), ("height", .null),
        ("description", .str (strOr msg.description "")), ("downloaded_at", .str now),
        ("error_message", .null)]) (.downloadComplete msg.videoId)) := ⟨hc, ha, hs⟩
  rw [h.processQueue]
  exact ⟨h, rfl⟩

theorem onDownloadError_occupied {a : VideoId} {s : Client} (msg : ErrorMsg)
    (hc : s.concurrency = 1) (ha : s.activeDownloads.delete msg.videoId = [(a, .downloading)])
    (hs : s.startCalls = [a]) :
    Occupied a (onDownloadError s msg) ∧
      (onDownloadError s msg).downloadQueue = s.downloadQueue := by
  unfold onDownloadError
  simp only
  have h : Occupied a (broadcastToUI (upsertVideo (deleteActive s msg.videoId) msg.videoId
      [("status", .str "error"), ("error_message", optStr msg.error)])
      (.downloadError msg.videoId msg.error)) := ⟨hc, ha, hs⟩
  rw [h.processQueue]
  exact ⟨h, rfl⟩

theorem pollEntry_occupied {a : VideoId} {s : Client} (now : String) (e : VideoId × JobState)
    (h : Occupied a s)
    (hterm : (decide (e.1 = a) &&
      (decide (e.2.status = .done) || decide (e.2.status = .error))) = false) :
    Occupied a (pollEntry now s e) ∧ (pollEntry now s e).downloadQueue = s.downloadQueue := by
  unfold pollEntry
  simp only
  have hA : Occupied a (if e.2.status = .downloading ∨ e.2.status = .queued then
      broadcastToUI s (.downloadProgress e.1 e.2.percent e.2.speed e.2.eta) else s) ∧
      (if e.2.status = .downloading ∨ e.2.status = .queued then
      broadcastToUI s (.downloadProgress e.1 e.2.percent e.2.speed e.2.eta) else s).downloadQueue
        = s.downloadQueue := by
    split_ifs <;> exact ⟨h, rfl⟩
  obtain ⟨hA, hqA⟩ := hA
  rw [← hqA]
  generalize (if e.2.status = .downloading ∨ e.2.status = .queued then
      broadcastToUI s (.downloadProgress e.1 e.2.percent e.2.speed e.2.eta) else s) = sA at hA ⊢
  have hB : Occupied a (if e.2.status = .done ∧ sA.activeDownloads.get e.1 ≠ some .done then
      apiPost (onDownloadDone (setActive sA e.1 .done)
        ⟨e.1, e.2.filePath, e.2.thumbnailPath, e.2.fileSize, e.2.duration, e.2.description⟩ now)
        (.ack e.1) else sA) ∧
      (if e.2.status = .done ∧ sA.activeDownloads.get e.1 ≠ some .done then
      apiPost (onDownloadDone (setActive sA e.1 .done)
        ⟨e.1, e.2.filePath, e.2.thumbnailPath, e.2.fileSize, e.2.duration, e.2.description⟩ now)
        (.ack e.1) else sA).downloadQueue = sA.downloadQueue := by
    split_ifs with hd
    · have hne : e.1 ≠ a := by
        intro heq
        simp [heq, hd.1] at hterm
      obtain ⟨h1, h2⟩ := onDownloadDone_occupied (s := setActive sA e.1 .done)
        ⟨e.1, e.2.filePath, e.2.thumbnailPath, e.2.fileSize, e.2.duration, e.2.description⟩ now
        hA.1 (by simp only [setActive]; rw [hA.2.1]; exact delete_set_other a e.1 _ hne) hA.2.2
      exact ⟨h1, h2⟩
    · exact ⟨hA, rfl⟩
  obtain ⟨hB, hqB⟩ := hB
  rw [← hqB]
  generalize (if e.2.status = .done ∧ sA.activeDownloads.get e.1 ≠ some .done then
      apiPost (onDownloadDone (setActive sA e.1 .done)
        ⟨e.1, e.2.filePath, e.2.thumbnailPath, e.2.fileSize, e.2.duration, e.2.description⟩ now)
        (.ack e.1) else sA) = sB at hB ⊢
  split_ifs with hd
  · have hne : e.1 ≠ a := by
      intro heq
      simp [heq, hd.1] at hterm
    obtain ⟨h1, h2⟩ := onDownloadError_occupied (s := setActive sB e.1 .error)
      ⟨e.1, e.2.error⟩ hB.1
      (by simp only [setActive]; rw [hB.2.1]; exact delete_set_other a e.1 _ hne) hB.2.2
    exact ⟨h1, h2⟩
  · exact ⟨hB, rfl⟩

theorem foldl_pollEntry_occupied {a : VideoId} (now : String) (l : List (VideoId × JobState))
    (s : Client) (h : Occupied a s)
    (hterm : l.any (fun e => decide (e.1 = a) &&
      (decide (e.2.status = .done) || decide (e.2.status = .error))) = false) :
    Occupied a (l.foldl (pollEntry now) s) ∧
      (l.foldl (pollEntry now) s).downloadQueue = s.downloadQueue := by
  induction l generalizing s with
  | nil => exact ⟨h, rfl⟩
  | cons e l ih =>
    simp only [List.any_cons, Bool.or_eq_false_iff] at hterm
    obtain ⟨h1, h2⟩ := pollEntry_occupied now e h hterm.1
    obtain ⟨h3, h4⟩ := ih _ h1 hterm.2
    exact ⟨h3, h4.trans h2⟩


theorem pollDownloadStatus_occupied {a : VideoId} {s : Client}
    (response : Option (JsMap JobState)) (now : String) (h : Occupied a s)
    (hrel : releases a s (.poll response now) = false) :
    Occupied a (pollDownloadStatus s response now) ∧
      (pollDownloadStatus s response now).downloadQueue = s.downloadQueue := by
  unfold pollDownloadStatus
  split_ifs with hconn
  · exact ⟨h, rfl⟩
  · cases response with
    | none => exact updatePollTimer_occupied h
    | some downloads =>
      simp only
      have hterm : downloads.any (fun e => decide (e.1 = a) &&
          (decide (e.2.status = .done) || decide (e.2.status = .error))) = false := by
        have hconn' : s.connected = true := by simpa using hconn
        simpa [releases, terminalFor, hconn'] using hrel
      obtain ⟨h1, h2⟩ := foldl_pollEntry_occupied now downloads s h hterm
      have h3 : Occupied a
          { downloads.foldl (pollEntry now) s with
            activeDownloads := (downloads.foldl (pollEntry now) s).activeDownloads.filter
              (fun e => !(!JsMap.has downloads e.1 &&
                (decide (e.2 = .done) || decide (e.2 = .error)))) } := by
        refine ⟨h1.1, ?_, h1.2.2⟩
        simp only
        rw [h1.2.1]
        simp
      obtain ⟨h4, h5⟩ := updatePollTimer_occupied h3
      exact ⟨h4, h5.trans h2⟩

theorem startDownload_occupied {a : VideoId} {s : Client} (videoId : VideoId)
    (cookies : Option String) (post : PostOutcome) (h : Occupied a s)
    (hrel : releases a s (.startDownload videoId cookies post) = false) :
    Occupied a (startDownload s videoId cookies post) ∧
      (startDownload s videoId cookies post).downloadQueue = s.downloadQueue := by
  obtain ⟨hc, ha, hs⟩ := h
  unfold startDownload
  simp only
  by_cases hv : videoId = a
  · subst hv
    have hconn : s.connected = true := by
      cases hcn : s.connected with
      | true => rfl
      | false => simp [releases, terminalFor, hcn] at hrel
    have hpost : ∀ m, post ≠ .throws m := by
      intro m hm
      simp [releases, terminalFor, hconn, hm] at hrel
    rw [if_neg (by simp [broadcastToUI, upsertVideo, hconn])]
    cases post with
    | throws m => exact absurd rfl (hpost m)
    | ok => exact updatePollTimer_occupied ⟨hc, ha, hs⟩
    | rejected e => exact updatePollTimer_occupied ⟨hc, ha, hs⟩
  · split_ifs
    · refine ⟨⟨hc, ?_, hs⟩, rfl⟩
      simp only [upsertVideo, deleteActive, broadcastToUI]
      rw [ha]
      exact delete_other a videoId hv
    · cases post with
      | throws m =>
        refine ⟨⟨hc, ?_, hs⟩, rfl⟩
        simp only [upsertVideo, deleteActive, broadcastToUI, apiPost]
        rw [ha]
        exact delete_other a videoId hv
      | ok => exact updatePollTimer_occupied ⟨hc, ha, hs⟩
      | rejected e => exact updatePollTimer_occupied ⟨hc, ha, hs⟩

theorem pushSorted_occupied {a : VideoId} (lc : String → String → Int) {s : Client}
    (videoInfo : VideoInfo) (h : Occupied a s) : Occupied a (pushSorted lc s videoInfo) := by
  unfold pushSorted
  split_ifs <;> exact h

theorem enqueueDownload_occupied {a : VideoId} (lc : String → String → Int) {s : Client}
    (videoInfo : VideoInfo) (isShort : Bool) (h : Occupied a s) :
    Occupied a (enqueueDownload lc s videoInfo isShort) := by
  unfold enqueueDownload
  split_ifs
  · exact h
  · simp only
    have h' : Occupied a (pushSorted lc
        (upsertVideo s videoInfo.id (enqueueFields videoInfo isShort)) videoInfo) :=
      pushSorted_occupied lc videoInfo h
    rw [h'.processQueue]
    exact h'

theorem cancelDownload_occupied {a : VideoId} {s : Client} (videoId : VideoId)
    (h : Occupied a s) (hv : videoId ≠ a) : Occupied a (cancelDownload s videoId) := by
  obtain ⟨hc, ha, hs⟩ := h
  unfold cancelDownload
  simp only
  split_ifs
  · refine ⟨hc, ?_, hs⟩
    simp only [upsertVideo, deleteActive, apiPost]
    rw [ha]
    exact delete_other a videoId hv
  · exact ⟨hc, ha, hs⟩

theorem checkConnection_occupied {a : VideoId} {s : Client} (ping : Option Bool)
    (h : Occupied a s) :
    Occupied a (checkConnection s ping) ∧
      (checkConnection s ping).downloadQueue = s.downloadQueue := by
  unfold checkConnection
  simp only
  repeat' split
  all_goals exact ⟨h, rfl⟩

theorem pushSorted_queued (lc : String → String → Int) (b : VideoId) (s : Client)
    (videoInfo : VideoInfo) (h : Queued b s) : Queued b (pushSorted lc s videoInfo) := by
  unfold pushSorted
  split_ifs
  · exact h
  · obtain ⟨q, hq, hb⟩ := h
    exact ⟨q, by simp [mem_jsSort, hq], hb⟩

theorem step_occupied (lc : String → String → Int) {a : VideoId} {s : Client} (e : Event)
    (h : Occupied a s) (hrel : releases a s e = false) : Occupied a (step lc s e) := by
  cases e with
  | enqueue videoInfo isShort => exact enqueueDownload_occupied lc videoInfo isShort h
  | processQueue => simp only [step]; rw [h.processQueue]; exact h
  | startDownload videoId cookies post =>
    exact (startDownload_occupied videoId cookies post h hrel).1
  | poll response now => exact (pollDownloadStatus_occupied response now h hrel).1
  | done msg now =>
    have hv : msg.videoId ≠ a := by simpa [releases, terminalFor] using hrel
    exact (onDownloadDone_occupied msg now h.1 (by rw [h.2.1]; exact delete_other a _ hv)
      h.2.2).1
  | error msg =>
    have hv : msg.videoId ≠ a := by simpa [releases, terminalFor] using hrel
    exact (onDownloadError_occupied msg h.1 (by rw [h.2.1]; exact delete_other a _ hv)
      h.2.2).1
  | cancel videoId =>
    have hv : videoId ≠ a := by simpa [releases, terminalFor] using hrel
    exact cancelDownload_occupied videoId h hv
  | checkConnection ping => exact (checkConnection_occupied ping h).1

theorem step_queued (lc : String → String → Int) {a b : VideoId} {s : Client} (e : Event)
    (h : Occupied a s) (hrel : releases a s e = false) (hq : Queued b s)
    (hcancel : e ≠ .cancel b) : Queued b (step lc s e) := by
  cases e with
  | enqueue videoInfo isShort =>
    simp only [step, enqueueDownload]
    split_ifs
    · exact hq
    · have h' : Occupied a (pushSorted lc
          (upsertVideo s videoInfo.id (enqueueFields videoInfo isShort)) videoInfo) :=
        pushSorted_occupied lc videoInfo h
      rw [h'.processQueue]
      exact pushSorted_queued lc b _ videoInfo hq
  | processQueue => simp only [step]; rw [h.processQueue]; exact hq
  | startDownload videoId cookies post =>
    unfold Queued
    rw [show (step lc s (.startDownload videoId cookies post)).downloadQueue = s.downloadQueue
      from (startDownload_occupied videoId cookies post h hrel).2]
    exact hq
  | poll response now =>
    unfold Queued
    rw [show (step lc s (.poll response now)).downloadQueue = s.downloadQueue
      from (pollDownloadStatus_occupied response now h hrel).2]
    exact hq
  | done msg now =>
    have hv : msg.videoId ≠ a := by simpa [releases, terminalFor] using hrel
    unfold Queued
    rw [show (step lc s (.done msg now)).downloadQueue = s.downloadQueue
      from (onDownloadDone_occupied msg now h.1 (by rw [h.2.1]; exact delete_other a _ hv)
        h.2.2).2]
    exact hq
  | error msg =>
    have hv : msg.videoId ≠ a := by simpa [releases, terminalFor] using hrel
    unfold Queued
    rw [show (step lc s (.error msg)).downloadQueue = s.downloadQueue
      from (onDownloadError_occupied msg h.1 (by rw [h.2.1]; exact delete_other a _ hv)
        h.2.2).2]
    exact hq
  | cancel videoId =>
    have hv : videoId ≠ b := fun h' => hcancel (by rw [h'])
    obtain ⟨q, hq1, hq2⟩ := hq
    refine ⟨q, ?_, hq2⟩
    have : (step lc s (.cancel videoId)).downloadQueue =
        spliceFirst (fun q => decide (q.videoId = videoId)) s.downloadQueue := by
      simp only [step, cancelDownload]
      split_ifs <;> rfl
    rw [this]
    exact mem_spliceFirst _ _ _ hq1 (by simp [hq2, Ne.symm hv])
  | checkConnection ping =>
    unfold Queued
    rw [show (step lc s (.checkConnection ping)).downloadQueue = s.downloadQueue
      from (checkConnection_occupied ping h).2]
    exact hq

theorem run_occupied (lc : String → String → Int) {a b : VideoId} (es : List Event)
    (s : Client) (h : Occupied a s) (hrel : never lc (releases a) s es = true) :
    Occupied a (run lc s es) ∧
      (Queued b s → Event.cancel b ∉ es → Queued b (run lc s es)) := by
  induction es generalizing s with
  | nil => exact ⟨h, fun hq _ => hq⟩
  | cons e es ih =>
    simp only [never, Bool.and_eq_true, Bool.not_eq_true'] at hrel
    obtain ⟨h1, h2⟩ := ih (step lc s e) (step_occupied lc e h hrel.1) hrel.2
    refine ⟨h1, ?_⟩
    intro hq hc
    simp only [List.mem_cons, not_or] at hc
    exact h2 (step_queued lc e h hrel.1 hq (Ne.symm hc.1)) hc.2

theorem first_enqueue (lc : String → String → Int) (connected : Bool) (A B : VideoInfo)
    (shortA : Bool) (hne : A.id ≠ B.id) :
    Occupied A.id (enqueueDownload lc (Client.fresh 1 connected) A shortA) ∧
      (enqueueDownload lc (Client.fresh 1 connected) A shortA).downloadQueue = [] ∧
      alreadyHandled (enqueueDownload lc (Client.fresh 1 connected) A shortA) B.id = false := by
  simp [enqueueDownload, alreadyHandled, getVideo, Client.fresh, Client.init, JsMap.get,
    pushSorted, jsSort, insertSorted, processQueue, processLoop, setActive, JsMap.set,
    JsMap.size, broadcastToUI, upsertVideo, Occupied, hne]

theorem second_enqueue (lc : String → String → Int) {a : VideoId} {s : Client} (B : VideoInfo)
    (shortB : Bool) (hocc : Occupied a s) (hq : s.downloadQueue = [])
    (hfresh : alreadyHandled s B.id = false) :
    Occupied a (enqueueDownload lc s B shortB) ∧ Queued B.id (enqueueDownload lc s B shortB) := by
  have hpush : Occupied a (pushSorted lc (upsertVideo s B.id (enqueueFields B shortB)) B) :=
    pushSorted_occupied lc B hocc
  have h2 : enqueueDownload lc s B shortB =
      broadcastToUI (pushSorted lc (upsertVideo s B.id (enqueueFields B shortB)) B)
        .queueUpdated := by
    unfold enqueueDownload
    rw [hfresh]
    simp only [Bool.false_eq_true, if_false]
    rw [hpush.processQueue]
  rw [h2]
  refine ⟨hpush, ⟨B.id, strOr B.published_at ""⟩, ?_, rfl⟩
  simp [broadcastToUI, pushSorted, upsertVideo, hq, jsSort, insertSorted]

/-- C6 (amended): on an empty client with ceiling 1, enqueueing `A` and then `B` starts `A`
at once, and as long as no callback takes `A` out of `activeDownloads` (no `onDownloadDone`
or `onDownloadError` for `A`, directly or through a snapshot that reports `A` as `done` or
`error`, no failed submission of `A`, and no `cancel-download` for `A`) `startDownload` has
been called for `A` only, `A` is the only active id, and `B` is still in the backlog unless
it was cancelled itself. -/
theorem newer_first_under_ceiling_one (lc : String → String → Int) (connected : Bool)
    (A B : VideoInfo) (shortA shortB : Bool) (hne : A.id ≠ B.id) :
    (enqueueDownload lc (Client.fresh 1 connected) A shortA).startCalls = [A.id] ∧
    ∀ es : List Event,
      never lc (releases A.id)
        (enqueueDownload lc (enqueueDownload lc (Client.fresh 1 connected) A shortA) B shortB)
        es = true →
      (run lc (enqueueDownload lc (enqueueDownload lc (Client.fresh 1 connected) A shortA) B
          shortB) es).startCalls = [A.id] ∧
      (run lc (enqueueDownload lc (enqueueDownload lc (Client.fresh 1 connected) A shortA) B
          shortB) es).activeDownloads = [(A.id, .downloading)] ∧
      (Event.cancel B.id ∉ es →
        ∃ q ∈ (run lc (enqueueDownload lc (enqueueDownload lc (Client.fresh 1 connected) A
          shortA) B shortB) es).downloadQueue, q.videoId = B.id) := by
  obtain ⟨hocc, hq, hfresh⟩ := first_enqueue lc connected A B shortA hne
  refine ⟨hocc.2.2, ?_⟩
  obtain ⟨hocc2, hqueued⟩ := second_enqueue lc B shortB hocc hq hfresh
  intro es hrel
  obtain ⟨h3, h4⟩ := run_occupied lc (b := B.id) es _ hocc2 hrel
  exact ⟨h3.2.2, h3.2.1, fun hc => h4 hqueued hc⟩

/-- C6 (counterexample): `A` and `B` are enqueued with ceiling 1, `A` is cancelled and `B` is
enqueued once more.  No terminal transition of `A` has taken place (no `onDownloadDone`, no
`onDownloadError`, no failed submission), yet `startDownload` has been called for `B` and
`B` is active. -/
theorem backlog_entry_started_after_cancel :
    never codePointCompare (terminalFor "A")
        (run codePointCompare (Client.fresh 1 true) [.enqueue itemA false, .enqueue itemB false])
        [.cancel "A", .enqueue itemB false] = true ∧
      (run codePointCompare (Client.fresh 1 true)
        [.enqueue itemA false, .enqueue itemB false, .cancel "A",
          .enqueue itemB false]).startCalls = ["A", "B"] ∧
      (run codePointCompare (Client.fresh 1 true)
        [.enqueue itemA false, .enqueue itemB false, .cancel "A",
          .enqueue itemB false]).activeDownloads = [("B", .downloading)] := by
  decide

/-- C6 (witness): after `A` and `B` are enqueued, the submission of `A` succeeds and a snapshot
reports `A` as downloading; `startDownload` has still been called for `A` only. -/
theorem newer_first_under_ceiling_one_witness :
    (run codePointCompare
        (enqueueDownload codePointCompare
          (enqueueDownload codePointCompare (Client.fresh 1 true) itemA false) itemB false)
        [.startDownload "A" none .ok,
          .poll (some [("A", Host.downloadingJob)]) "t"]).startCalls = ["A"] :=
  ((newer_first_under_ceiling_one codePointCompare true itemA itemB false false
    (by decide)).2
    [.startDownload "A" none .ok, .poll (some [("A", Host.downloadingJob)]) "t"]
    (by decide)).1


end Client

/-! ## Worker: acknowledgements, exit diagnostics, cancellation, static files -/

namespace Host

theorem ack_of_absent (s : Host) (videoId : VideoId) (h : s.downloadState.get videoId = none) :
    ack s videoId = s := by
  simp [ack, h]

theorem ack_ack (s : Host) (videoId : VideoId) : ack (ack s videoId) videoId = ack s videoId := by
  cases hg : s.downloadState.get videoId with
  | none => rw [ack_of_absent s videoId hg, ack_of_absent s videoId hg]
  | some st =>
    by_cases ht : st.status = .done ∨ st.status = .error
    · have h1 : ack s videoId = { s with downloadState := s.downloadState.delete videoId } := by
        simp only [ack, hg, if_pos ht]
      rw [h1]
      exact ack_of_absent _ _ (JsMap.get_delete_self _ _)
    · have h1 : ack s videoId = s := by simp only [ack, hg, if_neg ht]
      rw [h1, h1]

/-- C11: acknowledging an id twice leaves the worker in the same state as acknowledging it
once, the second request is answered `ok: true` like the first, and an acknowledgement
for an id without a Job Store entry changes nothing and is answered `ok: true`. -/
theorem ack_is_idempotent (s : Host) (videoId : VideoId) :
    (ackRequest (ackRequest s videoId).1 videoId).1 = (ackRequest s videoId).1 ∧
      (ackRequest (ackRequest s videoId).1 videoId).2 = ApiAnswer.ok ∧
      (ackRequest s videoId).2 = ApiAnswer.ok ∧
      (s.downloadState.get videoId = none → ackRequest s videoId = (s, ApiAnswer.ok)) := by
  refine ⟨ack_ack s videoId, rfl, rfl, fun h => ?_⟩
  simp [ackRequest, ack_of_absent s videoId h]

theorem ack_is_idempotent_witness :
    (ack twoJobs "b").downloadState.get "b" = none ∧
      ackRequest (ack twoJobs "b") "b" = (ack twoJobs "b", ApiAnswer.ok) :=
  ⟨by decide, (ack_is_idempotent (ack twoJobs "b") "b").2.2.2 (by decide)⟩

theorem closeHandler_failed (s : Host) (c : Proc) (code : Option Int)
    (finalize : String → Except String Finalized) (h : code ≠ some 0) :
    ((closeHandler s c code finalize).downloadState.get c.videoId).map
        (fun st => (st.status, st.error))
      = some (Status.error, some (errorLine c.stderrBuf code)) := by
  unfold closeHandler
  simp only [if_pos h]
  split <;> simp [JsMap.get_set_self, failedJob]

theorem errorLine_of_last (stderrBuf : String) (code : Option Int) (pre post : List (List Char))
    (l : List Char) (hs : splitLines stderrBuf.data = pre ++ l :: post)
    (hl : startsWithChars (trimChars l) "ERROR:".data = true)
    (hpost : ∀ m ∈ post, startsWithChars (trimChars m) "ERROR:".data = false) :
    errorLine stderrBuf code = String.mk (trimChars l) := by
  have hp : (post.map trimChars).filter (fun l => startsWithChars l "ERROR:".data) = [] := by
    rw [List.filter_eq_nil_iff]
    intro m hm
    obtain ⟨m', hm', rfl⟩ := List.mem_map.1 hm
    simp [hpost m' hm']
  unfold errorLine
  simp only [hs, List.map_append, List.map_cons, List.filter_append, List.filter_cons, hl,
    if_true, hp, List.getLast?_append, List.getLast?_singleton, Option.or]

theorem errorLine_of_none (stderrBuf : String) (code : Option Int)
    (h : ∀ l ∈ splitLines stderrBuf.data, startsWithChars (trimChars l) "ERROR:".data = false) :
    errorLine stderrBuf code = "yt-dlp exited with code " ++ codeText code := by
  have hp : ((splitLines stderrBuf.data).map trimChars).filter
      (fun l => startsWithChars l "ERROR:".data) = [] := by
    rw [List.filter_eq_nil_iff]
    intro m hm
    obtain ⟨m', hm', rfl⟩ := List.mem_map.1 hm
    simp [h m' hm']
  unfold errorLine
  simp only [hp, List.getLast?_nil]

/-- C12: when a process exits with a code other than 0, the job ends with status `error`
and its error text is the diagnostic of the stderr text: the last line that starts with
`ERROR:` after trimming (in its trimmed form), and the generic text with the exit code when
no line does. -/
theorem failed_exit_reports_last_error_line (s : Host) (c : Proc) (code : Option Int)
    (finalize : String → Except String Finalized) (h : code ≠ some 0) :
    ((closeHandler s c code finalize).downloadState.get c.videoId).map
        (fun st => (st.status, st.error))
      = some (Status.error, some (errorLine c.stderrBuf code)) ∧
    (∀ (pre post : List (List Char)) (l : List Char),
      splitLines c.stderrBuf.data = pre ++ l :: post →
      startsWithChars (trimChars l) "ERROR:".data = true →
      (∀ m ∈ post, startsWithChars (trimChars m) "ERROR:".data = false) →
      errorLine c.stderrBuf code = String.mk (trimChars l)) ∧
    ((∀ l ∈ splitLines c.stderrBuf.data, startsWithChars (trimChars l) "ERROR:".data = false) →
      errorLine c.stderrBuf code = "yt-dlp exited with code " ++ codeText code) :=
  ⟨closeHandler_failed s c code finalize h,
    fun pre post l hs hl hpost => errorLine_of_last c.stderrBuf code pre post l hs hl hpost,
    errorLine_of_none c.stderrBuf code⟩

theorem failed_exit_reports_last_error_line_witness :
    (some 1 : Option Int) ≠ some 0 ∧
      ((closeHandler failing.1 failing.2 (some 1) (fun _ => .error "")).downloadState.get "a").map
          (fun st => (st.status, st.error))
        = some (Status.error, some (errorLine failing.2.stderrBuf (some 1))) ∧
      errorLine failing.2.stderrBuf (some 1) = "ERROR: second" :=
  ⟨by decide,
    (failed_exit_reports_last_error_line failing.1 failing.2 (some 1) (fun _ => .error "")
      (by decide)).1,
    (failed_exit_reports_last_error_line failing.1 failing.2 (some 1) (fun _ => .error "")
      (by decide)).2.1 ["WARNING: slow".data, "ERROR: first".data] ["bye".data, []]
      "  ERROR: second ".data (by decide) (by decide) (by decide)⟩

theorem startsWithChars_append (p r : List Char) : startsWithChars (p ++ r) p = true := by
  induction p with
  | nil => cases r <;> rfl
  | cons c cs ih => simp [startsWithChars, ih]

theorem finalizeBody_of_unusable (env : FinalizeEnv) (text : String) (h : Unusable env text) :
    (finalizeBody env text).isOk = false := by
  unfold Unusable at h
  unfold finalizeBody
  split at h
  · rename_i hp; simp [hp, Except.isOk, Except.toBool]
  · rename_i hp; simp [hp, Except.isOk, Except.toBool]
  · rename_i m hp
    simp [hp, filePathOf, h.1, h.2, truthy, Except.isOk, Except.toBool]

theorem closeHandler_of_finalize_error (s : Host) (c : Proc)
    (finalize : String → Except String Finalized)
    (hentry : s.downloadState.has c.videoId = true)
    (hbad : (finalize (jsonStr c.stdout)).isOk = false) :
    ((closeHandler s c (some 0) finalize).downloadState.get c.videoId).map JobState.status
        = some Status.error ∧
      (((closeHandler s c (some 0) finalize).downloadState.get c.videoId).bind
          JobState.error).map (fun e => startsWithChars e.data "Metadata parse error: ".data)
        = some true := by
  have h' : (drainQueue { s with activeProcs := s.activeProcs.delete c.videoId }).downloadState.has
      c.videoId = true := drainLoop_keeps _ _ _ (by simpa using hentry)
  cases hf : finalize (jsonStr c.stdout) with
  | ok m => simp [hf, Except.isOk, Except.toBool] at hbad
  | error message =>
    cases hg : (drainQueue { s with activeProcs := s.activeProcs.delete c.videoId }).downloadState.get
        c.videoId with
    | none => simp [JsMap.has, hg] at h'
    | some st =>
      unfold closeHandler
      simp only [ne_eq, not_true_eq_false, if_false, hf, hg, JsMap.get_set_self, Option.map_some',
        Option.some_bind, String.data_append, startsWithChars_append, and_self]

/-- C13: when a process exits with code 0 and the metadata text (the text from the last
newline followed by an opening brace in stdout, or all of stdout) is not parsable, or the
parsed metadata has no file name, a job that has a Job Store entry ends with status `error`
and an error text that begins with `Metadata parse error: `. -/
theorem finalize_failure_is_terminal_error (env : FinalizeEnv) (s : Host) (c : Proc)
    (hentry : s.downloadState.has c.videoId = true)
    (hbad : Unusable env (jsonStr c.stdout)) :
    ((closeHandler s c (some 0) (finalizeBody env)).downloadState.get c.videoId).map
        JobState.status = some Status.error ∧
      (((closeHandler s c (some 0) (finalizeBody env)).downloadState.get c.videoId).bind
          JobState.error).map (fun e => startsWithChars e.data "Metadata parse error: ".data)
        = some true :=
  closeHandler_of_finalize_error s c (finalizeBody env) hentry
    (finalizeBody_of_unusable env _ hbad)

theorem finalize_failure_is_terminal_error_witness :
    finishing.1.downloadState.has "a" = true ∧
      Unusable noFilename (jsonStr finishing.2.stdout) ∧
      ((closeHandler finishing.1 finishing.2 (some 0) (finalizeBody noFilename)).downloadState.get
          "a").map JobState.status = some Status.error ∧
      (((closeHandler finishing.1 finishing.2 (some 0) (finalizeBody noFilename)).downloadState.get
          "a").bind JobState.error).map
            (fun e => startsWithChars e.data "Metadata parse error: ".data) = some true :=
  ⟨by decide, ⟨rfl, rfl⟩,
    finalize_failure_is_terminal_error noFilename finishing.1 finishing.2 (by decide)
      ⟨rfl, rfl⟩⟩

/-- C16: after `cancelDownload(id)` neither `activeProcs` nor `downloadState` has an entry
for `id`, but `downloadQueue` can still hold one: when `a` was submitted twice while two
other jobs were running, one entry for `a` survives the cancellation, and the next exit of
a running process launches `a`. -/
theorem cancel_leaves_duplicate_queue_entry :
    (∀ (s : Host) (videoId : VideoId),
      (cancelDownload s videoId).activeProcs.has videoId = false ∧
        (cancelDownload s videoId).downloadState.get videoId = none) ∧
    cancelledTwice.downloadQueue.map QueueEntry.videoId = ["a"] ∧
    (drainQueue cancelledTwice).activeProcs.has "a" = false ∧
    (step cancelledTwice (.close 0 (some 0) (fun _ => .error ""))).activeProcs.has "a" = true ∧
    ((step cancelledTwice (.close 0 (some 0) (fun _ => .error ""))).downloadState.get "a").map
      JobState.status = some Status.downloading := by
  refine ⟨fun s videoId => ⟨?_, ?_⟩, by decide, by decide, by decide, by decide⟩
  · simp [cancelDownload, JsMap.has_delete]
  · simp [cancelDownload, JsMap.get_delete_self]

/-- C17: for a worker installed in `/srv/tubestash`, the request path `/../videos-old/x`
is not answered with 403: the handler goes on to serve `/srv/tubestash/videos-old/x`,
which is neither `VIDEOS_DIR` nor inside it. -/
theorem sibling_directory_is_served :
    VIDEOS_DIR "/srv/tubestash" = "/srv/tubestash/videos" ∧
      resolveStatic "/srv/tubestash" "/../videos-old/x" = some "/srv/tubestash/videos-old/x" ∧
      ¬ Inside (VIDEOS_DIR "/srv/tubestash") "/srv/tubestash/videos-old/x" ∧
      resolveStatic "/srv/tubestash" "/../../etc/passwd" = none := by
  refine ⟨by decide, by decide, ?_, by decide⟩
  unfold Inside
  decide

end Host

/-! ## Client: submissions, record updates, connection checks -/

namespace Client

theorem startDownload_rejected (s : Client) (videoId : VideoId) (cookies : Option String)
    (message : String) :
    startDownload s videoId cookies (.rejected message) = startDownload s videoId cookies .ok := by
  unfold startDownload
  rfl

theorem startDownload_throws (s : Client) (videoId : VideoId) (cookies : Option String)
    (message : String) :
    (startDownload s videoId cookies (.throws message)).activeDownloads.has videoId = false ∧
      recordStatus (startDownload s videoId cookies (.throws message)) videoId
        = some (.str "error") := by
  unfold startDownload recordStatus
  simp only
  split_ifs
  · exact ⟨by simp [upsertVideo, deleteActive, JsMap.has_delete],
      upsertVideo_field _ _ _ _ _ (by decide) (by decide)⟩
  · exact ⟨by simp [upsertVideo, deleteActive, JsMap.has_delete],
      upsertVideo_field _ _ _ _ _ (by decide) (by simp [JsMap.get])⟩

/-- C14: a submission that the worker rejects with an error response is handled like an
accepted one, while a request that throws frees the slot and marks the record as `error`:
for the client `tracking`, whose submission of `B` is under way, a rejection leaves `B`
in `activeDownloads` and its record `downloading` with no error message. -/
theorem rejected_submission_is_taken_as_accepted :
    (∀ (s : Client) (videoId : VideoId) (cookies : Option String) (message : String),
      startDownload s videoId cookies (.rejected message)
        = startDownload s videoId cookies .ok) ∧
    (∀ (s : Client) (videoId : VideoId) (cookies : Option String) (message : String),
      (startDownload s videoId cookies (.throws message)).activeDownloads.has videoId = false ∧
        recordStatus (startDownload s videoId cookies (.throws message)) videoId
          = some (.str "error")) ∧
    tracking.connected = true ∧
    (startDownload tracking "B" none (.rejected "EACCES")).activeDownloads.has "B" = true ∧
    recordStatus (startDownload tracking "B" none (.rejected "EACCES")) "B"
      = some (.str "downloading") ∧
    recordField (startDownload tracking "B" none (.rejected "EACCES")) "B" "error_message"
      = some .null :=
  ⟨startDownload_rejected, startDownload_throws, by decide, by decide, by decide, by decide⟩

theorem recordField_upsert_of_field (s : Client) (videoId : VideoId) (fields : Obj) (k : String)
    (hk : k ≠ "id") :
    recordField (upsertVideo s videoId fields) videoId k
      = (JsMap.get fields.reverse k).orElse (fun _ => recordField s videoId k) := by
  unfold recordField
  cases hr : s.videos.get videoId <;>
    simp [upsertVideo, JsMap.get_set_self, JsMap.get_set_of_ne _ _ hk, get_spread, hr, JsMap.get]

theorem get_reverse_none (fields : Obj) (k : String) (h : JsMap.get fields k = none) :
    JsMap.get fields.reverse k = none := by
  induction fields with
  | nil => rfl
  | cons e rest ih =>
    by_cases he : e.1 = k
    · simp [JsMap.get, he] at h
    · have hr : JsMap.get rest k = none := by simpa [JsMap.get, he] using h
      rw [List.reverse_cons, JsMap.get_append, ih hr]
      simp [JsMap.get, he]

theorem recordField_upsert_id (s : Client) (videoId : VideoId) (fields : Obj) :
    recordField (upsertVideo s videoId fields) videoId "id" = some (.str videoId) := by
  simp [recordField, upsertVideo, JsMap.get_set_self]

theorem upsertVideo_keyed (s : Client) (videoId : VideoId) (fields : Obj)
    (h : KeyedById s.videos) : KeyedById (upsertVideo s videoId fields).videos := by
  intro k r hr
  by_cases hk : k = videoId
  · subst hk
    have := recordField_upsert_id s k fields
    simpa [recordField, hr] using this
  · rw [upsertVideo_get_of_ne s fields hk] at hr
    exact h k r hr

/-- C15: the call `upsertVideo(id, F)` gives the record of `id` every field of `F` with the
value `F` has for it (the `id` field is always the key), leaves every field that `F` does not
mention as it was, and leaves the records under all other keys unchanged; so an update of
the status alone preserves every other field, and a store in which every record carries its
key as `id` stays that way. -/
theorem upsert_merges_fields (s : Client) (videoId : VideoId) (fields : Obj) :
    (∀ (k : String) (v : JsVal), k ≠ "id" → JsMap.get fields.reverse k = some v →
      recordField (upsertVideo s videoId fields) videoId k = some v) ∧
    (∀ k : String, k ≠ "id" → JsMap.get fields k = none →
      recordField (upsertVideo s videoId fields) videoId k = recordField s videoId k) ∧
    recordField (upsertVideo s videoId fields) videoId "id" = some (.str videoId) ∧
    (∀ other : VideoId, other ≠ videoId →
      (upsertVideo s videoId fields).videos.get other = s.videos.get other) ∧
    (∀ (status : JsVal) (k : String), k ≠ "id" → k ≠ "status" →
      recordField (upsertVideo s videoId [("status", status)]) videoId k
        = recordField s videoId k) ∧
    (KeyedById s.videos → KeyedById (upsertVideo s videoId fields).videos) := by
  refine ⟨fun k v hk hv => ?_, fun k hk hn => ?_, recordField_upsert_id s videoId fields,
    fun other ho => upsertVideo_get_of_ne s fields ho, fun status k hk hs => ?_,
    upsertVideo_keyed s videoId fields⟩
  · rw [recordField_upsert_of_field s videoId fields k hk, hv]; rfl
  · rw [recordField_upsert_of_field s videoId fields k hk, get_reverse_none fields k hn]; rfl
  · rw [recordField_upsert_of_field s videoId _ k hk]
    have : JsMap.get [("status", status)].reverse k = none := by
      simp [JsMap.get, Ne.symm hs]
    rw [this]; rfl

theorem upsert_merges_fields_witness :
    "title" ≠ "id" ∧ JsMap.get [("status", JsVal.str "done")] "title" = none ∧
      recordField (upsertVideo tracking "A" [("status", .str "done")]) "A" "title"
        = recordField tracking "A" "title" ∧
      recordField tracking "A" "title" = some (.str "a") ∧
      recordField (upsertVideo tracking "A" [("status", .str "done")]) "A" "status"
        = some (.str "done") :=
  ⟨by decide, by decide,
    (upsert_merges_fields tracking "A" [("status", .str "done")]).2.1 "title" (by decide)
      (by decide),
    by decide,
    (upsert_merges_fields tracking "A" [("status", .str "done")]).1 "status" (.str "done")
      (by decide) (by decide)⟩

theorem checkConnection_ui (s : Client) (ping : Option Bool) :
    (checkConnection s ping).ui = s.ui ++
      (if !s.connected && ping = some true then [UiMsg.connectionRestored]
        else if s.connected && ping ≠ some true then [UiMsg.connectionLost] else []) := by
  unfold checkConnection
  rcases ping with _ | ok
  · cases hc : s.connected <;> simp [hc, broadcastToUI]
  · cases ok <;> cases hc : s.connected <;> cases hl : s.lastPoll <;>
      simp [hc, hl, broadcastToUI]

theorem checkConnection_feedPolls (s : Client) (ping : Option Bool) :
    (checkConnection s ping).feedPolls
      = s.feedPolls + (if !s.connected && ping = some true && !s.lastPoll then 1 else 0) := by
  unfold checkConnection
  rcases ping with _ | ok
  · cases hc : s.connected <;> simp [hc, broadcastToUI]
  · cases ok <;> cases hc : s.connected <;> cases hl : s.lastPoll <;>
      simp [hc, hl, broadcastToUI]

theorem checkConnection_lastPoll (s : Client) (ping : Option Bool) :
    (checkConnection s ping).lastPoll = s.lastPoll := by
  unfold checkConnection
  rcases ping with _ | ok
  · cases hc : s.connected <;> simp [hc, broadcastToUI]
  · cases ok <;> cases hc : s.connected <;> cases hl : s.lastPoll <;>
      simp [hc, hl, broadcastToUI]

theorem checkConnection_connected (s : Client) (ping : Option Bool) :
    (checkConnection s ping).connected = decide (ping = some true) := by
  unfold checkConnection
  rcases ping with _ | ok
  · cases hc : s.connected <;> simp [hc, broadcastToUI]
  · cases ok <;> cases hc : s.connected <;> cases hl : s.lastPoll <;>
      simp [hc, hl, broadcastToUI]

theorem checkConnection_checkPeriod (s : Client) (ping : Option Bool) :
    (checkConnection s ping).checkPeriod
      = if (checkConnection s ping).connected then (⟨1, 0⟩ : Decimal) else ⟨5, 1⟩ := by
  unfold checkConnection
  rfl

theorem foldl_checkConnection_of_lastPoll (pings : List (Option Bool)) (s : Client)
    (h : s.lastPoll = true) :
    (pings.foldl checkConnection s).feedPolls = s.feedPolls := by
  induction pings generalizing s with
  | nil => rfl
  | cons p rest ih =>
    rw [List.foldl_cons, ih _ (by rw [checkConnection_lastPoll, h]), checkConnection_feedPolls, h]
    simp

theorem pollFeeds_lastPoll (lc : String → String → Int) (s : Client) (n : Nat) (hasChannels : Bool)
    (feed : List (VideoInfo × Bool)) : (pollFeeds lc s n hasChannels feed).lastPoll = true := by
  unfold pollFeeds
  simp only
  split_ifs <;> rfl

/-- C18: a client without a stored `lastPoll` entry that connects, loses the worker and
connects again before the first pull has stored its result calls `pollFeeds` a second
time, although the pull is meant for the first connection only.  What holds: one run of
`checkConnection` broadcasts `connection-restored` exactly when the flag was false and the
ping answers ok, and calls `pollFeeds` exactly when, in addition, no `lastPoll` entry is
stored; a run of `pollFeeds` to its end stores the entry, and from then on no sequence of
connection checks calls `pollFeeds`. -/
theorem reconnect_before_first_pull_ends_pulls_again (lc : String → String → Int) :
    (run codePointCompare (Client.init 2 [] false)
        [.checkConnection (some true), .checkConnection none,
          .checkConnection (some true)]).feedPolls = 2 ∧
    (run codePointCompare (Client.init 2 [] false)
        [.checkConnection (some true), .checkConnection none,
          .checkConnection (some true)]).ui
      = [UiMsg.connectionRestored, UiMsg.connectionLost, UiMsg.connectionRestored] ∧
    (run codePointCompare (Client.init 2 [] false)
        [.checkConnection (some true), .checkConnection none,
          .checkConnection (some true)]).lastPoll = false ∧
    (∀ (s : Client) (ping : Option Bool),
      (checkConnection s ping).ui = s.ui ++
          (if !s.connected && ping = some true then [UiMsg.connectionRestored]
            else if s.connected && ping ≠ some true then [UiMsg.connectionLost] else []) ∧
        (checkConnection s ping).feedPolls
          = s.feedPolls + (if !s.connected && ping = some true && !s.lastPoll then 1 else 0) ∧
        (checkConnection s ping).lastPoll = s.lastPoll) ∧
    (∀ (s : Client) (n : Nat) (hasChannels : Bool) (feed : List (VideoInfo × Bool))
        (pings : List (Option Bool)),
      (pollFeeds lc s n hasChannels feed).lastPoll = true ∧
        (pings.foldl checkConnection (pollFeeds lc s n hasChannels feed)).feedPolls
          = (pollFeeds lc s n hasChannels feed).feedPolls) :=
  ⟨by decide, by decide, by decide,
    fun s ping =>
      ⟨checkConnection_ui s ping, checkConnection_feedPolls s ping,
        checkConnection_lastPoll s ping⟩,
    fun s n hasChannels feed pings =>
      ⟨pollFeeds_lastPoll lc s n hasChannels feed,
        foldl_checkConnection_of_lastPoll pings _ (pollFeeds_lastPoll lc s n hasChannels feed)⟩⟩

/-- C19: after every run of `checkConnection` the period of the `check-connection` alarm is
1 minute when the connected flag is now true and 0.5 minute when it is false, the flag being
true exactly when the ping answered ok; 0.5 is less than 1, and the run that takes the flag
from false to true sets the period to 1. -/
theorem probe_cadence_follows_connection (s : Client) (ping : Option Bool) :
    (checkConnection s ping).checkPeriod
        = (if (checkConnection s ping).connected then (⟨1, 0⟩ : Decimal) else ⟨5, 1⟩) ∧
      (checkConnection s ping).connected = decide (ping = some true) ∧
      Decimal.lt ⟨5, 1⟩ ⟨1, 0⟩ ∧
      (checkConnection { s with connected := false } (some true)).checkPeriod = ⟨1, 0⟩ := by
  refine ⟨checkConnection_checkPeriod s ping, checkConnection_connected s ping, ?_, ?_⟩
  · unfold Decimal.lt; decide
  · rw [checkConnection_checkPeriod, checkConnection_connected]; rfl

theorem cancelDownload_record (s : Client) (videoId : VideoId) :
    recordStatus (cancelDownload s videoId) videoId = some (.str "error") ∧
      recordField (cancelDownload s videoId) videoId "error_message"
        = some (.str "Cancelled") := by
  unfold cancelDownload recordStatus recordField
  exact ⟨upsertVideo_field _ _ _ _ _ (by decide) (by decide),
    upsertVideo_field _ _ _ _ _ (by decide) (by decide)⟩

/-- C20 (amended): handling a `cancel-download` request for an id sets the record of that
id to status `error`; the cancellation is told apart from a failure only by the error
message `Cancelled`. -/
theorem cancel_is_recorded_as_error (s : Client) (videoId : VideoId) :
    recordStatus (cancelDownload s videoId) videoId = some (.str "error") ∧
      recordField (cancelDownload s videoId) videoId "error_message"
        = some (.str "Cancelled") :=
  cancelDownload_record s videoId

/-- C20 (counterexample): cancelling the running download `A` leaves its record with
status `error`. -/
theorem cancel_sets_status_error :
    recordStatus tracking "A" = some (.str "downloading") ∧
      recordStatus (cancelDownload tracking "A") "A" = some (.str "error") := by
  decide

end Client

/-! ## Queue order, shape of job states, progress samples, byte ranges, settings -/

namespace JsMap

variable {β : Type}

theorem mem_keys_set (m : JsMap β) (k : String) (v : β) (x : String) :
    x ∈ (set m k v).map Prod.fst ↔ x = k ∨ x ∈ m.map Prod.fst := by
  induction m with
  | nil => simp [set]
  | cons e m ih =>
    obtain ⟨k', v'⟩ := e
    by_cases h : k' = k
    · subst h; simp [set]
    · simp only [set, h, if_false, List.map_cons, List.mem_cons, ih]
      tauto

theorem distinct_set (m : JsMap β) (k : String) (v : β) (h : Distinct m) :
    Distinct (set m k v) := by
  unfold Distinct at *
  induction m with
  | nil => simp [set]
  | cons e m ih =>
    obtain ⟨k', v'⟩ := e
    rw [List.map_cons, List.nodup_cons] at h
    by_cases hk : k' = k
    · subst hk
      simpa [set] using h
    · simp only [set, hk, if_false, List.map_cons, List.nodup_cons]
      refine ⟨fun hm => ?_, ih h.2⟩
      rcases (mem_keys_set m k v k').1 hm with h1 | h1
      · exact hk h1
      · exact h.1 h1

theorem distinct_delete (m : JsMap β) (k : String) (h : Distinct m) : Distinct (delete m k) := by
  unfold Distinct at *
  unfold delete
  exact (List.Sublist.map _ (List.filter_sublist m)).nodup h

theorem delete_of_not_mem (m : JsMap β) (k : String) (h : k ∉ m.map Prod.fst) :
    delete m k = m := by
  unfold delete
  rw [List.filter_eq_self]
  intro e he
  have : e.1 ≠ k := fun hk => h (hk ▸ List.mem_map_of_mem Prod.fst he)
  simp [this]

theorem size_delete_of_has (m : JsMap β) (k : String) (hd : Distinct m) (h : has m k = true) :
    size (delete m k) + 1 = size m := by
  induction m with
  | nil => simp [has, get] at h
  | cons e m ih =>
    obtain ⟨k', v'⟩ := e
    unfold Distinct at hd
    rw [List.map_cons, List.nodup_cons] at hd
    by_cases hk : k' = k
    · subst hk
      have := delete_of_not_mem m k' hd.1
      simp only [delete] at this
      simp [delete, size, List.filter_cons, this]
    · have h' : has m k = true := by simpa [has, get, hk] using h
      have := ih hd.2 h'
      simp only [delete, size] at this
      simp only [delete, size, List.filter_cons, hk, List.length_cons]
      simp
      omega

theorem size_set_of_not_has (m : JsMap β) (k : String) (v : β) (h : has m k = false) :
    size (set m k v) = size m + 1 := by
  induction m with
  | nil => simp [set, size]
  | cons e m ih =>
    obtain ⟨k', v'⟩ := e
    by_cases hk : k' = k
    · simp [has, get, hk] at h
    · have h' : has m k = false := by simpa [has, get, hk] using h
      simp only [set, hk, if_false, size, List.length_cons] at ih ⊢
      rw [ih h']

end JsMap

namespace Host

theorem launchDownload_distinct (s : Host) (videoId : VideoId) (cookies : Option String)
    (h : s.activeProcs.Distinct) : (launchDownload s videoId cookies).activeProcs.Distinct :=
  JsMap.distinct_set _ _ _ h

theorem drainLoop_distinct (q : List QueueEntry) (s : Host) (h : s.activeProcs.Distinct) :
    (drainLoop q s).activeProcs.Distinct := by
  induction q generalizing s with
  | nil => simpa [drainLoop] using h
  | cons next rest ih =>
    unfold drainLoop
    split_ifs
    · exact ih _ (by simpa using h)
    · exact ih _ (launchDownload_distinct _ _ _ (by simpa using h))
    · simpa using h

theorem step_distinct (s : Host) (e : Event) (h : s.activeProcs.Distinct) :
    (step s e).activeProcs.Distinct := by
  cases e with
  | submit videoId cookies =>
    simp only [step, startDownload]
    split_ifs
    · exact h
    · exact h
    · exact launchDownload_distinct _ _ _ h
  | cancel videoId => exact JsMap.distinct_delete _ _ h
  | ack videoId => simpa only [step, ack_activeProcs] using h
  | stdoutData pid chunk =>
    simp only [step]
    split <;> exact h
  | stderrData pid chunk now =>
    simp only [step]
    split
    · simpa [stderrHandler_activeProcs] using h
    · exact h
  | close pid code finalize =>
    simp only [step]
    split
    · rw [closeHandler_activeProcs]
      exact drainLoop_distinct _ _ (JsMap.distinct_delete _ _ h)
    · exact h
  | error pid message =>
    simp only [step]
    split
    · rw [errorHandler_activeProcs]
      exact drainLoop_distinct _ _ (JsMap.distinct_delete _ _ h)
    · exact h

theorem run_distinct (es : List Event) (s : Host) (h : s.activeProcs.Distinct) :
    (run s es).activeProcs.Distinct := by
  induction es generalizing s with
  | nil => exact h
  | cons e es ih => exact ih _ (step_distinct s e h)

theorem closeHandler_frame (s : Host) (c : Proc) (code : Option Int)
    (finalize : String → Except String Finalized) :
    (closeHandler s c code finalize).downloadQueue
        = (drainQueue { s with activeProcs := s.activeProcs.delete c.videoId }).downloadQueue ∧
      (closeHandler s c code finalize).procs
        = (drainQueue { s with activeProcs := s.activeProcs.delete c.videoId }).procs ∧
      (closeHandler s c code finalize).nextPid
        = (drainQueue { s with activeProcs := s.activeProcs.delete c.videoId }).nextPid := by
  unfold closeHandler
  simp only
  split_ifs <;> repeat' split
  all_goals exact ⟨rfl, rfl, rfl⟩

theorem drainLoop_of_full (q : List QueueEntry) (s : Host)
    (h : s.activeProcs.size = MAX_CONCURRENT) (hq : s.downloadQueue = q) : drainLoop q s = s := by
  cases q with
  | nil => simp [drainLoop, ← hq]
  | cons next rest => simp [drainLoop, h, ← hq]

theorem drainQueue_launches_head (s : Host) (head : QueueEntry) (rest : List QueueEntry)
    (hsize : s.activeProcs.size + 1 = MAX_CONCURRENT) (hq : s.downloadQueue = head :: rest)
    (hhead : s.activeProcs.has head.videoId = false) :
    drainQueue s = launchDownload { s with downloadQueue := rest } head.videoId head.cookies := by
  have hlt : s.activeProcs.size < MAX_CONCURRENT := by omega
  unfold drainQueue
  rw [hq, drainLoop, if_pos hlt]
  simp only [hhead, Bool.false_eq_true, if_false]
  apply drainLoop_of_full
  · simp only [launchDownload]
    rw [JsMap.size_set_of_not_has _ _ _ hhead]
    exact hsize
  · rfl

theorem drainLoop_fifo (q : List QueueEntry) (s : Host) :
    (drainLoop q s).downloadQueue
        = q.drop (q.length - (drainLoop q s).downloadQueue.length) ∧
      (drainLoop q s).downloadQueue.length ≤ q.length ∧
      (drainLoop q s).procs.take s.procs.length = s.procs ∧
      (((drainLoop q s).procs.drop s.procs.length).map (fun p => p.2.videoId)).Sublist
        ((q.take (q.length - (drainLoop q s).downloadQueue.length)).map QueueEntry.videoId) := by
  induction q generalizing s with
  | nil => simp [drainLoop]
  | cons next rest ih =>
    unfold drainLoop
    split_ifs with h1 h2
    · obtain ⟨a, b, c, d⟩ := ih { s with downloadQueue := rest }
      have e : (next :: rest).length - (drainLoop rest { s with downloadQueue := rest }).downloadQueue.length
          = (rest.length - (drainLoop rest { s with downloadQueue := rest }).downloadQueue.length) + 1 := by
        simp only [List.length_cons]; omega
      rw [e]
      refine ⟨by simpa using a, by simp only [List.length_cons]; omega, c, ?_⟩
      simpa using d.trans (List.sublist_cons_self _ _)
    · obtain ⟨a, b, c, d⟩ :=
        ih (launchDownload { s with downloadQueue := rest } next.videoId next.cookies)
      have e : (next :: rest).length - (drainLoop rest
            (launchDownload { s with downloadQueue := rest } next.videoId next.cookies)).downloadQueue.length
          = (rest.length - (drainLoop rest
            (launchDownload { s with downloadQueue := rest } next.videoId next.cookies)).downloadQueue.length)
              + 1 := by
        simp only [List.length_cons]; omega
      rw [e]
      have hp : (launchDownload { s with downloadQueue := rest } next.videoId next.cookies).procs
          = s.procs ++ [(s.nextPid, ⟨next.videoId, next.cookies, "", "", 0⟩)] := rfl
      rw [hp] at c d
      simp only [List.length_append, List.length_singleton] at c d
      have c1 : (drainLoop rest (launchDownload { s with downloadQueue := rest } next.videoId
          next.cookies)).procs.take s.procs.length = s.procs := by
        have := congrArg (List.take s.procs.length) c
        rw [List.take_take, min_eq_left (Nat.le_succ _), List.take_left] at this
        exact this
      have c2 : (drainLoop rest (launchDownload { s with downloadQueue := rest } next.videoId
          next.cookies)).procs.drop s.procs.length
          = (s.nextPid, ⟨next.videoId, next.cookies, "", "", 0⟩) ::
            (drainLoop rest (launchDownload { s with downloadQueue := rest } next.videoId
              next.cookies)).procs.drop (s.procs.length + 1) := by
        have h3 := List.take_append_drop (s.procs.length + 1) (drainLoop rest
          (launchDownload { s with downloadQueue := rest } next.videoId next.cookies)).procs
        rw [c] at h3
        rw [← h3]
        simp [List.drop_append_eq_append_drop, List.drop_drop]
      refine ⟨by simpa using a, by simp only [List.length_cons]; omega, c1, ?_⟩
      rw [c2]
      simpa using d
    · simp

/-- C26 (amended): when a process that holds a slot exits in a reachable state with the
active set at the ceiling, and the head of the overflow queue is not the id of another
running job, the close handler launches exactly the head and leaves the rest of the queue;
in general `drainQueue` takes entries from the head of the queue only, launches the
entries it takes in queue order, skipping those whose id is active, and a submission adds
its entry at the end. -/
theorem close_launches_head_of_queue :
    (∀ (es : List Event) (c : Proc) (code : Option Int)
        (finalize : String → Except String Finalized) (head : QueueEntry)
        (rest : List QueueEntry),
      (run Host.init es).activeProcs.size = MAX_CONCURRENT →
      (run Host.init es).activeProcs.has c.videoId = true →
      (run Host.init es).downloadQueue = head :: rest →
      ((run Host.init es).activeProcs.delete c.videoId).has head.videoId = false →
      (closeHandler (run Host.init es) c code finalize).downloadQueue = rest ∧
        (closeHandler (run Host.init es) c code finalize).procs
          = (run Host.init es).procs ++
            [((run Host.init es).nextPid, ⟨head.videoId, head.cookies, "", "", 0⟩)]) ∧
    (∀ s : Host,
      (drainQueue s).downloadQueue = s.downloadQueue.drop
          (s.downloadQueue.length - (drainQueue s).downloadQueue.length) ∧
        (drainQueue s).procs.take s.procs.length = s.procs ∧
        (((drainQueue s).procs.drop s.procs.length).map (fun p => p.2.videoId)).Sublist
          ((s.downloadQueue.take
            (s.downloadQueue.length - (drainQueue s).downloadQueue.length)).map
              QueueEntry.videoId)) ∧
    (∀ (s : Host) (videoId : VideoId) (cookies : Option String),
      (startDownload s videoId cookies).downloadQueue = s.downloadQueue ∨
        (startDownload s videoId cookies).downloadQueue
          = s.downloadQueue ++ [⟨videoId, cookies⟩]) := by
  refine ⟨fun es c code finalize head rest hfull hown hq hhead => ?_, fun s => ?_,
    fun s videoId cookies => ?_⟩
  · have hd : (run Host.init es).activeProcs.Distinct :=
      run_distinct es Host.init (by simp [JsMap.Distinct, Host.init])
    have hsize := JsMap.size_delete_of_has _ _ hd hown
    rw [hfull] at hsize
    obtain ⟨fq, fp, -⟩ := closeHandler_frame (run Host.init es) c code finalize
    rw [fq, fp, drainQueue_launches_head
      { run Host.init es with activeProcs := (run Host.init es).activeProcs.delete c.videoId }
      head rest hsize hq hhead]
    exact ⟨rfl, rfl⟩
  · obtain ⟨a, -, c, d⟩ := drainLoop_fifo s.downloadQueue s
    exact ⟨a, c, d⟩
  · unfold startDownload
    split_ifs
    · left; rfl
    · right; rfl
    · left; rfl

theorem close_launches_head_of_queue_witness :
    queuedTwice.activeProcs.size = MAX_CONCURRENT ∧
      queuedTwice.activeProcs.has "x" = true ∧
      queuedTwice.downloadQueue = [⟨"a", none⟩, ⟨"a", none⟩] ∧
      (queuedTwice.activeProcs.delete "x").has "a" = false ∧
      (closeHandler queuedTwice ⟨"x", none, "", "", 0⟩ (some 0) finalizeOk).downloadQueue
        = [⟨"a", none⟩] ∧
      (closeHandler queuedTwice ⟨"x", none, "", "", 0⟩ (some 0) finalizeOk).procs
        = queuedTwice.procs ++ [(queuedTwice.nextPid, ⟨"a", none, "", "", 0⟩)] :=
  ⟨by decide, by decide, by decide, by decide,
    close_launches_head_of_queue.1
      [.submit "x" none, .submit "y" none, .submit "a" none, .submit "a" none]
      ⟨"x", none, "", "", 0⟩ (some 0) finalizeOk ⟨"a", none⟩ [⟨"a", none⟩]
      (by decide) (by decide) (by decide) (by decide)⟩

/-- C26 (counterexample): with `y` and `a` running and a second entry for `a` at the head
of the queue, the exit of `y` launches nothing and empties the queue; and with `y` and `w`
running and `z` waiting, the exit of the cancelled process of `x` launches nothing, `w`,
submitted after `z`, having started before it. -/
theorem exit_at_ceiling_launches_nothing :
    (step queuedTwice (.close 0 (some 0) finalizeOk)).activeProcs = [("y", 1), ("a", 2)] ∧
      (step queuedTwice (.close 0 (some 0) finalizeOk)).downloadQueue = [⟨"a", none⟩] ∧
      (run queuedTwice [.close 0 (some 0) finalizeOk, .close 1 (some 0) finalizeOk]).activeProcs
        = [("a", 2)] ∧
      (run queuedTwice [.close 0 (some 0) finalizeOk, .close 1 (some 0) finalizeOk]).downloadQueue
        = [] ∧
      overtaken.activeProcs = [("y", 1), ("w", 2)] ∧
      overtaken.downloadQueue = [⟨"z", none⟩] ∧
      (step overtaken (.close 0 none finalizeOk)).activeProcs = [("y", 1), ("w", 2)] ∧
      (step overtaken (.close 0 none finalizeOk)).downloadQueue = [⟨"z", none⟩] := by
  decide

theorem append_ne_empty (a b : String) (h : a ≠ "") : a ++ b ≠ "" := by
  intro hab
  apply h
  have hd := congrArg String.data hab
  rw [String.data_append] at hd
  have hnil : ("" : String).data = [] := rfl
  rw [hnil, List.append_eq_nil] at hd
  exact String.ext (hd.1.trans hnil.symm)

theorem errorLine_ne_empty (stderrBuf : String) (code : Option Int) :
    errorLine stderrBuf code ≠ "" := by
  unfold errorLine
  simp only
  split
  · rename_i l hl
    have hm := List.mem_of_getLast?_eq_some hl
    rw [List.mem_filter] at hm
    intro h
    have hd : l = [] := by
      have := congrArg String.data h
      simpa using this
    rw [hd] at hm
    simp [startsWithChars] at hm
  · exact append_ne_empty _ _ (by decide)

theorem drainLoop_entry (q : List QueueEntry) (s : Host) (i : VideoId) :
    (drainLoop q s).downloadState.get i = s.downloadState.get i ∨
      (drainLoop q s).downloadState.get i = some downloadingJob := by
  induction q generalizing s with
  | nil => left; rfl
  | cons next rest ih =>
    unfold drainLoop
    split_ifs
    · exact ih _
    · rcases ih (launchDownload { s with downloadQueue := rest } next.videoId next.cookies)
        with h | h
      · by_cases hi : i = next.videoId
        · right
          rw [h, hi]
          simp [launchDownload, JsMap.get_set_self]
        · left
          rw [h]
          simp [launchDownload, JsMap.get_set_of_ne _ _ hi]
      · right; exact h
    · left; rfl

theorem entry_of_drained (q : List QueueEntry) (s : Host) (i : VideoId)
    (st : JobState) (h : (drainLoop q s).downloadState.get i = some st) :
    s.downloadState.get i = some st ∨ st = downloadingJob := by
  rcases drainLoop_entry q s i with h' | h'
  · left; rw [← h', h]
  · right
    rw [h'] at h
    exact (Option.some.inj h).symm

theorem rewrites_of_set (e : Event) (m : JsMap JobState) (old : Option JobState)
    (k i : VideoId) (v st : JobState) (h : JsMap.get (JsMap.set m k v) i = some st)
    (hv : Rewrites e old v) (hm : JsMap.get m i = some st → Rewrites e old st) :
    Rewrites e old st := by
  by_cases hi : i = k
  · subst hi
    rw [JsMap.get_set_self] at h
    exact Option.some.inj h ▸ hv
  · rw [JsMap.get_set_of_ne _ _ hi] at h
    exact hm h

theorem rewrites_of_delete (e : Event) (m : JsMap JobState) (k i : VideoId) (st : JobState)
    (h : JsMap.get (JsMap.delete m k) i = some st) : Rewrites e (JsMap.get m i) st := by
  by_cases hi : i = k
  · subst hi
    rw [JsMap.get_delete_self] at h
    cases h
  · rw [JsMap.get_delete_of_ne _ hi] at h
    exact .keep st h

theorem startDownload_rewrites (s : Host) (videoId : VideoId) (cookies : Option String)
    (i : VideoId) (st : JobState)
    (h : (startDownload s videoId cookies).downloadState.get i = some st) :
    Rewrites (.submit videoId cookies) (s.downloadState.get i) st := by
  unfold startDownload at h
  split_ifs at h
  · exact .keep st h
  · exact rewrites_of_set _ _ _ _ _ _ _ h .queued (fun h' => .keep st h')
  · exact rewrites_of_set _ _ _ _ _ _ _ h .launched (fun h' => .keep st h')

theorem stderrHandler_rewrites (s : Host) (c : Proc) (pid : Nat) (chunk : String) (now : Nat)
    (i : VideoId) (st : JobState)
    (h : (stderrHandler s c chunk now).1.downloadState.get i = some st) :
    Rewrites (.stderrData pid chunk now) (s.downloadState.get i) st := by
  unfold stderrHandler at h
  simp only at h
  split_ifs at h
  · exact .keep st h
  · exact .keep st h
  · split at h
    · rename_i percent speed eta hm
      split at h
      · rename_i st0 hg
        by_cases hi : i = c.videoId
        · subst hi
          simp only [JsMap.get_set_self] at h
          have hp : Rewrites (.stderrData pid chunk now) (s.downloadState.get c.videoId) _ :=
            Rewrites.progress st0 pid chunk now (percent, speed, eta) rfl hg hm
          exact Option.some.inj h ▸ hp
        · simp only [JsMap.get_set_of_ne _ _ hi] at h
          exact .keep st h
      · exact .keep st h
    · exact .keep st h

theorem closeHandler_rewrites (e : Event) (s : Host) (c : Proc) (code : Option Int)
    (finalize : String → Except String Finalized) (i : VideoId) (st : JobState)
    (h : (closeHandler s c code finalize).downloadState.get i = some st) :
    Rewrites e (s.downloadState.get i) st := by
  have hdrain : ∀ st₁, (drainQueue { s with activeProcs := s.activeProcs.delete c.videoId
      }).downloadState.get i = some st₁ → s.downloadState.get i = some st₁ ∨ st₁ = downloadingJob :=
    fun st₁ h₁ => entry_of_drained _
      { s with activeProcs := s.activeProcs.delete c.videoId } i st₁ h₁
  have hkeep : ∀ st₁, (drainQueue { s with activeProcs := s.activeProcs.delete c.videoId
      }).downloadState.get i = some st₁ → Rewrites e (s.downloadState.get i) st₁ := by
    intro st₁ h₁
    rcases hdrain st₁ h₁ with h₂ | h₂
    · exact .keep st₁ h₂
    · rw [h₂]; exact .launched
  unfold closeHandler at h
  simp only at h
  split_ifs at h with hcode
  · split at h
    · rename_i st0 hg
      by_cases hi : i = c.videoId
      · subst hi
        simp only [JsMap.get_set_self] at h
        exact Option.some.inj h ▸ Rewrites.failed st0 _ (hdrain st0 hg) (errorLine_ne_empty _ _)
      · simp only [JsMap.get_set_of_ne _ _ hi] at h
        exact hkeep st h
    · exact rewrites_of_set _ _ _ _ _ _ _ h (.failedFresh _ (errorLine_ne_empty _ _))
        (hkeep st)
  · split at h
    · rename_i m hf
      split at h
      · rename_i st0 hg
        by_cases hi : i = c.videoId
        · subst hi
          simp only [JsMap.get_set_self] at h
          exact Option.some.inj h ▸ Rewrites.finished st0 m (hdrain st0 hg)
        · simp only [JsMap.get_set_of_ne _ _ hi] at h
          exact hkeep st h
      · exact hkeep st h
    · rename_i message hf
      split at h
      · rename_i st0 hg
        by_cases hi : i = c.videoId
        · subst hi
          simp only [JsMap.get_set_self] at h
          exact Option.some.inj h ▸ Rewrites.failed st0 _ (hdrain st0 hg)
            (append_ne_empty _ _ (by decide))
        · simp only [JsMap.get_set_of_ne _ _ hi] at h
          exact hkeep st h
      · exact hkeep st h

theorem errorHandler_rewrites (e : Event) (s : Host) (c : Proc) (message : String)
    (i : VideoId) (st : JobState)
    (h : (errorHandler s c message).downloadState.get i = some st) :
    Rewrites e (s.downloadState.get i) st := by
  have hdrain : ∀ st₁, (drainQueue { s with activeProcs := s.activeProcs.delete c.videoId
      }).downloadState.get i = some st₁ → s.downloadState.get i = some st₁ ∨ st₁ = downloadingJob :=
    fun st₁ h₁ => entry_of_drained _
      { s with activeProcs := s.activeProcs.delete c.videoId } i st₁ h₁
  have hkeep : ∀ st₁, (drainQueue { s with activeProcs := s.activeProcs.delete c.videoId
      }).downloadState.get i = some st₁ → Rewrites e (s.downloadState.get i) st₁ := by
    intro st₁ h₁
    rcases hdrain st₁ h₁ with h₂ | h₂
    · exact .keep st₁ h₂
    · rw [h₂]; exact .launched
  unfold errorHandler at h
  simp only at h
  split at h
  · rename_i st0 hg
    by_cases hi : i = c.videoId
    · subst hi
      simp only [JsMap.get_set_self] at h
      exact Option.some.inj h ▸ Rewrites.failed st0 _ (hdrain st0 hg)
        (append_ne_empty _ _ (by decide))
    · simp only [JsMap.get_set_of_ne _ _ hi] at h
      exact hkeep st h
  · exact hkeep st h

theorem step_rewrites (s : Host) (e : Event) (i : VideoId) (st : JobState)
    (h : (step s e).downloadState.get i = some st) : Rewrites e (s.downloadState.get i) st := by
  cases e with
  | submit videoId cookies => exact startDownload_rewrites s videoId cookies i st h
  | cancel videoId => exact rewrites_of_delete _ _ _ _ _ h
  | ack videoId =>
    simp only [step, ack] at h
    split at h
    · split_ifs at h
      · exact rewrites_of_delete _ _ _ _ _ h
      · exact .keep st h
    · exact .keep st h
  | stdoutData pid chunk =>
    simp only [step] at h
    split at h <;> exact .keep st h
  | stderrData pid chunk now =>
    simp only [step] at h
    split at h
    · exact stderrHandler_rewrites s _ pid chunk now i st h
    · exact .keep st h
  | close pid code finalize =>
    simp only [step] at h
    split at h
    · exact closeHandler_rewrites _
        { s with procs := s.procs.filter (fun e => decide (e.1 ≠ pid)) } _ code finalize i st h
    · exact .keep st h
  | error pid message =>
    simp only [step] at h
    split at h
    · exact errorHandler_rewrites _ s _ message i st h
    · exact .keep st h

theorem consistent_of_rewrites (e : Event) (old : Option JobState) (st : JobState)
    (h : Rewrites e old st) (hold : ∀ st₀, old = some st₀ → Consistent st₀) : Consistent st := by
  have hfresh : Consistent downloadingJob := by
    simp [Consistent, pending, derivedFields, hasErrorText, downloadingJob]
  cases h with
  | keep _ h => exact hold _ h
  | queued => simp [Consistent, pending, derivedFields, hasErrorText, queuedJob]
  | launched => exact hfresh
  | progress st₀ pid chunk now sample _ h₀ _ =>
    have := hold st₀ h₀
    simpa [Consistent, pending, derivedFields, hasErrorText] using this
  | failed st₀ message h₀ hm =>
    simp [Consistent, pending, hasErrorText, hm]
  | failedFresh message hm =>
    simp [Consistent, pending, hasErrorText, failedJob, hm]
  | finished st₀ m h₀ =>
    simp [Consistent, pending, hasErrorText]

theorem run_consistent (es : List Event) (s : Host)
    (hs : ∀ i st, s.downloadState.get i = some st → Consistent st) (i : VideoId)
    (st : JobState) (h : (run s es).downloadState.get i = some st) : Consistent st := by
  induction es generalizing s with
  | nil => exact hs i st h
  | cons e es ih =>
    refine ih (step s e) (fun j st₁ h₁ => ?_) h
    exact consistent_of_rewrites e _ st₁ (step_rewrites s e j st₁ h₁) (fun st₀ h₀ => hs j st₀ h₀)

theorem percent_of_rewrites (e : Event) (old : Option JobState) (st : JobState)
    (h : Rewrites e old st) (ht : tame e = true)
    (hold : ∀ st₀, old = some st₀ → Decimal.le st₀.percent ⟨100, 0⟩) :
    Decimal.le st.percent ⟨100, 0⟩ := by
  have hfresh : Decimal.le downloadingJob.percent ⟨100, 0⟩ := by decide
  cases h with
  | keep _ h => exact hold _ h
  | queued => decide
  | launched => exact hfresh
  | progress st₀ pid chunk now sample he h₀ hm =>
    subst he
    simpa [tame, hm] using ht
  | failed st₀ message h₀ hm =>
    rcases h₀ with h₀ | h₀
    · exact hold st₀ h₀
    · subst h₀; exact hfresh
  | failedFresh message hm => simp [failedJob, Decimal.le]
  | finished st₀ m h₀ => simp [Decimal.le]

theorem run_percent (es : List Event) (s : Host) (ht : es.all tame = true)
    (hs : ∀ i st, s.downloadState.get i = some st → Decimal.le st.percent ⟨100, 0⟩)
    (i : VideoId) (st : JobState) (h : (run s es).downloadState.get i = some st) :
    Decimal.le st.percent ⟨100, 0⟩ := by
  induction es generalizing s with
  | nil => exact hs i st h
  | cons e es ih =>
    rw [List.all_cons, Bool.and_eq_true] at ht
    refine ih (step s e) ht.2 (fun j st₁ h₁ => ?_) h
    exact percent_of_rewrites e _ st₁ (step_rewrites s e j st₁ h₁) ht.1
      (fun st₀ h₀ => hs j st₀ h₀)

theorem derived_of_rewrites (e : Event) (old : Option JobState) (st : JobState)
    (h : Rewrites e old st) (hn : st.status ≠ .done) :
    derivedFields st = (none, none, none, none, none) ∨
      old.map derivedFields = some (derivedFields st) := by
  cases h with
  | keep _ h => right; simp [h]
  | queued => left; rfl
  | launched => left; rfl
  | progress st₀ pid chunk now sample he h₀ hm => right; simp [h₀, derivedFields]
  | failed st₀ message h₀ hm =>
    rcases h₀ with h₀ | h₀
    · right; simp [h₀, derivedFields]
    · left; subst h₀; rfl
  | failedFresh message hm => left; rfl
  | finished st₀ m h₀ => simp at hn

/-- C25: in every reachable state a job that waits or runs has none of the derived fields
`filePath`, `thumbnailPath`, `fileSize`, `duration`, `description`; and in every step of
the worker that leaves a job in a status other than `done`, the derived fields of the job
are all null or are the ones the job had before the step. -/
theorem derived_fields_only_at_finalize :
    (∀ (es : List Event) (i : VideoId) (st : JobState),
      (run Host.init es).downloadState.get i = some st → pending st = true →
      derivedFields st = (none, none, none, none, none)) ∧
    (∀ (s : Host) (e : Event) (i : VideoId) (st : JobState),
      (step s e).downloadState.get i = some st → st.status ≠ .done →
      derivedFields st = (none, none, none, none, none) ∨
        (s.downloadState.get i).map derivedFields = some (derivedFields st)) := by
  refine ⟨fun es i st h hp => ?_, fun s e i st h hn => ?_⟩
  · exact ((run_consistent es Host.init (fun j st₁ h₁ => by simp [Host.init, JsMap.get] at h₁)
      i st h).1 hp).1
  · exact derived_of_rewrites e _ st (step_rewrites s e i st h) hn

theorem derived_fields_only_at_finalize_witness :
    reporting.downloadState.get "a"
        = some ⟨.downloading, ⟨452, 1⟩, some "5.00MiB/s", some "00:10", none, none, none, none,
          none, none⟩ ∧
      pending ⟨.downloading, ⟨452, 1⟩, some "5.00MiB/s", some "00:10", none, none, none, none,
          none, none⟩ = true ∧
      derivedFields ⟨.downloading, ⟨452, 1⟩, some "5.00MiB/s", some "00:10", none, none, none,
          none, none, none⟩ = (none, none, none, none, none) :=
  ⟨by decide, by decide,
    derived_fields_only_at_finalize.1
      [.submit "a" none,
        .stderrData 0 "[download]  45.2% of 100.00MiB at 5.00MiB/s ETA 00:10" 5000] "a" _
      (by decide) (by decide)⟩

/-- C22 (amended): when every progress line the tool writes names at most 100 percent, the
percent of every job in every reachable state is at most 100 (it is a non-negative decimal
number by its type). -/
theorem percent_at_most_100_for_tame_output (es : List Event) (ht : es.all tame = true)
    (i : VideoId) (st : JobState) (h : (run Host.init es).downloadState.get i = some st) :
    Decimal.le st.percent ⟨100, 0⟩ :=
  run_percent es Host.init ht (fun j st₁ h₁ => by simp [Host.init, JsMap.get] at h₁) i st h

theorem percent_at_most_100_for_tame_output_witness :
    [Event.submit "a" none,
        .stderrData 0 "[download]  45.2% of 100.00MiB at 5.00MiB/s ETA 00:10" 5000].all tame
        = true ∧
      reporting.downloadState.get "a"
        = some ⟨.downloading, ⟨452, 1⟩, some "5.00MiB/s", some "00:10", none, none, none, none,
          none, none⟩ ∧
      Decimal.le ⟨452, 1⟩ ⟨100, 0⟩ :=
  ⟨by decide, by decide,
    percent_at_most_100_for_tame_output
      [.submit "a" none,
        .stderrData 0 "[download]  45.2% of 100.00MiB at 5.00MiB/s ETA 00:10" 5000]
      (by decide) "a"
      ⟨.downloading, ⟨452, 1⟩, some "5.00MiB/s", some "00:10", none, none, none, none, none,
        none⟩ (by decide)⟩

/-- C22 (counterexample): a progress line that names 150.0 percent leaves the job with
percent 150.0. -/
theorem percent_above_100 :
    ((run Host.init
        [.submit "a" none,
          .stderrData 0 "[download] 150.0% of 100.00MiB at 5.00MiB/s ETA 00:10" 5000]
      ).downloadState.get "a").map JobState.percent = some ⟨1500, 1⟩ ∧
      ¬ Decimal.le ⟨1500, 1⟩ ⟨100, 0⟩ := by
  decide

theorem stderrHandler_skip (s : Host) (c : Proc) (chunk : String) (now : Nat)
    (h : ¬ (trimChars chunk.data ≠ [] ∧ (c.lastProgressTime : Int) + 1000 ≤ (now : Int))) :
    stderrHandler s c chunk now = (s, { c with stderrBuf := c.stderrBuf ++ chunk }) := by
  unfold stderrHandler
  simp only
  split_ifs with h1 h2
  · rfl
  · rfl
  · exact absurd ⟨h1, by omega⟩ h

theorem stderrHandler_pass (s : Host) (c : Proc) (chunk : String) (now : Nat)
    (h : trimChars chunk.data ≠ [] ∧ (c.lastProgressTime : Int) + 1000 ≤ (now : Int)) :
    stderrHandler s c chunk now =
      (match progressMatch (trimChars chunk.data), s.downloadState.get c.videoId with
        | some sample, some st =>
          { s with
            downloadState := s.downloadState.set c.videoId
              { st with percent := sample.1, speed := some sample.2.1, eta := some sample.2.2 } }
        | _, _ => s,
        { c with stderrBuf := c.stderrBuf ++ chunk, lastProgressTime := now }) := by
  unfold stderrHandler
  simp only
  rw [if_neg h.1, if_neg (by omega)]
  cases hm : progressMatch (trimChars chunk.data) with
  | none => rfl
  | some sample =>
    obtain ⟨percent, speed, eta⟩ := sample
    cases hg : s.downloadState.get c.videoId <;> rfl

theorem getLast?_cons_getD {α : Type} (a : α) (l : List α) :
    (a :: l).getLast? = some (l.getLast?.getD a) := by
  cases l with
  | nil => rfl
  | cons b l => rw [List.getLast?_cons_cons]; cases h : (b :: l).getLast? with
    | none => simp at h
    | some x => rfl

theorem feedChunks_sample (chunks : List (String × Nat)) (s : Host) (c : Proc) (st : JobState)
    (h : s.downloadState.get c.videoId = some st) :
    ((feedChunks s c chunks).1.downloadState.get c.videoId).map
        (fun x => (x.percent, x.speed, x.eta))
      = some
        (match latestPassingSample c.lastProgressTime chunks with
          | some sample => (sample.1, some sample.2.1, some sample.2.2)
          | none => (st.percent, st.speed, st.eta)) := by
  induction chunks generalizing s c st with
  | nil => simp [feedChunks, latestPassingSample, passing, h]
  | cons x rest ih =>
    obtain ⟨chunk, now⟩ := x
    by_cases hp : trimChars chunk.data ≠ [] ∧ (c.lastProgressTime : Int) + 1000 ≤ (now : Int)
    · have hpass := stderrHandler_pass s c chunk now hp
      cases hm : progressMatch (trimChars chunk.data) with
      | none =>
        rw [hm] at hpass
        simp only [h] at hpass
        have := ih s { c with stderrBuf := c.stderrBuf ++ chunk, lastProgressTime := now } st h
        simp only [feedChunks, hpass, latestPassingSample, passing, if_pos hp,
          List.filterMap_cons, hm]
        simpa [latestPassingSample] using this
      | some sample =>
        rw [hm] at hpass
        simp only [h] at hpass
        have := ih
          { s with
            downloadState := s.downloadState.set c.videoId
              { st with percent := sample.1, speed := some sample.2.1, eta := some sample.2.2 } }
          { c with stderrBuf := c.stderrBuf ++ chunk, lastProgressTime := now }
          { st with percent := sample.1, speed := some sample.2.1, eta := some sample.2.2 }
          (by simp [JsMap.get_set_self])
        simp only [feedChunks, hpass, latestPassingSample, passing, if_pos hp,
          List.filterMap_cons, hm, getLast?_cons_getD]
        rw [this]
        simp only [latestPassingSample]
        cases (List.filterMap (fun x => progressMatch (trimChars x.1.data))
          (passing now rest)).getLast? <;> rfl
    · have hskip := stderrHandler_skip s c chunk now hp
      have := ih s { c with stderrBuf := c.stderrBuf ++ chunk } st h
      simp only [feedChunks, hskip, latestPassingSample, passing, if_neg hp]
      simpa [latestPassingSample] using this

theorem assignsProgress_iff (s : Host) (c : Proc) (chunk : String) (now : Nat) :
    assignsProgress s c chunk now = true ↔
      (trimChars chunk.data ≠ [] ∧ (c.lastProgressTime : Int) + 1000 ≤ (now : Int)) ∧
        (progressMatch (trimChars chunk.data)).isSome = true ∧
        (s.downloadState.get c.videoId).isSome = true := by
  unfold assignsProgress
  simp only [Bool.and_eq_true, decide_eq_true_eq, Bool.not_eq_true', decide_eq_false_iff_not]
  constructor
  · rintro ⟨⟨⟨h1, h2⟩, h3⟩, h4⟩
    exact ⟨⟨h1, by omega⟩, h3, h4⟩
  · rintro ⟨⟨h1, h2⟩, h3, h4⟩
    exact ⟨⟨⟨h1, by omega⟩, h3⟩, h4⟩

theorem stderrHandler_of_not_assigns (s : Host) (c : Proc) (chunk : String) (now : Nat)
    (h : assignsProgress s c chunk now = false) : (stderrHandler s c chunk now).1 = s := by
  by_cases hp : trimChars chunk.data ≠ [] ∧ (c.lastProgressTime : Int) + 1000 ≤ (now : Int)
  · rw [stderrHandler_pass s c chunk now hp]
    cases hm : progressMatch (trimChars chunk.data) with
    | none => rfl
    | some sample =>
      cases hg : s.downloadState.get c.videoId with
      | none => rfl
      | some st =>
        have := (assignsProgress_iff s c chunk now).2 ⟨hp, by simp [hm], by simp [hg]⟩
        rw [h] at this
        cases this
  · rw [stderrHandler_skip s c chunk now hp]

theorem updateTimes_spaced (calls : List (Host × String × Nat)) (c : Proc) :
    (∀ t ∈ updateTimes c calls, c.lastProgressTime + 1000 ≤ t) ∧
      List.Pairwise (fun a b => a + 1000 ≤ b) (updateTimes c calls) := by
  induction calls generalizing c with
  | nil => simp [updateTimes]
  | cons x rest ih =>
    obtain ⟨s, chunk, now⟩ := x
    by_cases hp : trimChars chunk.data ≠ [] ∧ (c.lastProgressTime : Int) + 1000 ≤ (now : Int)
    · obtain ⟨h1, h2⟩ := ih { c with stderrBuf := c.stderrBuf ++ chunk, lastProgressTime := now }
      have hle : c.lastProgressTime + 1000 ≤ now := by omega
      simp only [updateTimes, stderrHandler_pass s c chunk now hp]
      split_ifs
      · refine ⟨fun t ht => ?_, ?_⟩
        · rcases List.mem_append.1 ht with ht | ht
          · rw [List.mem_singleton.1 ht]; exact hle
          · have := h1 t ht
            simp only at this
            omega
        · rw [List.singleton_append, List.pairwise_cons]
          exact ⟨fun t ht => h1 t ht, h2⟩
      · refine ⟨fun t ht => ?_, by simpa using h2⟩
        have := h1 t (by simpa using ht)
        simp only at this
        omega
    · obtain ⟨h1, h2⟩ := ih { c with stderrBuf := c.stderrBuf ++ chunk }
      have hn : assignsProgress s c chunk now = false := by
        cases ha : assignsProgress s c chunk now with
        | false => rfl
        | true => exact absurd ((assignsProgress_iff s c chunk now).1 ha).1 hp
      simp only [updateTimes, stderrHandler_skip s c chunk now hp, hn, Bool.false_eq_true,
        if_false, List.nil_append]
      exact ⟨h1, h2⟩

/-- C23 (amended): after a sequence of stderr chunks of a process whose job has an entry,
the percent, speed and eta of the job are those of the most recent chunk that passed the
throttle and contained a progress triple (a chunk passes when it is not blank and arrives
at least 1000 ms after the chunk that passed before it), and they are unchanged when there
is no such chunk. -/
theorem latest_passing_sample_wins (s : Host) (c : Proc) (st : JobState)
    (chunks : List (String × Nat)) (h : s.downloadState.get c.videoId = some st) :
    ((feedChunks s c chunks).1.downloadState.get c.videoId).map
        (fun x => (x.percent, x.speed, x.eta))
      = some
        (match latestPassingSample c.lastProgressTime chunks with
          | some sample => (sample.1, some sample.2.1, some sample.2.2)
          | none => (st.percent, st.speed, st.eta)) :=
  feedChunks_sample chunks s c st h

theorem latest_passing_sample_wins_witness :
    running.1.downloadState.get "a" = some downloadingJob ∧
      latestPassingSample 0 threeChunks = some (⟨300, 1⟩, "5.00MiB/s", "00:14") ∧
      ((feedChunks running.1 running.2 threeChunks).1.downloadState.get "a").map
          (fun x => (x.percent, x.speed, x.eta))
        = some (⟨300, 1⟩, some "5.00MiB/s", some "00:14") :=
  ⟨by decide, by decide,
    latest_passing_sample_wins running.1 running.2 downloadingJob threeChunks (by decide)⟩

/-- C23 (counterexample): of two progress lines that arrive 500 ms apart the second is
dropped: the job keeps the 10.0 percent of the first, although the most recent chunk
with a progress triple names 50.0 percent. -/
theorem sample_within_a_second_is_dropped :
    ((feedChunks running.1 running.2 closeChunks).1.downloadState.get "a").map
        (fun x => (x.percent, x.speed, x.eta))
      = some (⟨100, 1⟩, some "5.00MiB/s", some "00:18") ∧
    latestSample closeChunks = some (⟨500, 1⟩, "5.00MiB/s", "00:10") := by
  decide

/-- C24: after `a` was cancelled and submitted again, the killed process 0 and the new
process 1 both write to the Job Store entry of `a`, each with a throttle of its own: a
progress line of process 0 at 6000 and one of process 1 at 6100 are both applied, so the
entry is updated twice within 100 ms.  What holds: the arrival times of any two chunks of
one process for which the handler assigns the progress fields are at least 1000 ms apart,
whatever else happens on the worker in between. -/
theorem killed_process_updates_within_a_second :
    (resubmittedWhileReporting.downloadState.get "a").map JobState.percent = some ⟨0, 0⟩ ∧
    ((step resubmittedWhileReporting
        (.stderrData 0 "[download]  20.0% of 100.00MiB at 5.00MiB/s ETA 00:16" 6000)
      ).downloadState.get "a").map JobState.percent = some ⟨200, 1⟩ ∧
    ((run resubmittedWhileReporting
        [.stderrData 0 "[download]  20.0% of 100.00MiB at 5.00MiB/s ETA 00:16" 6000,
          .stderrData 1 "[download]   1.0% of 100.00MiB at 5.00MiB/s ETA 00:20" 6100]
      ).downloadState.get "a").map JobState.percent = some ⟨10, 1⟩ ∧
    (∀ (c : Proc) (calls : List (Host × String × Nat)),
      List.Pairwise (fun a b => a + 1000 ≤ b) (updateTimes c calls)) :=
  ⟨by decide, by decide, by decide, fun c calls => (updateTimes_spaced calls c).2⟩

/-- C27: after `a` was cancelled and submitted again, the late exit of the killed process
removes the entry of the new process from `activeProcs` and sets the new job to `error`,
although the new process is still running; a further submission is then launched, so that
three processes that have not closed exist at once. -/
theorem late_close_frees_slot_of_new_process :
    resubmitted.activeProcs = [("b", 1), ("a", 2)] ∧
      (resubmitted.downloadState.get "a").map JobState.status = some Status.downloading ∧
      (step resubmitted (.close 0 none finalizeOk)).activeProcs = [("b", 1)] ∧
      (findProc (step resubmitted (.close 0 none finalizeOk)).procs 2).map Proc.videoId
        = some "a" ∧
      ((step resubmitted (.close 0 none finalizeOk)).downloadState.get "a").map
          (fun st => (st.status, st.error))
        = some (Status.error, some "yt-dlp exited with code null") ∧
      (run resubmitted [.close 0 none finalizeOk, .submit "c" none]).procs.map
          (fun p => (p.1, p.2.videoId))
        = [(1, "b"), (2, "a"), (3, "c")] ∧
      MAX_CONCURRENT < (run resubmitted [.close 0 none finalizeOk, .submit "c" none]).procs.length := by
  decide

/-- C28: submitting `a` twice while two other jobs run puts two entries for `a` into the
queue; after the first exit `a` is both running and queued, and when that run of `a`
exits next, the second entry is launched, so that `a` is downloaded twice. -/
theorem queue_holds_id_twice :
    queuedTwice.downloadQueue.map QueueEntry.videoId = ["a", "a"] ∧
      (step queuedTwice (.close 0 (some 0) finalizeOk)).activeProcs.has "a" = true ∧
      (step queuedTwice (.close 0 (some 0) finalizeOk)).downloadQueue.map QueueEntry.videoId
        = ["a"] ∧
      (step queuedTwice (.close 0 (some 0) finalizeOk)).procs.map (fun p => (p.1, p.2.videoId))
        = [(1, "y"), (2, "a")] ∧
      (run queuedTwice [.close 0 (some 0) finalizeOk, .close 2 (some 0) finalizeOk]).procs.map
          (fun p => (p.1, p.2.videoId))
        = [(1, "y"), (3, "a")] := by
  decide

/-- C29: for a file of 10 bytes the header `bytes=5-2` is answered 206 with start 5, end 2
and a `Content-Length` of -2; ranges that reach beyond the file are answered 416. -/
theorem reversed_range_is_answered_206 :
    rangeAnswer 10 (some "bytes=5-2") = .partialContent 5 2 (-2) ∧
      rangeAnswer 10 (some "bytes=0-") = .partialContent 0 9 10 ∧
      rangeAnswer 10 (some "bytes=0-10") = .rangeNotSatisfiable ∧
      rangeAnswer 10 (some "bytes=10-") = .rangeNotSatisfiable := by
  decide

/-- C30: after `a` was cancelled and submitted again, the late exit of the killed process
marks the new job as failed, and when the new process then finishes, the job is `done`
with percent 100 and a file path but still carries the error text of the killed process.
In every reachable state a waiting or running job has no error text, a failed job has a
non-empty error text and a finished job has a file path. -/
theorem done_job_keeps_error_text_of_killed_process :
    (finishedAfterLateClose.downloadState.get "a").map
        (fun st => (st.status, st.percent, st.filePath, st.error))
      = some (Status.done, ⟨100, 0⟩, some "videos/channels/c/v.mp4",
          some "yt-dlp exited with code null") ∧
    (∀ (es : List Event) (i : VideoId),
      match (run Host.init es).downloadState.get i with
      | some st => Consistent st
      | none => True) := by
  refine ⟨by decide, fun es i => ?_⟩
  cases h : (run Host.init es).downloadState.get i with
  | none => trivial
  | some st =>
    exact run_consistent es Host.init (fun j st₁ h₁ => by simp [Host.init, JsMap.get] at h₁) i st h

end Host

namespace Client

theorem foldl_enqueueDownload_concurrency (lc : String → String → Int)
    (feed : List (VideoInfo × Bool)) (s : Client) :
    (feed.foldl (fun t e => enqueueDownload lc t e.1 e.2) s).concurrency = s.concurrency := by
  induction feed generalizing s with
  | nil => rfl
  | cons e rest ih =>
    rw [List.foldl_cons, ih]
    exact step_concurrency lc s (.enqueue e.1 e.2)

theorem pollFeeds_concurrency (lc : String → String → Int) (s : Client) (n : Nat)
    (hasChannels : Bool) (feed : List (VideoInfo × Bool)) :
    (pollFeeds lc s n hasChannels feed).concurrency = if n = 0 then 2 else n := by
  unfold pollFeeds
  simp only
  split_ifs <;> first | rfl | simp [foldl_enqueueDownload_concurrency]

end Client

namespace Options

theorem savedConcurrency_bounds (text : String) :
    1 ≤ savedConcurrency text ∧ savedConcurrency text ≤ 4 := by
  unfold savedConcurrency
  omega

/-- C21: for every text in the concurrency field the options page saves an integer between
1 and 4, namely 2 when the text does not parse to a number or parses to 0 and else the
parsed number brought into the range; the ceiling `pollFeeds` derives from the saved value
is that value. -/
theorem saved_concurrency_in_range (text : String) :
    1 ≤ savedConcurrency text ∧ savedConcurrency text ≤ 4 ∧
      ((parseInt text = none ∨ parseInt text = some 0) → savedConcurrency text = 2) ∧
      (∀ n : Int, parseInt text = some n → n ≠ 0 → savedConcurrency text = min 4 (max 1 n)) ∧
      (∀ (lc : String → String → Int) (s : Client) (hasChannels : Bool)
          (feed : List (VideoInfo × Bool)),
        ((Client.pollFeeds lc s (savedConcurrency text).toNat hasChannels feed).concurrency : Int)
          = savedConcurrency text) := by
  have hb := savedConcurrency_bounds text
  refine ⟨hb.1, hb.2, ?_, ?_, ?_⟩
  · rintro (h | h) <;> simp [savedConcurrency, parseIntOr2, h]
  · intro n h hn
    simp [savedConcurrency, parseIntOr2, h, hn]
  · intro lc s hasChannels feed
    rw [Client.pollFeeds_concurrency]
    have h0 : (savedConcurrency text).toNat ≠ 0 := by omega
    rw [if_neg h0]
    omega

theorem saved_concurrency_in_range_witness :
    (parseInt "" = none ∨ parseInt "" = some 0) ∧ savedConcurrency "" = 2 ∧
      parseInt " 7 jobs" = some 7 ∧ savedConcurrency " 7 jobs" = min 4 (max 1 7) ∧
      savedConcurrency "-1" = 1 :=
  ⟨Or.inl (by decide), (saved_concurrency_in_range "").2.2.1 (Or.inl (by decide)), by decide,
    (saved_concurrency_in_range " 7 jobs").2.2.2.1 7 (by decide) (by decide), by decide⟩

end Options

end TubeStash
